import Mathlib

/-!
# Order placement in `internal/repository/order_repository.go`

A shallow embedding of `OrderRepository.Add`, `CloseOrderRepo`,
`SaveUpdatedOrder` and `DeleteOrder` and of the SQL statements they issue,
and of `validateSearchFilters`, `IngredientsCheckForNewItem` and
`IngredientsCheckByID` of `internal/service`, followed by theorems about the
placement transaction, the order ledger and the three service functions.

Conventions of the embedding.

* The relational store is a record of tables, each a list of rows in storage
  order.  A transaction works on a private copy of the committed tables;
  `Commit` installs the copy, `Rollback` discards it.
* Every call into `database/sql` whose error the code inspects may fail for a
  reason outside the program (lost connection, constraint violation, ...).
  The world carries a list of pending faults; each such call consumes the head
  of the list and fails with the given message when the head is `some msg`.
* Go `int` is 64-bit: products and differences computed in Go are wrapped with
  `wrapInt64`.  Arithmetic done by the store inside SQL is exact.
* A `float64` is represented by the rational it denotes; NaN, the infinities
  and the sign of zero are not represented.  Every `float64` operation rounds
  its exact result to the nearest `float64`, ties to even, each operation on
  its own (no fused multiply-add); a result beyond the largest finite `float64`
  is not turned into an infinity.
* The service functions read the menu and the inventory through `GetAll` and
  drop its error; the lists it hands back are parameters of their embedding.
* A cursor delivers every row the statement selected (`rows.Next` itself is not
  a point of failure; `rows.Scan` is).
* A failed `Commit` installs nothing.  One call of `Add` runs alone against the
  store; interleaving with other transactions is not part of the embedding.
-/

namespace Frappuccino

/-! ## Go integers -/

/-- Two's-complement wrap-around of a Go `int` (64 bits): the representative of
`x` modulo `2^64` in the range `-2^63 .. 2^63 - 1`. -/
def wrapInt64 (x : Int) : Int :=
  (x + 9223372036854775808) % 18446744073709551616 - 9223372036854775808

/-- The integer is representable as a Go `int`: `-2^63 ≤ x < 2^63`. -/
def fitsInt64 (x : Int) : Prop := -9223372036854775808 ≤ x ∧ x < 9223372036854775808

instance (x : Int) : Decidable (fitsInt64 x) :=
  inferInstanceAs (Decidable (-9223372036854775808 ≤ x ∧ x < 9223372036854775808))

/-! ## Go float64 -/

/-- The integer nearest to a rational, a tie going to the even integer. -/
def roundHalfEven (x : ℚ) : Int :=
  if x - ⌊x⌋ < 1 / 2 then ⌊x⌋
  else if 1 / 2 < x - ⌊x⌋ then ⌊x⌋ + 1
  else if ⌊x⌋ % 2 = 0 then ⌊x⌋ else ⌊x⌋ + 1

/-- Exponent of the spacing of the `float64` values around `x`: with 53
significant bits the neighbours of `x` are `2 ^ (⌊log2 |x|⌋ - 52)` apart, and
never closer than `2 ^ (-1074)` (the subnormal range). -/
def float64Spacing (x : ℚ) : Int := max (Int.log 2 |x| - 52) (-1074)

/-- Rounding of an exact result to `float64`: the nearest multiple of the
spacing, ties to even (IEEE 754 round-to-nearest-even, the mode Go uses). -/
def roundFloat64 (x : ℚ) : ℚ :=
  (roundHalfEven (x / 2 ^ float64Spacing x) : ℚ) * 2 ^ float64Spacing x

/-- Go `a + b` on `float64`. -/
def float64Add (a b : ℚ) : ℚ := roundFloat64 (a + b)

/-- Go `a * b` on `float64`. -/
def float64Mul (a b : ℚ) : ℚ := roundFloat64 (a * b)

/-- Go `float64(n)` for an `int`. -/
def float64OfInt (n : Int) : ℚ := roundFloat64 n

/-- The rational is a finite `float64` value: rounding leaves it as it is and
it lies below `2 ^ 1024`. -/
def IsFloat64 (x : ℚ) : Prop := roundFloat64 x = x ∧ |x| < 2 ^ 1024

instance (x : ℚ) : Decidable (IsFloat64 x) := inferInstanceAs (Decidable (_ ∧ _))

/-! ## Request and outcome records (`internal/models`) -/

/-- Modelled from the spec: the type of `models.Order.Notes` is declared in
`internal/models`, which is not among the sources.  The spec calls it an opaque
structured value; `Add` only passes it to `json.Marshal`, which either yields
the encoded text or fails with a message. -/
inductive Notes where
  | encodable (json : String)
  | unencodable (msg : String)
  deriving DecidableEq, Repr

/-- Result of `json.Marshal(order.Notes)`. -/
def jsonMarshal : Notes → Except String String
  | .encodable json => .ok json
  | .unencodable msg => .error msg

/-- Modelled from the spec: `models.OrderItem` (declared in `internal/models`),
with the two fields `Add` reads. -/
structure OrderItem where
  ProductID : Int
  Quantity : Int
  deriving DecidableEq, Repr

/-- Modelled from the spec: `models.Order` (declared in `internal/models`),
with the fields `Add` reads. -/
structure Order where
  CustomerName : String
  Notes : Notes
  Items : List OrderItem
  deriving DecidableEq, Repr

/-- Modelled from the spec: `models.BatchOrderInfo` (declared in
`internal/models`), with the fields `Add` writes. -/
structure BatchOrderInfo where
  OrderID : Int
  CustomerName : String
  Status : String
  Reason : String
  Total : ℚ
  deriving DecidableEq

/-- Modelled from the spec: `models.BatchOrderInventoryUpdate` (declared in
`internal/models`), with the fields `Add` writes. -/
structure BatchOrderInventoryUpdate where
  IngredientID : Int
  Name : String
  Quantity_used : Int
  Remaining : Int
  deriving DecidableEq, Repr

/-- Modelled from the spec: the constant `models.StatusOrderAccepted`
(declared in `internal/models`); the spec names the status `accepted`. -/
def StatusOrderAccepted : String := "accepted"

/-- Modelled from the spec: the constant `models.StatusOrderRejected`
(declared in `internal/models`); the spec names the status `rejected`. -/
def StatusOrderRejected : String := "rejected"

/-! ## Tables -/

/-- A row of `orders`. `Status` and `CreatedAt` are filled in by the store. -/
structure OrderRow where
  ID : Int
  CustomerName : String
  Notes : String
  Status : String
  CreatedAt : Int
  deriving DecidableEq, Repr

/-- A row of `order_items`; `(OrderID, ProductID)` is the conflict target. -/
structure OrderItemRow where
  OrderID : Int
  ProductID : Int
  Quantity : Int
  deriving DecidableEq, Repr

/-- A row of `inventory`. -/
structure InventoryRow where
  IngredientID : Int
  Name : String
  Quantity : Int
  deriving DecidableEq, Repr

/-- A row of `menu_items` (the columns `Add` reads). -/
structure MenuItemRow where
  ID : Int
  Price : ℚ
  deriving DecidableEq

/-- A row of `menu_item_ingredients`. -/
structure MenuItemIngredientRow where
  MenuID : Int
  IngredientID : Int
  Quantity : Int
  deriving DecidableEq, Repr

/-- A row of `order_status_history`.  The sources name only its `orderid`
column (in the `DELETE` of `DeleteOrder`); the rest of the row is carried as
one value. -/
structure OrderStatusHistoryRow where
  OrderID : Int
  Entry : String
  deriving DecidableEq, Repr

/-- The tables the order repository touches. -/
structure Store where
  orders : List OrderRow
  order_items : List OrderItemRow
  inventory : List InventoryRow
  menu_items : List MenuItemRow
  menu_item_ingredients : List MenuItemIngredientRow
  order_status_history : List OrderStatusHistoryRow
  deriving DecidableEq

/-- Modelled from the spec: the column default of `orders.Status` belongs to
the schema, which is not among the sources; the spec gives the status enum
`new`, `closed`, a fresh order being `new`. -/
def orderStatusDefault : String := "new"

/-! ## The SQL statements of `Add`, as functions on the tables -/

/-- Statement `queryOrder`:
`INSERT INTO orders (CustomerName, Notes) VALUES ($1, $2) RETURNING ID`,
with the ID and timestamp the store assigns. -/
def queryOrder (s : Store) (ID now : Int) (CustomerName notesJSON : String) : Store :=
  { s with orders := s.orders ++
      [{ ID := ID, CustomerName := CustomerName, Notes := notesJSON,
         Status := orderStatusDefault, CreatedAt := now }] }

/-- The upsert of `queryOrderItems` on the rows of `order_items`: the first row
with the same `(OrderID, ProductID)` gets the quantity added, otherwise a row
is appended. -/
def upsertOrderItem (ProductID Quantity OrderID : Int) :
    List OrderItemRow → List OrderItemRow
  | [] => [{ OrderID := OrderID, ProductID := ProductID, Quantity := Quantity }]
  | r :: rs =>
    if r.OrderID = OrderID ∧ r.ProductID = ProductID then
      { r with Quantity := r.Quantity + Quantity } :: rs
    else r :: upsertOrderItem ProductID Quantity OrderID rs

/-- Statement `queryOrderItems`:
`INSERT INTO order_items (ProductID, Quantity, OrderID) VALUES ($1, $2, $3)
ON CONFLICT (OrderID, ProductID) DO UPDATE SET Quantity = order_items.Quantity + EXCLUDED.Quantity`. -/
def queryOrderItems (s : Store) (ProductID Quantity OrderID : Int) : Store :=
  { s with order_items := upsertOrderItem ProductID Quantity OrderID s.order_items }

/-- Statement `queryGetPrice`: `SELECT price FROM menu_items WHERE id = $1`
(first row, as `QueryRow` reads it). -/
def queryGetPrice (s : Store) (id : Int) : Option ℚ :=
  (s.menu_items.find? (fun m => decide (m.ID = id))).map (fun m => m.Price)

/-- Statement `queryGetIngredients`:
`SELECT IngredientID, Quantity FROM menu_item_ingredients WHERE MenuID = $1`. -/
def queryGetIngredients (s : Store) (MenuID : Int) : List MenuItemIngredientRow :=
  s.menu_item_ingredients.filter (fun r => decide (r.MenuID = MenuID))

/-- Statement `SELECT quantity, name FROM inventory WHERE IngredientID = $1`
(first row, as `QueryRow` reads it). -/
def queryInventory (s : Store) (IngredientID : Int) : Option (Int × String) :=
  (s.inventory.find? (fun r => decide (r.IngredientID = IngredientID))).map
    (fun r => (r.Quantity, r.Name))

/-- The guarded update of `queryUpdateInventory` on the rows of `inventory`. -/
def updateInventoryRows (amount IngredientID : Int) (rows : List InventoryRow) :
    List InventoryRow :=
  rows.map (fun r =>
    if r.IngredientID = IngredientID ∧ r.Quantity ≥ amount then
      { r with Quantity := r.Quantity - amount }
    else r)

/-- Statement `queryUpdateInventory`:
`UPDATE inventory SET Quantity = Quantity - $1 WHERE IngredientID = $2 AND Quantity >= $1`. -/
def queryUpdateInventory (s : Store) (amount IngredientID : Int) : Store :=
  { s with inventory := updateInventoryRows amount IngredientID s.inventory }

/-! ## The world: committed store, open transaction, pending faults -/

/-- State of the store as seen by one call of a repository function. -/
structure World where
  /-- the committed tables -/
  db : Store
  /-- working copy of the transaction `tx` while it is open -/
  tx : Option Store
  /-- how many times `tx.Rollback()` has been called -/
  rollbackCalls : Nat
  /-- outcome of the coming storage calls: `some msg` makes the call fail -/
  faults : List (Option String)
  /-- the ID the `orders` sequence hands out next -/
  nextOrderID : Int
  /-- the store's clock, for `CreatedAt` -/
  now : Int

/-- Message of `sql.ErrNoRows`. -/
def ErrNoRows : String := "sql: no rows in result set"

/-- Message of `sql.ErrTxDone`. -/
def ErrTxDone : String := "sql: transaction has already been committed or rolled back"

/-- Consume the outcome of the next storage call. -/
def World.nextFault (w : World) : Option String × World :=
  match w.faults with
  | [] => (none, w)
  | f :: fs => (f, { w with faults := fs })

/-- `repo.db.Begin()`: opens a transaction on a copy of the committed tables. -/
def dbBegin (w : World) : Option String × World :=
  match w.nextFault with
  | (some e, w1) => (some e, w1)
  | (none, w1) => (none, { w1 with tx := some w1.db })

/-- One statement executed on the open transaction. -/
def txStep {α : Type} (w : World) (f : Store → Except String (α × Store)) :
    Except String α × World :=
  match w.nextFault with
  | (some e, w1) => (.error e, w1)
  | (none, w1) =>
    match w1.tx with
    | none => (.error ErrTxDone, w1)
    | some s =>
      match f s with
      | .error e => (.error e, w1)
      | .ok (a, s1) => (.ok a, { w1 with tx := some s1 })

/-- `tx.QueryRow(queryOrder, ...).Scan(&ID)`. -/
def txInsertOrder (w : World) (CustomerName notesJSON : String) :
    Except String Int × World :=
  match txStep w (fun s =>
      .ok (w.nextOrderID, queryOrder s w.nextOrderID w.now CustomerName notesJSON)) with
  | (.ok ID, w1) => (.ok ID, { w1 with nextOrderID := w1.nextOrderID + 1 })
  | (.error e, w1) => (.error e, w1)

/-- `tx.Exec(queryOrderItems, v.ProductID, v.Quantity, ID)`. -/
def txExecOrderItems (w : World) (ProductID Quantity ID : Int) :
    Except String Unit × World :=
  txStep w (fun s => .ok ((), queryOrderItems s ProductID Quantity ID))

/-- `tx.QueryRow(queryGetPrice, v.ProductID).Scan(&price)`. -/
def txQueryPrice (w : World) (ProductID : Int) : Except String ℚ × World :=
  txStep w (fun s =>
    match queryGetPrice s ProductID with
    | none => .error ErrNoRows
    | some price => .ok (price, s))

/-- `tx.Query(queryGetIngredients, v.ProductID)`. -/
def txQueryIngredients (w : World) (ProductID : Int) :
    Except String (List MenuItemIngredientRow) × World :=
  txStep w (fun s => .ok (queryGetIngredients s ProductID, s))

/-- `tx.QueryRow("SELECT quantity, name FROM inventory ...", id).Scan(...)`. -/
def txQueryInventory (w : World) (IngredientID : Int) :
    Except String (Int × String) × World :=
  txStep w (fun s =>
    match queryInventory s IngredientID with
    | none => .error ErrNoRows
    | some r => .ok (r, s))

/-- `tx.Exec(queryUpdateInventory, totalRequired, ing.IngredientID)`. -/
def txExecUpdateInventory (w : World) (totalRequired IngredientID : Int) :
    Except String Unit × World :=
  txStep w (fun s => .ok ((), queryUpdateInventory s totalRequired IngredientID))

/-- `tx.Commit()`: on success the working copy becomes the committed state; in
either case the transaction is finished. -/
def txCommit (w : World) : Option String × World :=
  match w.nextFault with
  | (some e, w1) => (some e, { w1 with tx := none })
  | (none, w1) =>
    match w1.tx with
    | none => (some ErrTxDone, w1)
    | some s => (none, { w1 with db := s, tx := none })

/-- `tx.Rollback()`: discards the working copy (the result is ignored by `Add`). -/
def txRollback (w : World) : World :=
  { w with tx := none, rollbackCalls := w.rollbackCalls + 1 }

/-! ## `OrderRepository.Add` -/

/-- The local struct `{IngredientID, RequiredQuantity}` of `Add`. -/
structure Ingredient where
  IngredientID : Int
  RequiredQuantity : Int
  deriving DecidableEq, Repr

/-- A `return` statement of `Add` with a non-nil error, together with the value
the function-scope variable `err` holds at that moment (the variable the
deferred closure reads) and the world reached. -/
structure Returned where
  info : BatchOrderInfo
  updates : List BatchOrderInventoryUpdate
  err : String
  outerErr : Option String
  world : World

/-- What `Add` hands back: its three results and the world after the call. -/
structure AddResult where
  info : BatchOrderInfo
  updates : List BatchOrderInventoryUpdate
  err : Option String
  world : World

/-- Text of the rejection for a short ingredient:
`fmt.Sprintf("insufficient_inventory. IngredientID: %d. Required: %d, Available: %d", ...)`. -/
def insufficientReason (IngredientID totalRequired availableQuantity : Int) : String :=
  "insufficient_inventory. IngredientID: " ++ toString IngredientID ++
    ". Required: " ++ toString totalRequired ++
    ", Available: " ++ toString availableQuantity

/-- The loop `for rows.Next() { rows.Scan(...); ingredients = append(...) }`
(lines 125-136).  The `err` of `if err := rows.Scan(...)` is local to the `if`. -/
def scanIngredients (processInfo : BatchOrderInfo) (outerErr : Option String) :
    List MenuItemIngredientRow → World → List Ingredient →
      Except Returned (List Ingredient × World)
  | [], w, ingredients => .ok (ingredients, w)
  | row :: rows, w, ingredients =>
    match w.nextFault with
    | (some e, w1) =>
      .error { info := { processInfo with
                 Reason := "internal server error. Failed to scan ingredient.", Total := 0 },
               updates := [], err := e, outerErr := outerErr, world := w1 }
    | (none, w1) =>
      scanIngredients processInfo outerErr rows w1
        (ingredients ++ [{ IngredientID := row.IngredientID, RequiredQuantity := row.Quantity }])

/-- The loop `for _, ing := range ingredients` (lines 137-170).  Inside it `err`
is the variable declared by `rows, err := tx.Query(...)` in the body of the
line loop, so the function-scope `err` keeps the value `outerErr`. -/
def ingredientLoop (v : OrderItem) (processInfo : BatchOrderInfo) (outerErr : Option String) :
    List Ingredient → World → List BatchOrderInventoryUpdate →
      Except Returned (World × List BatchOrderInventoryUpdate)
  | [], w, inventoryInfo => .ok (w, inventoryInfo)
  | ing :: rest, w, inventoryInfo =>
    let totalRequired := wrapInt64 (ing.RequiredQuantity * v.Quantity)
    match txQueryInventory w ing.IngredientID with
    | (.error e, w1) =>
      .error { info := { processInfo with
                 Reason := "internal server error. Failed to check inventory. ID=" ++
                   toString ing.IngredientID,
                 Total := 0 },
               updates := [], err := e, outerErr := outerErr, world := w1 }
    | (.ok (availableQuantity, InvName), w1) =>
      if availableQuantity < totalRequired then
        let Reason := insufficientReason ing.IngredientID totalRequired availableQuantity
        .error { info := { processInfo with Reason := Reason, Total := 0 },
                 updates := [], err := Reason, outerErr := outerErr, world := w1 }
      else
        match txExecUpdateInventory w1 totalRequired ing.IngredientID with
        | (.error e, w2) =>
          .error { info := { processInfo with
                     Reason := "internal server error. Failed to update inventory.",
                     Total := 0 },
                   updates := [], err := e, outerErr := outerErr, world := w2 }
        | (.ok _, w2) =>
          ingredientLoop v processInfo outerErr rest w2
            (inventoryInfo ++
              [{ IngredientID := ing.IngredientID, Name := InvName,
                 Quantity_used := totalRequired,
                 Remaining := wrapInt64 (availableQuantity - totalRequired) }])

/-- The loop `for _, v := range order.Items` (lines 94-171).  The two
assignments `_, err = tx.Exec(...)` and `err = tx.QueryRow(...).Scan(&price)`
write the function-scope `err`; from `rows, err := tx.Query(...)` on, the body
uses a new `err`, and the function-scope one stays nil. -/
def lineLoop (ID : Int) :
    List OrderItem → World → BatchOrderInfo → List BatchOrderInventoryUpdate →
      Except Returned (World × BatchOrderInfo × List BatchOrderInventoryUpdate)
  | [], w, processInfo, inventoryInfo => .ok (w, processInfo, inventoryInfo)
  | v :: rest, w, processInfo, inventoryInfo =>
    match txExecOrderItems w v.ProductID v.Quantity ID with
    | (.error e, w1) =>
      .error { info := { processInfo with
                 Reason := "internal server error. " ++ e, Total := 0 },
               updates := [], err := e, outerErr := some e, world := w1 }
    | (.ok _, w1) =>
      match txQueryPrice w1 v.ProductID with
      | (.error e, w2) =>
        .error { info := { processInfo with
                   Reason := "internal server error." ++ e, Total := 0 },
                 updates := [], err := e, outerErr := some e, world := w2 }
      | (.ok price, w2) =>
        let processInfo1 :=
          { processInfo with
            Total := float64Add processInfo.Total (float64Mul (float64OfInt v.Quantity) price) }
        match txQueryIngredients w2 v.ProductID with
        | (.error e, w3) =>
          .error { info := { processInfo1 with
                     Reason := "internal server error. Failed to get ingredients.",
                     Total := 0 },
                   updates := [], err := e, outerErr := none, world := w3 }
        | (.ok rows, w3) =>
          match scanIngredients processInfo1 none rows w3 [] with
          | .error r => .error r
          | .ok (ingredients, w4) =>
            match ingredientLoop v processInfo1 none ingredients w4 inventoryInfo with
            | .error r => .error r
            | .ok (w5, inventoryInfo1) => lineLoop ID rest w5 processInfo1 inventoryInfo1

/-- The body of `Add` after the `defer` statement (lines 50-182): either a
`return` with an error, or the accepted result. -/
def addBody (w : World) (order : Order) (processInfo : BatchOrderInfo) :
    Except Returned AddResult :=
  match jsonMarshal order.Notes with
  | .error e =>
    .error { info := { processInfo with
               Reason := "Notes field in invalid format. Must be json" },
             updates := [], err := "failed to marshal notes: " ++ e,
             outerErr := some e, world := w }
  | .ok notesJSON =>
    match txInsertOrder w order.CustomerName notesJSON with
    | (.error e, w1) =>
      .error { info := { processInfo with
                 Reason := "internal server error. Failed to scan ID" },
               updates := [], err := e, outerErr := some e, world := w1 }
    | (.ok ID, w1) =>
      let processInfo1 := { processInfo with OrderID := ID }
      match lineLoop ID order.Items w1 processInfo1 [] with
      | .error r => .error r
      | .ok (w2, processInfo2, inventoryInfo) =>
        match txCommit w2 with
        | (some e, w3) =>
          .error { info := { processInfo2 with
                     Reason := "Internal server error. Error commiting transaction.",
                     Total := 0 },
                   updates := inventoryInfo, err := e, outerErr := some e, world := w3 }
        | (none, w3) =>
          .ok { info := { processInfo2 with Status := StatusOrderAccepted, Reason := "OK" },
                updates := inventoryInfo, err := none, world := w3 }

/-- The deferred closure `func() { if err != nil { tx.Rollback() } }()`, run
when the body returns; it reads the function-scope `err`. -/
def runDeferred : Except Returned AddResult → AddResult
  | .ok r => r
  | .error r =>
    { info := r.info, updates := r.updates, err := some r.err,
      world := if r.outerErr.isSome then txRollback r.world else r.world }

/-- `func (repo *OrderRepository) Add(order models.Order)`. -/
def Add (w : World) (order : Order) : AddResult :=
  let processInfo : BatchOrderInfo :=
    { OrderID := 0, CustomerName := order.CustomerName, Status := StatusOrderRejected,
      Reason := "", Total := 0 }
  match dbBegin w with
  | (some e, w1) =>
    { info := { processInfo with
        Reason := "internal server error. Failed to start transaction." },
      updates := [], err := some e, world := w1 }
  | (none, w1) => runDeferred (addBody w1 order processInfo)

/-! ## Table-level descriptions used by the theorems -/

/-- The pending faults contain no failure. -/
def NoFaults (faults : List (Option String)) : Prop := ∀ f ∈ faults, f = none

instance (faults : List (Option String)) : Decidable (NoFaults faults) :=
  inferInstanceAs (Decidable (∀ f ∈ faults, f = none))

/-- Unit price of a menu item in the `menu_items` rows. -/
def priceOf (menu : List MenuItemRow) (id : Int) : Option ℚ :=
  (menu.find? (fun m => decide (m.ID = id))).map (fun m => m.Price)

/-- On-hand quantity of an ingredient in the `inventory` rows. -/
def onHand (rows : List InventoryRow) (g : Int) : Option Int :=
  (rows.find? (fun r => decide (r.IngredientID = g))).map (fun r => r.Quantity)

/-- Recipe entries of a menu item in the `menu_item_ingredients` rows. -/
def recipeOf (recipes : List MenuItemIngredientRow) (MenuID : Int) :
    List MenuItemIngredientRow :=
  recipes.filter (fun r => decide (r.MenuID = MenuID))

/-- The price sum of a request: unit price times quantity, over its lines. -/
def orderTotal (menu : List MenuItemRow) (items : List OrderItem) : ℚ :=
  (items.map (fun v => (v.Quantity : ℚ) * (priceOf menu v.ProductID).getD 0)).sum

/-- The `float64` running sum of a request: starting from `Total`, each line in
order adds `float64(quantity) * price`, the conversion, the product and the sum
each rounded to `float64`. -/
def floatTotal (menu : List MenuItemRow) : ℚ → List OrderItem → ℚ
  | Total, [] => Total
  | Total, v :: rest =>
    floatTotal menu
      (float64Add Total
        (float64Mul (float64OfInt v.Quantity) ((priceOf menu v.ProductID).getD 0))) rest

/-- No operation of the running sum rounds: for every line, the quantity, the
exact product `quantity x price` and the exact sum so far are finite `float64`
values. -/
def NoRounding (menu : List MenuItemRow) : ℚ → List OrderItem → Prop
  | _, [] => True
  | Total, v :: rest =>
    IsFloat64 (v.Quantity : ℚ) ∧
    IsFloat64 ((v.Quantity : ℚ) * (priceOf menu v.ProductID).getD 0) ∧
    IsFloat64 (Total + (v.Quantity : ℚ) * (priceOf menu v.ProductID).getD 0) ∧
    NoRounding menu (Total + (v.Quantity : ℚ) * (priceOf menu v.ProductID).getD 0) rest

/-- Whether an operation of the running sum rounds can be computed. -/
def NoRounding.decide (menu : List MenuItemRow) :
    (Total : ℚ) → (items : List OrderItem) → Decidable (NoRounding menu Total items)
  | _, [] => isTrue trivial
  | Total, v :: rest =>
    have := NoRounding.decide menu
      (Total + (v.Quantity : ℚ) * (priceOf menu v.ProductID).getD 0) rest
    inferInstanceAs (Decidable (_ ∧ _ ∧ _ ∧ _))

instance (menu : List MenuItemRow) (Total : ℚ) (items : List OrderItem) :
    Decidable (NoRounding menu Total items) := NoRounding.decide menu Total items

/-- The `(ingredient, totalRequired)` pairs `Add` checks for one line, in recipe
order, with the product as Go computes it. -/
def lineDemands (recipes : List MenuItemIngredientRow) (v : OrderItem) : List (Int × Int) :=
  (recipeOf recipes v.ProductID).map
    (fun r => (r.IngredientID, wrapInt64 (r.Quantity * v.Quantity)))

/-- The pairs `Add` checks for a request, in line order then recipe order. -/
def codeDemands (recipes : List MenuItemIngredientRow) (items : List OrderItem) :
    List (Int × Int) :=
  items.flatMap (lineDemands recipes)

/-- The `(ingredient, recipeQty x lineQuantity)` pairs of a request with exact
products, in line order then recipe order. -/
def orderDemands (recipes : List MenuItemIngredientRow) (items : List OrderItem) :
    List (Int × Int) :=
  items.flatMap (fun v =>
    (recipeOf recipes v.ProductID).map (fun r => (r.IngredientID, r.Quantity * v.Quantity)))

/-- Every product `recipeQty x lineQuantity` of the request is representable as
a Go `int`. -/
def NoOverflow (recipes : List MenuItemIngredientRow) (items : List OrderItem) : Prop :=
  ∀ v ∈ items, ∀ r ∈ recipes, r.MenuID = v.ProductID → fitsInt64 (r.Quantity * v.Quantity)

instance (recipes : List MenuItemIngredientRow) (items : List OrderItem) :
    Decidable (NoOverflow recipes items) :=
  inferInstanceAs (Decidable (∀ v ∈ items, ∀ r ∈ recipes,
    r.MenuID = v.ProductID → fitsInt64 (r.Quantity * v.Quantity)))

/-- Total demand for ingredient `g` in a list of `(ingredient, amount)` pairs. -/
def demandFor (ds : List (Int × Int)) (g : Int) : Int :=
  ((ds.filter (fun d => decide (d.1 = g))).map (fun d => d.2)).sum

/-- Outcome of a sequence of check-and-deduct steps on the inventory rows. -/
inductive Deduction where
  | done (rows : List InventoryRow)
  | short (IngredientID totalRequired availableQuantity : Int)
  | missing (IngredientID : Int)
  deriving DecidableEq

/-- The read, comparison and guarded update of lines 143-156 applied to a list
of `(ingredient, totalRequired)` pairs, on the rows of `inventory`. -/
def deductAll : List InventoryRow → List (Int × Int) → Deduction
  | rows, [] => .done rows
  | rows, (g, req) :: ds =>
    match rows.find? (fun r => decide (r.IngredientID = g)) with
    | none => .missing g
    | some r =>
      if r.Quantity < req then .short g req r.Quantity
      else deductAll (updateInventoryRows req g rows) ds

/-- The upserts of a request on the rows of `order_items`, in line order. -/
def upsertAll (ID : Int) (items : List OrderItem) (rows : List OrderItemRow) :
    List OrderItemRow :=
  items.foldl (fun rows v => upsertOrderItem v.ProductID v.Quantity ID rows) rows

/-- A shortfall: ingredient, required amount, amount available. -/
structure Shortfall where
  IngredientID : Int
  required : Int
  available : Int
  deriving DecidableEq, Repr

/-- The first shortfall met when the demands are taken in order against the
on-hand quantities, each satisfied demand being deducted before the next is
looked at.  The scan stops without a shortfall at an ingredient that has no
inventory entry. -/
def firstShortfall : (Int → Option Int) → List (Int × Int) → Option Shortfall
  | _, [] => none
  | h, (g, req) :: ds =>
    match h g with
    | none => none
    | some a =>
      if a < req then some { IngredientID := g, required := req, available := a }
      else firstShortfall (Function.update h g (some (a - req))) ds

/-- Quantity requested for menu item `m` over all lines of a request. -/
def requestedQuantity (items : List OrderItem) (m : Int) : Int :=
  ((items.filter (fun v => decide (v.ProductID = m))).map (fun v => v.Quantity)).sum

/-- Key of an `order_items` row under the conflict target. -/
def OrderItemRow.key (r : OrderItemRow) : Int × Int := (r.OrderID, r.ProductID)

/-- Two line lists that differ by permuting lines and by merging lines of the
same menu item into one line with the summed quantity. -/
inductive Rearranged : List OrderItem → List OrderItem → Prop
  | perm {l1 l2 : List OrderItem} : l1.Perm l2 → Rearranged l1 l2
  | merge (m a b : Int) (l : List OrderItem) :
      Rearranged ({ ProductID := m, Quantity := a } :: { ProductID := m, Quantity := b } :: l)
        ({ ProductID := m, Quantity := a + b } :: l)
  | cons (v : OrderItem) {l1 l2 : List OrderItem} :
      Rearranged l1 l2 → Rearranged (v :: l1) (v :: l2)
  | symm {l1 l2 : List OrderItem} : Rearranged l1 l2 → Rearranged l2 l1
  | trans {l1 l2 l3 : List OrderItem} :
      Rearranged l1 l2 → Rearranged l2 l3 → Rearranged l1 l3


/-- The world after `n` more storage calls have been answered, with the
transaction's working copy replaced by `tx`. -/
def World.after (w : World) (n : Nat) (tx : Option Store) : World :=
  { w with faults := w.faults.drop n, tx := tx }

/-- What an error `return` inside the loops of `Add` satisfies, relative to the
outcome record and the world at loop entry. -/
def RejectedFrom (p : BatchOrderInfo) (w : World) (outerErr : Option String)
    (r : Returned) : Prop :=
  r.info.Total = 0 ∧ r.info.Status = p.Status ∧ r.info.CustomerName = p.CustomerName ∧
    r.info.OrderID = p.OrderID ∧ r.updates = [] ∧ r.outerErr = outerErr ∧
    ∃ n t, r.world = w.after n t ∧ t.isSome = w.tx.isSome

/-- Quantity stored in `order_items` under a key: the sum over the rows that
carry the key. -/
def storedQuantity (rows : List OrderItemRow) (k : Int × Int) : Int :=
  ((rows.filter (fun r => decide (r.key = k))).map (fun r => r.Quantity)).sum

/-- Every ingredient demanded has an inventory entry whose on-hand quantity
covers the total demanded for it. -/
def Sufficient (rows : List InventoryRow) (ds : List (Int × Int)) : Prop :=
  ∀ g ∈ ds.map Prod.fst, ∃ a, onHand rows g = some a ∧ demandFor ds g ≤ a

/-- A request with two lines for the same menu item. -/
def twoLineOrder (name : String) (notes : Notes) (m a b : Int) : Order :=
  { CustomerName := name, Notes := notes,
    Items := [{ ProductID := m, Quantity := a }, { ProductID := m, Quantity := b }] }

/-- Name of an ingredient in the `inventory` rows. -/
def nameOf (rows : List InventoryRow) (g : Int) : Option String :=
  (rows.find? (fun r => decide (r.IngredientID = g))).map (fun r => r.Name)

/-- The entries that lines 163-169 append for a list of
`(ingredient, totalRequired)` pairs whose checks pass, on the rows of
`inventory`. -/
def recordedEntries : List InventoryRow → List (Int × Int) → List BatchOrderInventoryUpdate
  | _, [] => []
  | rows, (g, req) :: ds =>
    match rows.find? (fun r => decide (r.IngredientID = g)) with
    | none => []
    | some r =>
      { IngredientID := g, Name := r.Name, Quantity_used := req,
        Remaining := wrapInt64 (r.Quantity - req) } ::
        recordedEntries (updateInventoryRows req g rows) ds

/-- The consumption entries of a list of demands taken in order: one entry per
demand, with the ingredient's name, the amount used, and as `Remaining` the
on-hand quantity right after that deduction, every deduction being applied
before the next demand is looked at. -/
def expectedEntries (name : Int → Option String) :
    (Int → Option Int) → List (Int × Int) → List BatchOrderInventoryUpdate
  | _, [] => []
  | h, (g, req) :: ds =>
    { IngredientID := g, Name := (name g).getD "", Quantity_used := req,
      Remaining := (h g).getD 0 - req } ::
      expectedEntries name (Function.update h g (some ((h g).getD 0 - req))) ds

/-! ## `CloseOrderRepo`, `SaveUpdatedOrder`, `DeleteOrder` -/

/-- Modelled from the spec: `models.ErrOrderNotFound` and `models.ErrOrderClosed`
are declared in `internal/models`, which is not among the sources; the spec
names them the not-found error and the state-conflict error of an already
closed order.  They are taken as two distinct error values, next to
`sql.ErrNoRows` and to any other error, known by its text. -/
inductive GoError where
  | ErrNoRows
  | ErrOrderNotFound
  | ErrOrderClosed
  | message (text : String)
  deriving DecidableEq, Repr

/-- One statement executed on `repo.db` outside any transaction: its effect is
committed at once. -/
def dbStep {α : Type} (w : World) (f : Store → Except GoError (α × Store)) :
    Except GoError α × World :=
  match w.nextFault with
  | (some e, w1) => (.error (.message e), w1)
  | (none, w1) =>
    match f w1.db with
    | .error e => (.error e, w1)
    | .ok (a, s1) => (.ok a, { w1 with db := s1 })

/-- Statement `queryCheckStatus`: `SELECT status FROM orders WHERE ID = $1`
(first row, as `QueryRow` reads it). -/
def queryCheckStatus (s : Store) (id : Int) : Option String :=
  (s.orders.find? (fun r => decide (r.ID = id))).map (fun r => r.Status)

/-- Statement `queryToClose`: `UPDATE orders SET status = 'closed' WHERE ID = $1`. -/
def queryToClose (s : Store) (id : Int) : Store :=
  { s with orders := s.orders.map (fun r =>
      if r.ID = id then { r with Status := "closed" } else r) }

/-- `func (repo *OrderRepository) CloseOrderRepo(id int) error`. -/
def CloseOrderRepo (w : World) (id : Int) : Option GoError × World :=
  match dbStep w (fun s =>
      match queryCheckStatus s id with
      | none => .error .ErrNoRows
      | some status => .ok (status, s)) with
  | (.error err, w1) =>
    if err = .ErrNoRows then (some .ErrOrderNotFound, w1) else (some err, w1)
  | (.ok status, w1) =>
    if status = "closed" then (some .ErrOrderClosed, w1)
    else
      match dbStep w1 (fun s => .ok ((), queryToClose s id)) with
      | (.error err, w2) => (some err, w2)
      | (.ok _, w2) => (none, w2)

/-- The world after `n` successive calls `CloseOrderRepo(id)`. -/
def closeRepeatedly (id : Int) : Nat → World → World
  | 0, w => w
  | n + 1, w => (CloseOrderRepo (closeRepeatedly id n w) id).2

/-- Text of the store's error for a parameter that is not an integer. -/
def invalidInteger : String := "pq: invalid input syntax for type integer"

/-- Text of the store's error for a violated unique constraint. -/
def duplicateKey : String := "pq: duplicate key value violates unique constraint"

/-- Statement `queryUpdateOrder`: `update orders set CustomerName = $1 where ID = $2`. -/
def queryUpdateOrder (s : Store) (CustomerName : String) (id : Int) : Store :=
  { s with orders := s.orders.map (fun r =>
      if r.ID = id then { r with CustomerName := CustomerName } else r) }

/-- The rows of `order_items` after
`update order_items set ProductID = $1, Quantity = $2 where OrderID = $3`. -/
def updateOrderItemRows (ProductID Quantity id : Int) (rows : List OrderItemRow) :
    List OrderItemRow :=
  rows.map (fun r =>
    if r.OrderID = id then { r with ProductID := ProductID, Quantity := Quantity } else r)

/-- Statement `queryUpdateOrderItems`.  The conflict target of `queryOrderItems`
needs a unique constraint on `(OrderID, ProductID)`, so the store refuses an
update that leaves two rows with the same pair. -/
def queryUpdateOrderItems (s : Store) (ProductID Quantity id : Int) : Except GoError Store :=
  if ((updateOrderItemRows ProductID Quantity id s.order_items).map OrderItemRow.key).Nodup then
    .ok { s with order_items := updateOrderItemRows ProductID Quantity id s.order_items }
  else .error (.message duplicateKey)

/-- The loop `for _, v := range updatedOrder.Items` of `SaveUpdatedOrder`
(lines 276-284), the order ID being the integer `id`. -/
def updateItemsLoop (id : Int) : List OrderItem → World → Option GoError × World
  | [], w => (none, w)
  | v :: rest, w =>
    match dbStep w (fun s =>
        match queryUpdateOrderItems s v.ProductID v.Quantity id with
        | .error e => .error e
        | .ok s1 => .ok ((), s1)) with
    | (.error err, w1) => (some err, w1)
    | (.ok _, w1) => updateItemsLoop id rest w1

/-- `func (repo *OrderRepository) SaveUpdatedOrder(updatedOrder models.Order, OrderID string) error`.
`OrderID` is a string that the store casts to the integer type of the `ID`
column; `cast` is that conversion, `none` for a text that is not an integer
(every statement carrying it then fails). -/
def SaveUpdatedOrder (cast : String → Option Int) (w : World) (updatedOrder : Order)
    (OrderID : String) : Option GoError × World :=
  match dbStep w (fun s =>
      match cast OrderID with
      | none => .error (.message invalidInteger)
      | some id =>
        match queryCheckStatus s id with
        | none => .error .ErrNoRows
        | some Status => .ok ((Status, id), s)) with
  | (.error err, w1) =>
    if err = .ErrNoRows then (some .ErrOrderNotFound, w1) else (some err, w1)
  | (.ok (Status, id), w1) =>
    if Status = "closed" then (some .ErrOrderClosed, w1)
    else
      match dbStep w1 (fun s =>
          .ok ((), queryUpdateOrder s updatedOrder.CustomerName id)) with
      | (.error err, w2) => (some err, w2)
      | (.ok _, w2) => updateItemsLoop id updatedOrder.Items w2

/-- Statement `queryCheckOrder`: `SELECT EXISTS(SELECT 1 FROM orders WHERE id = $1)`. -/
def queryCheckOrder (s : Store) (id : Int) : Bool :=
  s.orders.any (fun r => decide (r.ID = id))

/-- Statement `queryDeleteOrderStatusHistory`:
`DELETE FROM order_status_history WHERE orderid = $1`. -/
def queryDeleteOrderStatusHistory (s : Store) (id : Int) : Store :=
  { s with order_status_history :=
      s.order_status_history.filter (fun r => !decide (r.OrderID = id)) }

/-- Statement `queryDeleteOrderItems`: `DELETE FROM order_items WHERE orderid = $1`. -/
def queryDeleteOrderItems (s : Store) (id : Int) : Store :=
  { s with order_items := s.order_items.filter (fun r => !decide (r.OrderID = id)) }

/-- Statement `queryDeleteOrder`: `DELETE FROM orders WHERE id = $1`. -/
def queryDeleteOrder (s : Store) (id : Int) : Store :=
  { s with orders := s.orders.filter (fun r => !decide (r.ID = id)) }

/-- `func (repo *OrderRepository) DeleteOrder(OrderID int) error`.  Every error
return after `Begin` calls `tx.Rollback()` itself; where the function-scope
`err` is non-nil at that point the deferred closure calls it once more. -/
def DeleteOrder (w : World) (OrderID : Int) : Option GoError × World :=
  match dbBegin w with
  | (some e, w1) => (some (.message ("error starting transaction: " ++ e)), w1)
  | (none, w1) =>
    match txStep w1 (fun s => .ok (queryCheckOrder s OrderID, s)) with
    | (.error e, w2) =>
      (some (.message ("error checking order existence: " ++ e)),
        txRollback (txRollback w2))
    | (.ok orderExists, w2) =>
      if !orderExists then
        (some (.message "order with given ID not found"), txRollback w2)
      else
        match txStep w2 (fun s => .ok ((), queryDeleteOrderStatusHistory s OrderID)) with
        | (.error e, w3) =>
          (some (.message ("failed to delete related status history records: " ++ e)),
            txRollback (txRollback w3))
        | (.ok _, w3) =>
          match txStep w3 (fun s => .ok ((), queryDeleteOrderItems s OrderID)) with
          | (.error e, w4) =>
            (some (.message ("failed to delete order items: " ++ e)),
              txRollback (txRollback w4))
          | (.ok _, w4) =>
            match txStep w4 (fun s => .ok ((), queryDeleteOrder s OrderID)) with
            | (.error e, w5) =>
              (some (.message ("failed to delete order: " ++ e)),
                txRollback (txRollback w5))
            | (.ok _, w5) =>
              match txCommit w5 with
              | (some e, w6) =>
                (some (.message ("error committing transaction: " ++ e)), txRollback w6)
              | (none, w6) => (none, w6)

/-! ## The service layer (`internal/service`) -/

/-- The error variable `ErrWrongFilterOptions` of `aggregation_service.go`. -/
def ErrWrongFilterOptions : GoError :=
  .message "no such filter. Available filters: orders, menu, all"

/-- `strings.Split(s, sep)` for a separator of one character: the pieces of `s`
between successive occurrences of the separator, in order (a string without
the separator is its own single piece). -/
def stringsSplit (s : String) (sep : Char) : List String :=
  (List.splitOn sep s.toList).map String.mk

/-- The loop `for _, v := range args` of `validateSearchFilters` (lines 87-99),
started with the current values of `isOrders` and `isMenu`. -/
def filterLoop : List String → Bool → Bool → Bool × Bool × Option GoError
  | [], isOrders, isMenu => (isOrders, isMenu, none)
  | v :: rest, isOrders, isMenu =>
    if v ≠ "orders" ∧ v ≠ "menu" ∧ v ≠ "all" then (false, false, some ErrWrongFilterOptions)
    else if v = "orders" then filterLoop rest true isMenu
    else if v = "menu" then filterLoop rest isOrders true
    else if v = "all" then filterLoop rest true true
    else filterLoop rest isOrders isMenu

/-- `func validateSearchFilters(filter string) (bool, bool, error)`: the results
are `isOrders`, `isMenu` and the error. -/
def validateSearchFilters (filter : String) : Bool × Bool × Option GoError :=
  if filter = "" then (true, true, none)
  else filterLoop (stringsSplit filter ',') false false

/-- Modelled from the spec: `models.MenuItemIngredient` (declared in
`internal/models`), with the fields the service reads.  `Quantity` is a
`float64` (it is compared with the `float64` inventory quantity), given as the
rational it denotes. -/
structure MenuItemIngredient where
  IngredientID : Int
  Quantity : ℚ
  deriving DecidableEq

/-- Modelled from the spec: `models.MenuItem` (declared in `internal/models`),
with the fields the service reads. -/
structure MenuItem where
  ID : Int
  Ingredients : List MenuItemIngredient
  deriving DecidableEq

/-- Modelled from the spec: `models.InventoryItem` (declared in
`internal/models`), with the fields the service reads.  `Quantity` is a
`float64`, given as the rational it denotes. -/
structure InventoryItem where
  IngredientID : Int
  Quantity : ℚ
  deriving DecidableEq

/-- Text of `errors.New("not enough ingredients for item")`. -/
def notEnoughIngredients : String := "not enough ingredients for item"

/-- Text of `errors.New("no ingredients for item in inventory")`. -/
def noIngredientsInInventory : String := "no ingredients for item in inventory"

/-- The loop `for _, ingredients := range menuItem.Ingredients` of
`IngredientsCheckForNewItem` (lines 91-98) for one inventory item: the new
value of `count`, or the error returned from inside the loop. -/
def newItemInnerLoop (inventoryItem : InventoryItem) :
    List MenuItemIngredient → Int → Except String Int
  | [], count => .ok count
  | ingredients :: rest, count =>
    if ingredients.IngredientID = inventoryItem.IngredientID then
      if ingredients.Quantity > inventoryItem.Quantity then .error notEnoughIngredients
      else newItemInnerLoop inventoryItem rest (count + 1)
    else newItemInnerLoop inventoryItem rest count

/-- The loop `for _, inventoryItem := range inventoryItems` of
`IngredientsCheckForNewItem` (lines 90-99). -/
def newItemOuterLoop (Ingredients : List MenuItemIngredient) :
    List InventoryItem → Int → Except String Int
  | [], count => .ok count
  | inventoryItem :: rest, count =>
    match newItemInnerLoop inventoryItem Ingredients count with
    | .error e => .error e
    | .ok count1 => newItemOuterLoop Ingredients rest count1

/-- `func (s *MenuService) IngredientsCheckForNewItem(menuItem models.MenuItem) error`.
`inventoryItems` is what `s.inventoryRepo.GetAll()` hands back (its error is
dropped by the code). -/
def IngredientsCheckForNewItem (inventoryItems : List InventoryItem) (menuItem : MenuItem) :
    Option String :=
  match newItemOuterLoop menuItem.Ingredients inventoryItems 0 with
  | .error e => some e
  | .ok count =>
    if count ≠ (menuItem.Ingredients.length : Int) then some noIngredientsInInventory
    else none

/-- The loop `for _, ingr := range item.Ingredients` of `IngredientsCheckByID`
(lines 65-67) on the map `ingredientsNeeded`, a missing key reading as `0`:
`ingredientsNeeded[ingr.IngredientID] += float64(ingr.Quantity) * float64(quantity)`.
`ingr.Quantity` is a `float64` already; the conversion of `quantity`, the
product and the sum each round. -/
def neededLoop (quantity : Int) :
    List MenuItemIngredient → (Int → Option ℚ) → (Int → Option ℚ)
  | [], ingredientsNeeded => ingredientsNeeded
  | ingr :: rest, ingredientsNeeded =>
    neededLoop quantity rest
      (Function.update ingredientsNeeded ingr.IngredientID
        (some (float64Add ((ingredientsNeeded ingr.IngredientID).getD 0)
          (float64Mul ingr.Quantity (float64OfInt quantity)))))

/-- The loop `for _, item := range menuItems` of `IngredientsCheckByID`
(lines 63-69). -/
def menuItemsLoop (menuItemID quantity : Int) :
    List MenuItem → (Int → Option ℚ) → (Int → Option ℚ)
  | [], ingredientsNeeded => ingredientsNeeded
  | item :: rest, ingredientsNeeded =>
    if item.ID = menuItemID then
      menuItemsLoop menuItemID quantity rest (neededLoop quantity item.Ingredients ingredientsNeeded)
    else menuItemsLoop menuItemID quantity rest ingredientsNeeded

/-- The loop `for _, inventoryItem := range inventoryItems` of
`IngredientsCheckByID` (lines 73-80): the final `flag`, or the error returned
from inside the loop. -/
def inventoryLoop (ingredientsNeeded : Int → Option ℚ) :
    List InventoryItem → Bool → Except String Bool
  | [], flag => .ok flag
  | inventoryItem :: rest, flag =>
    match ingredientsNeeded inventoryItem.IngredientID with
    | some value =>
      if value > inventoryItem.Quantity then .error notEnoughIngredients
      else inventoryLoop ingredientsNeeded rest true
    | none => inventoryLoop ingredientsNeeded rest flag

/-- `func (s *MenuService) IngredientsCheckByID(menuItemID int, quantity int) error`.
`menuItems` and `inventoryItems` are what `s.menuRepo.GetAll()` and
`s.inventoryRepo.GetAll()` hand back (their errors are dropped by the code). -/
def IngredientsCheckByID (menuItems : List MenuItem) (inventoryItems : List InventoryItem)
    (menuItemID quantity : Int) : Option String :=
  match inventoryLoop (menuItemsLoop menuItemID quantity menuItems (fun _ => none))
      inventoryItems false with
  | .error e => some e
  | .ok flag => if flag then none else some noIngredientsInInventory

/-- The recipe entries `IngredientsCheckByID` walks for a menu item ID: the
ingredient lists of the menu items carrying the ID, in order. -/
def recipeFor (menuItems : List MenuItem) (menuItemID : Int) : List MenuItemIngredient :=
  (menuItems.filter (fun item => decide (item.ID = menuItemID))).flatMap
    (fun item => item.Ingredients)

/-- Amount of ingredient `g` reached from the amount `start` over the entries of
a recipe, in order: each entry of `g` adds its `float64` product
`recipeQty x float64(quantity)` to the amount so far, product and sum each
rounded. -/
def neededFrom (quantity g : Int) : ℚ → List MenuItemIngredient → ℚ
  | start, [] => start
  | start, e :: rest =>
    if e.IngredientID = g then
      neededFrom quantity g
        (float64Add start (float64Mul e.Quantity (float64OfInt quantity))) rest
    else neededFrom quantity g start rest

/-- Amount of ingredient `g` needed for `quantity` units of a recipe: the
`float64` running sum, from 0, of `recipeQty x float64(quantity)` over the
recipe entries of that ingredient (a single product when the recipe lists the
ingredient once). -/
def neededFor (recipe : List MenuItemIngredient) (quantity g : Int) : ℚ :=
  neededFrom quantity g 0 recipe

/-- The inventory item is an ingredient of the recipe. -/
def InRecipe (recipe : List MenuItemIngredient) (i : InventoryItem) : Prop :=
  ∃ e ∈ recipe, e.IngredientID = i.IngredientID

instance (recipe : List MenuItemIngredient) (i : InventoryItem) :
    Decidable (InRecipe recipe i) :=
  inferInstanceAs (Decidable (∃ e ∈ recipe, e.IngredientID = i.IngredientID))

/-! ## Reading a text: the vocabulary of the statements about texts -/

/-- State of the scan for integers in a text. -/
inductive ScanState where
  | idle
  | minus
  | number (negative : Bool) (value : Nat)
  deriving DecidableEq, Repr

/-- The integer a finished run of digits stands for. -/
def ScanState.emit (negative : Bool) (value : Nat) : Int :=
  if negative then -(value : Int) else (value : Int)

/-- The integers written in a list of characters, left to right: a maximal run
of decimal digits is one integer, negative when a minus sign stands right
before the run. -/
def scanIntegers : ScanState → List Char → List Int
  | .idle, [] => []
  | .minus, [] => []
  | .number negative value, [] => [ScanState.emit negative value]
  | .idle, c :: cs =>
    if c.isDigit then scanIntegers (.number false (c.toNat - 48)) cs
    else if c = '-' then scanIntegers .minus cs
    else scanIntegers .idle cs
  | .minus, c :: cs =>
    if c.isDigit then scanIntegers (.number true (c.toNat - 48)) cs
    else if c = '-' then scanIntegers .minus cs
    else scanIntegers .idle cs
  | .number negative value, c :: cs =>
    if c.isDigit then scanIntegers (.number negative (value * 10 + (c.toNat - 48))) cs
    else if c = '-' then ScanState.emit negative value :: scanIntegers .minus cs
    else ScanState.emit negative value :: scanIntegers .idle cs

/-- The integers a text names, in the order they are written. -/
def integersIn (text : String) : List Int := scanIntegers .idle text.toList

/-- A character that is neither a digit nor a minus sign. -/
def Plain (c : Char) : Prop := c.isDigit = false ∧ c ≠ '-'

instance (c : Char) : Decidable (Plain c) := inferInstanceAs (Decidable (_ ∧ _))

/-- Value of a run of decimal digits read after `value`. -/
def readDigits (value : Nat) (ds : List Char) : Nat :=
  ds.foldl (fun v c => v * 10 + (c.toNat - 48)) value

/-- `tokens` are the comma-separated tokens of `text`: there is at least one,
none of them contains a comma, and written one after another with a comma
between neighbours they give `text`. -/
def CommaSeparated (text : String) (tokens : List String) : Prop :=
  tokens ≠ [] ∧ (∀ t ∈ tokens, ',' ∉ t.toList) ∧ String.intercalate "," tokens = text

instance (text : String) (tokens : List String) : Decidable (CommaSeparated text tokens) :=
  inferInstanceAs (Decidable (_ ∧ _ ∧ _))

/-! ## Concrete scenarios -/

/-- The store of the spec's scenarios: menu item 1 ("Latte", price 3.50) made
of one unit of ingredient 1 (milk) and one unit of ingredient 2 (espresso). -/
def latteStore (milk espresso : Int) : Store :=
  { orders := [], order_items := [],
    inventory := [{ IngredientID := 1, Name := "milk", Quantity := milk },
                  { IngredientID := 2, Name := "espresso", Quantity := espresso }],
    menu_items := [{ ID := 1, Price := 7 / 2 }],
    menu_item_ingredients := [{ MenuID := 1, IngredientID := 1, Quantity := 1 },
                              { MenuID := 1, IngredientID := 2, Quantity := 1 }],
    order_status_history := [] }

/-- A world over `latteStore` with no transaction open and no pending fault. -/
def latteWorld (milk espresso : Int) : World :=
  { db := latteStore milk espresso, tx := none, rollbackCalls := 0, faults := [],
    nextOrderID := 1, now := 0 }

/-- A request for Lattes, one line per given quantity. -/
def latteOrder (quantities : List Int) : Order :=
  { CustomerName := "Ann", Notes := .encodable "\x7b\x7d",
    Items := quantities.map (fun q => { ProductID := 1, Quantity := q }) }

/-- A world over `latteStore` whose coming storage calls are answered by
`faults`. -/
def latteWorldWithFaults (milk espresso : Int) (faults : List (Option String)) : World :=
  { db := latteStore milk espresso, tx := none, rollbackCalls := 0, faults := faults,
    nextOrderID := 1, now := 0 }

/-- Answers for a one-line Latte request in which the twelfth storage call, the
`Commit`, fails: `Begin`, the header insert, the upsert, the price read, the
recipe query, two scans, and two inventory reads and updates succeed. -/
def commitFails : List (Option String) :=
  List.replicate 11 none ++ [some "commit failed"]

/-- A request whose first line is two Lattes and whose second line names menu
item 9, which `latteStore` does not have. -/
def latteThenUnknownOrder : Order :=
  { CustomerName := "Ann", Notes := .encodable "\x7b\x7d",
    Items := [{ ProductID := 1, Quantity := 2 }, { ProductID := 9, Quantity := 1 }] }

/-- A store with menu items 1 and 2, one order (ID 1, status as given) holding
one line (menu item 1, quantity 2), and one status-history row of that order. -/
def oneOrderStore (status : String) : Store :=
  { orders := [{ ID := 1, CustomerName := "Ann", Notes := "", Status := status,
                 CreatedAt := 0 }],
    order_items := [{ OrderID := 1, ProductID := 1, Quantity := 2 }],
    inventory := [{ IngredientID := 1, Name := "milk", Quantity := 10 }],
    menu_items := [{ ID := 1, Price := 7 / 2 }, { ID := 2, Price := 2 }],
    menu_item_ingredients := [{ MenuID := 1, IngredientID := 1, Quantity := 1 }],
    order_status_history := [{ OrderID := 1, Entry := "new" }] }

/-- A world over `oneOrderStore` with no transaction open and no pending fault. -/
def oneOrderWorld (status : String) : World :=
  { db := oneOrderStore status, tx := none, rollbackCalls := 0, faults := [],
    nextOrderID := 2, now := 0 }

/-- A cast that reads the one-character decimal texts `"0"` .. `"9"`. -/
def castDigit (text : String) : Option Int :=
  match text.toList with
  | [c] => if c.isDigit then some ((c.toNat : Int) - 48) else none
  | _ => none

/-- A replacement for order 1 with two lines of distinct menu items. -/
def twoItemUpdate : Order :=
  { CustomerName := "Ann", Notes := .encodable "",
    Items := [{ ProductID := 1, Quantity := 1 }, { ProductID := 2, Quantity := 2 }] }

/-- A request for three Lattes whose notes `json.Marshal` cannot encode. -/
def unencodableOrder : Order :=
  { CustomerName := "Ann", Notes := .unencodable "json: unsupported type",
    Items := [{ ProductID := 1, Quantity := 3 }] }

/-- A replacement for order 1 that renames the customer to Bob and carries one
line (menu item 2, quantity 2). -/
def renameUpdate : Order :=
  { CustomerName := "Bob", Notes := .encodable "",
    Items := [{ ProductID := 2, Quantity := 2 }] }

/-- A world over `oneOrderStore "new"` in which the third storage call fails:
for `SaveUpdatedOrder` with one new line, the status read and the update of
`orders` succeed and the update of `order_items` does not. -/
def itemUpdateFails : World :=
  { db := oneOrderStore "new", tx := none, rollbackCalls := 0,
    faults := [none, none, some "connection lost"], nextOrderID := 2, now := 0 }

/-- A store whose order 1 (status new, customer Ann) holds two lines. -/
def twoLineStore : Store :=
  { orders := [{ ID := 1, CustomerName := "Ann", Notes := "", Status := "new",
                 CreatedAt := 0 }],
    order_items := [{ OrderID := 1, ProductID := 1, Quantity := 2 },
                    { OrderID := 1, ProductID := 2, Quantity := 1 }],
    inventory := [{ IngredientID := 1, Name := "milk", Quantity := 10 }],
    menu_items := [{ ID := 1, Price := 7 / 2 }, { ID := 2, Price := 2 }],
    menu_item_ingredients := [{ MenuID := 1, IngredientID := 1, Quantity := 1 }],
    order_status_history := [] }

/-- A world over `twoLineStore` with no transaction open and no pending fault. -/
def twoLineWorld : World :=
  { db := twoLineStore, tx := none, rollbackCalls := 0, faults := [],
    nextOrderID := 2, now := 0 }

/-- An inventory list as `GetAll` hands it back: 10 of ingredient 1 and 5 of
ingredient 2. -/
def milkAndEspresso : List InventoryItem :=
  [{ IngredientID := 1, Quantity := 10 }, { IngredientID := 2, Quantity := 5 }]

/-- A menu item made of 2 of ingredient 1 and 5 of ingredient 2. -/
def latteItem : MenuItem :=
  { ID := 1, Ingredients := [{ IngredientID := 1, Quantity := 2 },
                             { IngredientID := 2, Quantity := 5 }] }

/-- The `float64` nearest to 0.1. -/
def float64Tenth : ℚ := 3602879701896397 / 36028797018963968

/-- The `float64` nearest to 0.2. -/
def float64Fifth : ℚ := 3602879701896397 / 18014398509481984

/-- The `float64` nearest to 0.3. -/
def float64ThreeTenths : ℚ := 5404319552844595 / 18014398509481984

/-- The `float64` nearest to 1.01. -/
def float64OnePointOhOne : ℚ := 4548635623644201 / 4503599627370496

/-- A store with an empty inventory and three menu items without recipe, priced
0.1, 0.2 and 0.3, and a fourth priced 1.01 (each the nearest `float64`). -/
def kioskStore : Store :=
  { orders := [], order_items := [], inventory := [],
    menu_items := [{ ID := 1, Price := float64Tenth }, { ID := 2, Price := float64Fifth },
                   { ID := 3, Price := float64ThreeTenths },
                   { ID := 4, Price := float64OnePointOhOne }],
    menu_item_ingredients := [], order_status_history := [] }

/-- A world over `kioskStore` with no transaction open and no pending fault. -/
def kioskWorld : World :=
  { db := kioskStore, tx := none, rollbackCalls := 0, faults := [],
    nextOrderID := 1, now := 0 }

/-- A request on `kioskStore`, one line per given (menu item, quantity) pair. -/
def kioskOrder (lines : List (Int × Int)) : Order :=
  { CustomerName := "Ann", Notes := .encodable "\x7b\x7d",
    Items := lines.map (fun l => { ProductID := l.1, Quantity := l.2 }) }

/-- A menu item whose recipe takes 0.1 (the nearest `float64`) of ingredient 1
per unit. -/
def syrupItem : MenuItem :=
  { ID := 1, Ingredients := [{ IngredientID := 1, Quantity := float64Tenth }] }

/-- An inventory with 1 unit of ingredient 1. -/
def syrupStock : List InventoryItem := [{ IngredientID := 1, Quantity := 1 }]

/-- A menu item whose recipe takes 1 of ingredient 1 per unit. -/
def beanItem : MenuItem :=
  { ID := 1, Ingredients := [{ IngredientID := 1, Quantity := 1 }] }

/-- An inventory with 2^53 = 9007199254740992 units of ingredient 1. -/
def beanStock : List InventoryItem := [{ IngredientID := 1, Quantity := 9007199254740992 }]

/-! ## Rounding to `float64` -/

theorem log_two_eq {x : ℚ} {k : Int} (hlo : (2 : ℚ) ^ k ≤ x) (hhi : x < (2 : ℚ) ^ (k + 1)) :
    Int.log 2 |x| = k := by
  have hpos : 0 < x := lt_of_lt_of_le (by positivity) hlo
  rw [abs_of_pos hpos]
  have h1 : k ≤ Int.log 2 x :=
    (Int.zpow_le_iff_le_log (by norm_num) hpos).mp (by exact_mod_cast hlo)
  have h2 : Int.log 2 x < k + 1 :=
    (Int.lt_zpow_iff_log_lt (by norm_num) hpos).mp (by exact_mod_cast hhi)
  omega

theorem roundHalfEven_of_near {y : ℚ} {m : Int} (h1 : (m : ℚ) - 1 / 2 < y)
    (h2 : y < (m : ℚ) + 1 / 2) : roundHalfEven y = m := by
  unfold roundHalfEven
  by_cases hm : (m : ℚ) ≤ y
  · have hf : ⌊y⌋ = m := Int.floor_eq_iff.mpr ⟨hm, by linarith⟩
    rw [hf, if_pos (by linarith)]
  · have hf : ⌊y⌋ = m - 1 :=
      Int.floor_eq_iff.mpr ⟨by push_cast; linarith, by push_cast; linarith⟩
    rw [hf]
    have h3 : ¬ (y - ((m - 1 : Int) : ℚ) < 1 / 2) := by push_cast; linarith
    have h4 : 1 / 2 < y - ((m - 1 : Int) : ℚ) := by push_cast; linarith
    rw [if_neg h3, if_pos h4]
    omega

theorem roundHalfEven_of_tie {y : ℚ} {m : Int} (h : y = (m : ℚ) + 1 / 2) :
    roundHalfEven y = if m % 2 = 0 then m else m + 1 := by
  unfold roundHalfEven
  have hf : ⌊y⌋ = m := Int.floor_eq_iff.mpr ⟨by linarith, by linarith⟩
  rw [hf, h]
  have h3 : ¬ ((m : ℚ) + 1 / 2 - m < 1 / 2) := by linarith
  have h4 : ¬ (1 / 2 < (m : ℚ) + 1 / 2 - m) := by linarith
  rw [if_neg h3, if_neg h4]

/-- Rounding of a positive `x` with `2 ^ k ≤ x < 2 ^ (k + 1)` in the normal
range: the multiple `m` of `2 ^ (k - 52)` nearest to it. -/
theorem roundFloat64_of_near {x : ℚ} (k m : Int) (hlo : (2 : ℚ) ^ k ≤ x)
    (hhi : x < (2 : ℚ) ^ (k + 1)) (hk : -1022 ≤ k)
    (h1 : (m : ℚ) - 1 / 2 < x / 2 ^ (k - 52)) (h2 : x / 2 ^ (k - 52) < (m : ℚ) + 1 / 2) :
    roundFloat64 x = (m : ℚ) * 2 ^ (k - 52) := by
  unfold roundFloat64 float64Spacing
  rw [log_two_eq hlo hhi, max_eq_left (by omega), roundHalfEven_of_near h1 h2]

/-- Rounding of a positive `x` that lies half-way between two neighbouring
multiples of `2 ^ (k - 52)`: the one with the even multiplier. -/
theorem roundFloat64_of_tie {x : ℚ} (k m : Int) (hlo : (2 : ℚ) ^ k ≤ x)
    (hhi : x < (2 : ℚ) ^ (k + 1)) (hk : -1022 ≤ k)
    (h : x / 2 ^ (k - 52) = (m : ℚ) + 1 / 2) :
    roundFloat64 x = ((if m % 2 = 0 then m else m + 1 : Int) : ℚ) * 2 ^ (k - 52) := by
  unfold roundFloat64 float64Spacing
  rw [log_two_eq hlo hhi, max_eq_left (by omega), roundHalfEven_of_tie h]

theorem roundFloat64_zero : roundFloat64 0 = 0 := by
  unfold roundFloat64
  rw [zero_div, roundHalfEven_of_near (m := 0) (by norm_num) (by norm_num)]
  simp

/-- A positive multiple `m` of the spacing `2 ^ (k - 52)` with
`2 ^ k ≤ x < 2 ^ (k + 1)` in the normal range, below `2 ^ 1024`, is a finite
`float64` value. -/
theorem isFloat64_of_small {x : ℚ} (k m : Int) (hlo : (2 : ℚ) ^ k ≤ x)
    (hhi : x < (2 : ℚ) ^ (k + 1)) (hx : x = (m : ℚ) * 2 ^ (k - 52)) (hk : -1022 ≤ k)
    (hk2 : k < 1024) : IsFloat64 x := by
  have hpos : 0 < x := lt_of_lt_of_le (by positivity) hlo
  have h2 : (0 : ℚ) < 2 ^ (k - 52) := by positivity
  refine ⟨?_, ?_⟩
  · rw [roundFloat64_of_near k m hlo hhi hk, ← hx]
    · rw [hx, mul_div_cancel_right₀ _ (ne_of_gt h2)]
      linarith
    · rw [hx, mul_div_cancel_right₀ _ (ne_of_gt h2)]
      linarith
  · rw [abs_of_pos hpos]
    have h3 : (2 : ℚ) ^ (k + 1) ≤ (2 : ℚ) ^ ((1024 : ℕ) : ℤ) :=
      zpow_le_zpow_right₀ (by norm_num) (by omega)
    rw [zpow_natCast] at h3
    exact lt_of_lt_of_le hhi h3

/-- When no operation rounds, the `float64` running sum is the exact sum. -/
theorem floatTotal_of_noRounding (menu : List MenuItemRow) (Total : ℚ)
    (items : List OrderItem) (h : NoRounding menu Total items) :
    floatTotal menu Total items = Total + orderTotal menu items := by
  induction items generalizing Total with
  | nil => simp [floatTotal, orderTotal]
  | cons v rest ih =>
    obtain ⟨hq, hp, hs, hrest⟩ := h
    have e1 : float64OfInt v.Quantity = (v.Quantity : ℚ) := hq.1
    have e2 : float64Mul (v.Quantity : ℚ) ((priceOf menu v.ProductID).getD 0) =
        (v.Quantity : ℚ) * (priceOf menu v.ProductID).getD 0 := hp.1
    have e3 : float64Add Total ((v.Quantity : ℚ) * (priceOf menu v.ProductID).getD 0) =
        Total + (v.Quantity : ℚ) * (priceOf menu v.ProductID).getD 0 := hs.1
    simp only [floatTotal]
    rw [e1, e2, e3, ih _ hrest]
    simp only [orderTotal, List.map_cons, List.sum_cons]
    ring

/-- The conversions `float64(1)`, `float64(2)`, `float64(3)` and `float64(5)`
are exact. -/
theorem float64OfInt_small :
    float64OfInt 1 = 1 ∧ float64OfInt 2 = 2 ∧ float64OfInt 3 = 3 ∧ float64OfInt 5 = 5 := by
  unfold float64OfInt
  refine ⟨?_, ?_, ?_, ?_⟩
  · rw [roundFloat64_of_near 0 4503599627370496 (by norm_num) (by norm_num) (by norm_num)
      (by norm_num) (by norm_num)]
    norm_num
  · rw [roundFloat64_of_near 1 4503599627370496 (by norm_num) (by norm_num) (by norm_num)
      (by norm_num) (by norm_num)]
    norm_num
  · rw [roundFloat64_of_near 1 6755399441055744 (by norm_num) (by norm_num) (by norm_num)
      (by norm_num) (by norm_num)]
    norm_num
  · rw [roundFloat64_of_near 2 5629499534213120 (by norm_num) (by norm_num) (by norm_num)
      (by norm_num) (by norm_num)]
    norm_num

/-- 3 x 0.1 in `float64` is 0.30000000000000004: the exact product lies
half-way between two neighbours and goes to the even one. -/
theorem float64Mul_three_tenth :
    float64Mul 3 float64Tenth = 1351079888211149 / 4503599627370496 := by
  unfold float64Mul float64Tenth
  rw [roundFloat64_of_tie (-2) 5404319552844595 (by norm_num) (by norm_num) (by norm_num)
    (by norm_num)]
  norm_num

theorem float64Add_zero_three_tenths :
    float64Add 0 (1351079888211149 / 4503599627370496) = 1351079888211149 / 4503599627370496 := by
  unfold float64Add
  rw [roundFloat64_of_near (-2) 5404319552844596 (by norm_num) (by norm_num) (by norm_num)
    (by norm_num) (by norm_num)]
  norm_num

theorem roundFloat64_tenth : roundFloat64 float64Tenth = float64Tenth := by
  unfold float64Tenth
  rw [roundFloat64_of_near (-4) 7205759403792794 (by norm_num) (by norm_num) (by norm_num)
    (by norm_num) (by norm_num)]
  norm_num

theorem roundFloat64_fifth : roundFloat64 float64Fifth = float64Fifth := by
  unfold float64Fifth
  rw [roundFloat64_of_near (-3) 7205759403792794 (by norm_num) (by norm_num) (by norm_num)
    (by norm_num) (by norm_num)]
  norm_num

theorem roundFloat64_threeTenths : roundFloat64 float64ThreeTenths = float64ThreeTenths := by
  unfold float64ThreeTenths
  rw [roundFloat64_of_near (-2) 5404319552844595 (by norm_num) (by norm_num) (by norm_num)
    (by norm_num) (by norm_num)]
  norm_num

/-- 0.1 + 0.2 in `float64` is 0.30000000000000004. -/
theorem float64Add_tenth_fifth :
    float64Add float64Tenth float64Fifth = 1351079888211149 / 4503599627370496 := by
  unfold float64Add float64Tenth float64Fifth
  rw [roundFloat64_of_tie (-2) 5404319552844595 (by norm_num) (by norm_num) (by norm_num)
    (by norm_num)]
  norm_num

/-- 0.30000000000000004 + 0.3 in `float64` is 0.6000000000000001. -/
theorem float64Add_sum_threeTenths :
    float64Add (1351079888211149 / 4503599627370496) float64ThreeTenths
      = 1351079888211149 / 2251799813685248 := by
  unfold float64Add float64ThreeTenths
  rw [roundFloat64_of_tie (-1) 5404319552844595 (by norm_num) (by norm_num) (by norm_num)
    (by norm_num)]
  norm_num

/-- 0.3 + 0.2 in `float64` is 0.5. -/
theorem float64Add_threeTenths_fifth :
    float64Add float64ThreeTenths float64Fifth = 1 / 2 := by
  unfold float64Add float64ThreeTenths float64Fifth
  rw [roundFloat64_of_near (-1) 4503599627370496 (by norm_num) (by norm_num) (by norm_num)
    (by norm_num) (by norm_num)]
  norm_num

/-- 0.5 + 0.1 in `float64` is 0.6. -/
theorem float64Add_half_tenth :
    float64Add (1 / 2) float64Tenth = 5404319552844595 / 9007199254740992 := by
  unfold float64Add float64Tenth
  rw [roundFloat64_of_near (-1) 5404319552844595 (by norm_num) (by norm_num) (by norm_num)
    (by norm_num) (by norm_num)]
  norm_num

theorem kiosk_prices :
    priceOf kioskWorld.db.menu_items 1 = some float64Tenth ∧
    priceOf kioskWorld.db.menu_items 2 = some float64Fifth ∧
    priceOf kioskWorld.db.menu_items 3 = some float64ThreeTenths ∧
    priceOf kioskWorld.db.menu_items 4 = some float64OnePointOhOne := by
  simp [priceOf, kioskWorld, kioskStore]

theorem isFloat64_three : IsFloat64 3 := by
  refine ⟨?_, by norm_num [abs_of_pos]⟩
  rw [roundFloat64_of_near 1 6755399441055744 (by norm_num) (by norm_num) (by norm_num)
    (by norm_num) (by norm_num)]
  norm_num

theorem isFloat64_ten_and_a_half : IsFloat64 (21 / 2) := by
  refine ⟨?_, by norm_num [abs_of_pos]⟩
  rw [roundFloat64_of_near 3 5910974510923776 (by norm_num) (by norm_num) (by norm_num)
    (by norm_num) (by norm_num)]
  norm_num

/-- Three Lattes at 3.50: no operation of the running sum rounds. -/
theorem latte_noRounding :
    NoRounding (latteWorld 10 10).db.menu_items 0 (latteOrder [3]).Items := by
  have hprice : priceOf (latteWorld 10 10).db.menu_items 1 = some (7 / 2) := by
    simp [priceOf, latteWorld, latteStore]
  simp only [latteOrder, List.map_cons, List.map_nil, NoRounding, hprice, Option.getD_some,
    and_true]
  norm_num
  exact ⟨isFloat64_three, isFloat64_ten_and_a_half⟩

/-! ## Storage primitives -/

theorem nextFault_snd (w : World) :
    w.nextFault.2 = { w with faults := w.faults.tail } := by
  obtain ⟨db, tx, rc, faults, nid, now⟩ := w
  cases faults <;> rfl

theorem nextFault_fst_of_noFaults {w : World} (hf : NoFaults w.faults) :
    w.nextFault.1 = none := by
  obtain ⟨db, tx, rc, faults, nid, now⟩ := w
  cases faults with
  | nil => rfl
  | cons f fs => exact hf f (List.mem_cons_self _ _)

theorem noFaults_tail {fs : List (Option String)} (hf : NoFaults fs) : NoFaults fs.tail :=
  fun f hm => hf f (List.mem_of_mem_tail hm)

theorem noFaults_drop {fs : List (Option String)} (hf : NoFaults fs) (n : Nat) :
    NoFaults (fs.drop n) :=
  fun f hm => hf f (List.mem_of_mem_drop hm)

theorem txStep_ok {α : Type} {w w1 : World} {f : Store → Except String (α × Store)} {a : α}
    (h : txStep w f = (.ok a, w1)) :
    ∃ s s1, w.tx = some s ∧ f s = .ok (a, s1) ∧
      w1 = w.after 1 (some s1) := by
  unfold txStep at h
  have hn := nextFault_snd w
  rcases hnf : w.nextFault with ⟨fo, w0⟩
  rw [hnf] at h hn
  simp only at hn
  subst hn
  cases fo with
  | some e => simp at h
  | none =>
    simp only at h
    cases ht : w.tx with
    | none => simp [ht] at h
    | some s =>
      simp only [ht] at h
      cases hfs : f s with
      | error e => simp [hfs] at h
      | ok p =>
        obtain ⟨a1, s1⟩ := p
        simp only [hfs, Prod.mk.injEq, Except.ok.injEq] at h
        exact ⟨s, s1, rfl, by rw [hfs, h.1], by rw [← h.2]; simp [World.after]⟩

theorem txStep_error {α : Type} {w w1 : World} {f : Store → Except String (α × Store)}
    {e : String} (h : txStep w f = (.error e, w1)) :
    w1 = w.after 1 w.tx := by
  have key : w1 = { w with faults := w.faults.tail } := by
    unfold txStep at h
    have hn := nextFault_snd w
    rcases hnf : w.nextFault with ⟨fo, w0⟩
    rw [hnf] at h hn
    simp only at hn
    subst hn
    cases fo with
    | some e1 => simp only [Prod.mk.injEq] at h; exact h.2.symm
    | none =>
      simp only at h
      cases ht : w.tx with
      | none => simp only [ht, Prod.mk.injEq] at h; exact h.2.symm
      | some s =>
        simp only [ht] at h
        cases hfs : f s with
        | error e1 => simp only [hfs, Prod.mk.injEq] at h; exact h.2.symm
        | ok p => obtain ⟨a1, s1⟩ := p; simp [hfs] at h
  rw [key]; simp [World.after]

theorem txStep_of_noFaults {α : Type} {w : World} {s : Store}
    (f : Store → Except String (α × Store)) (hf : NoFaults w.faults) (hs : w.tx = some s) :
    txStep w f =
      match f s with
      | .error e => (.error e, w.after 1 (some s))
      | .ok (a, s1) => (.ok a, w.after 1 (some s1)) := by
  unfold txStep
  have hn := nextFault_snd w
  have h1 := nextFault_fst_of_noFaults hf
  rcases hnf : w.nextFault with ⟨fo, w0⟩
  rw [hnf] at hn h1
  simp only at hn h1
  subst hn h1
  simp only [hs]
  cases f s with
  | error e => simp [World.after, hs]
  | ok p => simp [World.after]

@[simp] theorem after_db (w : World) (n : Nat) (t : Option Store) : (w.after n t).db = w.db := rfl
@[simp] theorem after_tx (w : World) (n : Nat) (t : Option Store) : (w.after n t).tx = t := rfl
@[simp] theorem after_rollbackCalls (w : World) (n : Nat) (t : Option Store) :
    (w.after n t).rollbackCalls = w.rollbackCalls := rfl
@[simp] theorem after_nextOrderID (w : World) (n : Nat) (t : Option Store) :
    (w.after n t).nextOrderID = w.nextOrderID := rfl
@[simp] theorem after_now (w : World) (n : Nat) (t : Option Store) : (w.after n t).now = w.now := rfl
@[simp] theorem after_faults (w : World) (n : Nat) (t : Option Store) :
    (w.after n t).faults = w.faults.drop n := rfl

@[simp] theorem after_after (w : World) (n m : Nat) (t u : Option Store) :
    (w.after n t).after m u = w.after (n + m) u := by
  simp [World.after, List.drop_drop, Nat.add_comm]

theorem after_zero (w : World) : w.after 0 w.tx = w := by
  simp [World.after]

theorem noFaults_after {w : World} (hf : NoFaults w.faults) (n : Nat) (t : Option Store) :
    NoFaults (w.after n t).faults :=
  noFaults_drop hf n

theorem txExecOrderItems_ok {w w1 : World} {pid q id : Int} {u : Unit}
    (h : txExecOrderItems w pid q id = (.ok u, w1)) :
    ∃ s, w.tx = some s ∧ w1 = w.after 1 (some (queryOrderItems s pid q id)) := by
  obtain ⟨s, s1, hs, hf, hw⟩ := txStep_ok h
  simp only [Except.ok.injEq, Prod.mk.injEq] at hf
  exact ⟨s, hs, by rw [hw, ← hf.2]⟩

theorem txQueryPrice_ok {w w1 : World} {pid : Int} {price : ℚ}
    (h : txQueryPrice w pid = (.ok price, w1)) :
    ∃ s, w.tx = some s ∧ queryGetPrice s pid = some price ∧ w1 = w.after 1 (some s) := by
  obtain ⟨s, s1, hs, hf, hw⟩ := txStep_ok h
  cases hq : queryGetPrice s pid with
  | none => simp [hq] at hf
  | some x =>
    simp only [hq, Except.ok.injEq, Prod.mk.injEq] at hf
    exact ⟨s, hs, by rw [hq, hf.1], by rw [hw, ← hf.2]⟩

theorem txQueryIngredients_ok {w w1 : World} {pid : Int} {rows : List MenuItemIngredientRow}
    (h : txQueryIngredients w pid = (.ok rows, w1)) :
    ∃ s, w.tx = some s ∧ rows = queryGetIngredients s pid ∧ w1 = w.after 1 (some s) := by
  obtain ⟨s, s1, hs, hf, hw⟩ := txStep_ok h
  simp only [Except.ok.injEq, Prod.mk.injEq] at hf
  exact ⟨s, hs, hf.1.symm, by rw [hw, ← hf.2]⟩

theorem txQueryInventory_ok {w w1 : World} {g a : Int} {name : String}
    (h : txQueryInventory w g = (.ok (a, name), w1)) :
    ∃ s, w.tx = some s ∧ queryInventory s g = some (a, name) ∧ w1 = w.after 1 (some s) := by
  obtain ⟨s, s1, hs, hf, hw⟩ := txStep_ok h
  cases hq : queryInventory s g with
  | none => simp [hq] at hf
  | some x =>
    simp only [hq, Except.ok.injEq, Prod.mk.injEq] at hf
    exact ⟨s, hs, by rw [hq, hf.1], by rw [hw, ← hf.2]⟩

theorem txExecUpdateInventory_ok {w w1 : World} {amount g : Int} {u : Unit}
    (h : txExecUpdateInventory w amount g = (.ok u, w1)) :
    ∃ s, w.tx = some s ∧ w1 = w.after 1 (some (queryUpdateInventory s amount g)) := by
  obtain ⟨s, s1, hs, hf, hw⟩ := txStep_ok h
  simp only [Except.ok.injEq, Prod.mk.injEq] at hf
  exact ⟨s, hs, by rw [hw, ← hf.2]⟩

theorem queryInventory_some {s : Store} {g a : Int} {name : String}
    (h : queryInventory s g = some (a, name)) :
    ∃ r, s.inventory.find? (fun r => decide (r.IngredientID = g)) = some r ∧
      r.Quantity = a ∧ r.Name = name := by
  unfold queryInventory at h
  cases hf : s.inventory.find? (fun r => decide (r.IngredientID = g)) with
  | none => simp [hf] at h
  | some r =>
    simp only [hf, Option.map_some', Option.some.injEq, Prod.mk.injEq] at h
    exact ⟨r, rfl, h.1, h.2⟩

/-! ## The cursor loop -/

theorem scanIngredients_ok {p : BatchOrderInfo} {oe : Option String}
    {rows : List MenuItemIngredientRow} {w w1 : World} {acc ings : List Ingredient}
    (h : scanIngredients p oe rows w acc = .ok (ings, w1)) :
    ings = acc ++ rows.map (fun row =>
        ({ IngredientID := row.IngredientID, RequiredQuantity := row.Quantity } : Ingredient)) ∧
      w1 = w.after rows.length w.tx := by
  induction rows generalizing w acc with
  | nil =>
    simp only [scanIngredients, Except.ok.injEq, Prod.mk.injEq] at h
    refine ⟨by simp [h.1], ?_⟩
    rw [← h.2]; exact (after_zero w).symm
  | cons row rows ih =>
    simp only [scanIngredients] at h
    have hn := nextFault_snd w
    rcases hnf : w.nextFault with ⟨fo, w0⟩
    rw [hnf] at h hn
    simp only at hn
    subst hn
    cases fo with
    | some e => simp at h
    | none =>
      simp only at h
      obtain ⟨h1, h2⟩ := ih h
      refine ⟨by simp [h1], ?_⟩
      rw [h2]
      simp [World.after, Nat.add_comm]

theorem scanIngredients_error {p : BatchOrderInfo} {oe : Option String}
    {rows : List MenuItemIngredientRow} {w : World} {acc : List Ingredient} {r : Returned}
    (h : scanIngredients p oe rows w acc = .error r) :
    RejectedFrom p w oe r := by
  induction rows generalizing w acc with
  | nil => simp [scanIngredients] at h
  | cons row rows ih =>
    simp only [scanIngredients] at h
    have hn := nextFault_snd w
    rcases hnf : w.nextFault with ⟨fo, w0⟩
    rw [hnf] at h hn
    simp only at hn
    subst hn
    cases fo with
    | some e =>
      simp only [Except.error.injEq] at h
      subst h
      exact ⟨rfl, rfl, rfl, rfl, rfl, rfl, 1, w.tx, by simp [World.after], rfl⟩
    | none =>
      simp only at h
      obtain ⟨h1, h2, h3, h4, h5, h6, n, t, h7, h8⟩ := ih h
      refine ⟨h1, h2, h3, h4, h5, h6, 1 + n, t, ?_, ?_⟩
      · rw [h7]; simp [World.after, Nat.add_comm]
      · simpa using h8

theorem scanIngredients_of_noFaults (p : BatchOrderInfo) (oe : Option String)
    (rows : List MenuItemIngredientRow) (w : World) (acc : List Ingredient)
    (hf : NoFaults w.faults) :
    scanIngredients p oe rows w acc =
      .ok (acc ++ rows.map (fun row =>
        ({ IngredientID := row.IngredientID, RequiredQuantity := row.Quantity } : Ingredient)),
        w.after rows.length w.tx) := by
  induction rows generalizing w acc with
  | nil => simp [scanIngredients, after_zero]
  | cons row rows ih =>
    simp only [scanIngredients]
    have hn := nextFault_snd w
    have h1 := nextFault_fst_of_noFaults hf
    rcases hnf : w.nextFault with ⟨fo, w0⟩
    rw [hnf] at hn h1
    simp only at hn h1
    subst hn h1
    simp only
    rw [ih _ _ (noFaults_tail hf)]
    simp [World.after, Nat.add_comm]

/-! ## The ingredient loop -/

theorem ingredientLoop_error {v : OrderItem} {p : BatchOrderInfo} {oe : Option String}
    {ings : List Ingredient} {w : World} {inv : List BatchOrderInventoryUpdate} {r : Returned}
    (h : ingredientLoop v p oe ings w inv = .error r) :
    RejectedFrom p w oe r := by
  induction ings generalizing w inv with
  | nil => simp [ingredientLoop] at h
  | cons ing rest ih =>
    simp only [ingredientLoop] at h
    rcases hq : txQueryInventory w ing.IngredientID with ⟨res, w1⟩
    rw [hq] at h
    cases res with
    | error e =>
      simp only [Except.error.injEq] at h
      subst h
      exact ⟨rfl, rfl, rfl, rfl, rfl, rfl, 1, w.tx, txStep_error hq, rfl⟩
    | ok an =>
      obtain ⟨a, name⟩ := an
      simp only at h
      obtain ⟨s, hs, hqi, hw1⟩ := txQueryInventory_ok hq
      split at h
      · simp only [Except.error.injEq] at h
        subst h
        exact ⟨rfl, rfl, rfl, rfl, rfl, rfl, 1, some s, hw1, by simp [hs]⟩
      · rcases hu : txExecUpdateInventory w1 (wrapInt64 (ing.RequiredQuantity * v.Quantity))
            ing.IngredientID with ⟨res2, w2⟩
        rw [hu] at h
        cases res2 with
        | error e =>
          simp only [Except.error.injEq] at h
          subst h
          have hw2 := txStep_error hu
          refine ⟨rfl, rfl, rfl, rfl, rfl, rfl, 2, some s, ?_, by simp [hs]⟩
          simp [hw2, hw1]
        | ok u =>
          simp only at h
          obtain ⟨h1, h2, h3, h4, h5, h6, n, t, h7, h8⟩ := ih h
          obtain ⟨s1, hs1, hw2⟩ := txExecUpdateInventory_ok hu
          refine ⟨h1, h2, h3, h4, h5, h6, 2 + n, t, ?_, ?_⟩
          · rw [h7, hw2, hw1]; simp
          · rw [h8, hw2]; simp [hs]

theorem ingredientLoop_ok {v : OrderItem} {p : BatchOrderInfo} {oe : Option String}
    {ings : List Ingredient} {w w1 : World} {inv inv1 : List BatchOrderInventoryUpdate}
    {s : Store}
    (h : ingredientLoop v p oe ings w inv = .ok (w1, inv1)) (hs : w.tx = some s) :
    ∃ n rows,
      deductAll s.inventory
          (ings.map (fun i => (i.IngredientID, wrapInt64 (i.RequiredQuantity * v.Quantity))))
        = .done rows ∧
      w1 = w.after n (some { s with inventory := rows }) := by
  induction ings generalizing w inv s with
  | nil =>
    simp only [ingredientLoop, Except.ok.injEq, Prod.mk.injEq] at h
    refine ⟨0, s.inventory, by simp [deductAll], ?_⟩
    rw [← h.1, ← hs]; exact (after_zero w).symm
  | cons ing rest ih =>
    simp only [ingredientLoop] at h
    rcases hq : txQueryInventory w ing.IngredientID with ⟨res, w2⟩
    rw [hq] at h
    cases res with
    | error e => simp at h
    | ok an =>
      obtain ⟨a, name⟩ := an
      simp only at h
      obtain ⟨s0, hs0, hqi, hw2⟩ := txQueryInventory_ok hq
      rw [hs] at hs0
      cases hs0
      obtain ⟨row, hfind, hqty, -⟩ := queryInventory_some hqi
      split at h
      · simp at h
      · rename_i hlt
        rcases hu : txExecUpdateInventory w2 (wrapInt64 (ing.RequiredQuantity * v.Quantity))
            ing.IngredientID with ⟨res2, w3⟩
        rw [hu] at h
        cases res2 with
        | error e => simp at h
        | ok u =>
          simp only at h
          obtain ⟨s1, hs1, hw3⟩ := txExecUpdateInventory_ok hu
          rw [hw2] at hs1
          simp only [after_tx, Option.some.injEq] at hs1
          subst hs1
          obtain ⟨n, rows, hd, hw1⟩ := ih h (by rw [hw3]; rfl)
          refine ⟨2 + n, rows, ?_, ?_⟩
          · simp only [List.map_cons, deductAll, hfind, hqty, hlt, if_false]
            exact hd
          · rw [hw1, hw3, hw2]
            simp [queryUpdateInventory]

theorem ingredientLoop_done {v : OrderItem} (p : BatchOrderInfo) (oe : Option String)
    {ings : List Ingredient} {w : World} (inv : List BatchOrderInventoryUpdate)
    {s : Store} {rows : List InventoryRow}
    (hf : NoFaults w.faults) (hs : w.tx = some s)
    (hd : deductAll s.inventory
        (ings.map (fun i => (i.IngredientID, wrapInt64 (i.RequiredQuantity * v.Quantity))))
      = .done rows) :
    ∃ w1 inv1, ingredientLoop v p oe ings w inv = .ok (w1, inv1) ∧ NoFaults w1.faults := by
  induction ings generalizing w inv s with
  | nil => exact ⟨w, inv, rfl, hf⟩
  | cons ing rest ih =>
    simp only [List.map_cons, deductAll] at hd
    cases hfind : s.inventory.find? (fun r => decide (r.IngredientID = ing.IngredientID)) with
    | none => simp [hfind] at hd
    | some row =>
      simp only [hfind] at hd
      split at hd
      · simp at hd
      · rename_i hlt
        have hq : txQueryInventory w ing.IngredientID =
            (.ok (row.Quantity, row.Name), w.after 1 (some s)) := by
          unfold txQueryInventory
          rw [txStep_of_noFaults _ hf hs]
          simp [queryInventory, hfind]
        have hu : txExecUpdateInventory (w.after 1 (some s))
            (wrapInt64 (ing.RequiredQuantity * v.Quantity)) ing.IngredientID =
            (.ok (), (w.after 1 (some s)).after 1
              (some (queryUpdateInventory s (wrapInt64 (ing.RequiredQuantity * v.Quantity))
                ing.IngredientID))) := by
          unfold txExecUpdateInventory
          rw [txStep_of_noFaults _ (noFaults_after hf 1 _) (after_tx _ _ _)]
        simp only [ingredientLoop, hq, hlt, if_false, hu]
        exact ih _ (noFaults_after (noFaults_after hf 1 _) 1 _) (after_tx _ _ _) hd

theorem ingredientLoop_short {v : OrderItem} (p : BatchOrderInfo) (oe : Option String)
    {ings : List Ingredient} {w : World} (inv : List BatchOrderInventoryUpdate)
    {s : Store} {g req a : Int}
    (hf : NoFaults w.faults) (hs : w.tx = some s)
    (hd : deductAll s.inventory
        (ings.map (fun i => (i.IngredientID, wrapInt64 (i.RequiredQuantity * v.Quantity))))
      = .short g req a) :
    ∃ r, ingredientLoop v p oe ings w inv = .error r ∧
      r.info.Reason = insufficientReason g req a ∧ r.err = insufficientReason g req a := by
  induction ings generalizing w inv s with
  | nil => simp [deductAll] at hd
  | cons ing rest ih =>
    simp only [List.map_cons, deductAll] at hd
    cases hfind : s.inventory.find? (fun r => decide (r.IngredientID = ing.IngredientID)) with
    | none => simp [hfind] at hd
    | some row =>
      simp only [hfind] at hd
      have hq : txQueryInventory w ing.IngredientID =
          (.ok (row.Quantity, row.Name), w.after 1 (some s)) := by
        unfold txQueryInventory
        rw [txStep_of_noFaults _ hf hs]
        simp [queryInventory, hfind]
      split at hd
      · rename_i hlt
        simp only [Deduction.short.injEq] at hd
        obtain ⟨h1, h2, h3⟩ := hd
        subst h1 h2 h3
        simp only [ingredientLoop, hq, hlt, if_true]
        exact ⟨_, rfl, rfl, rfl⟩
      · rename_i hlt
        have hu : txExecUpdateInventory (w.after 1 (some s))
            (wrapInt64 (ing.RequiredQuantity * v.Quantity)) ing.IngredientID =
            (.ok (), (w.after 1 (some s)).after 1
              (some (queryUpdateInventory s (wrapInt64 (ing.RequiredQuantity * v.Quantity))
                ing.IngredientID))) := by
          unfold txExecUpdateInventory
          rw [txStep_of_noFaults _ (noFaults_after hf 1 _) (after_tx _ _ _)]
        simp only [ingredientLoop, hq, hlt, if_false, hu]
        exact ih _ (noFaults_after (noFaults_after hf 1 _) 1 _) (after_tx _ _ _) hd

/-! ## The line loop -/

theorem deductAll_append (rows : List InventoryRow) (ds1 ds2 : List (Int × Int)) :
    deductAll rows (ds1 ++ ds2) =
      match deductAll rows ds1 with
      | .done r => deductAll r ds2
      | .short g q a => .short g q a
      | .missing g => .missing g := by
  induction ds1 generalizing rows with
  | nil => simp [deductAll]
  | cons d ds ih =>
    obtain ⟨g, req⟩ := d
    simp only [List.cons_append, deductAll]
    split
    · rfl
    · split
      · rfl
      · exact ih _

theorem codeDemands_cons (recipes : List MenuItemIngredientRow) (v : OrderItem)
    (rest : List OrderItem) :
    codeDemands recipes (v :: rest) = lineDemands recipes v ++ codeDemands recipes rest := by
  simp [codeDemands]

theorem orderTotal_cons (menu : List MenuItemRow) (v : OrderItem) (rest : List OrderItem) :
    orderTotal menu (v :: rest) =
      (v.Quantity : ℚ) * (priceOf menu v.ProductID).getD 0 + orderTotal menu rest := by
  simp [orderTotal]

theorem rejectedFrom_line {p p1 : BatchOrderInfo} {w w1 : World} {oe : Option String}
    {r : Returned} {n : Nat} {t : Option Store}
    (h : RejectedFrom p1 w1 oe r) (hst : p1.Status = p.Status)
    (hcn : p1.CustomerName = p.CustomerName) (hid : p1.OrderID = p.OrderID)
    (hw : w1 = w.after n t) (ht : t.isSome = w.tx.isSome) :
    RejectedFrom p w oe r := by
  obtain ⟨h1, h2, h3, h4, h5, h6, m, u, h7, h8⟩ := h
  refine ⟨h1, h2.trans hst, h3.trans hcn, h4.trans hid, h5, h6, n + m, u, ?_, ?_⟩
  · rw [h7, hw]; simp
  · rw [h8, hw]; simpa using ht

theorem lineLoop_error {ID : Int} {items : List OrderItem} {w : World} {p : BatchOrderInfo}
    {inv : List BatchOrderInventoryUpdate} {r : Returned}
    (h : lineLoop ID items w p inv = .error r) :
    ∃ oe, RejectedFrom p w oe r := by
  induction items generalizing w p inv with
  | nil => simp [lineLoop] at h
  | cons v rest ih =>
    simp only [lineLoop] at h
    rcases hx : txExecOrderItems w v.ProductID v.Quantity ID with ⟨res, w1⟩
    rw [hx] at h
    cases res with
    | error e =>
      simp only [Except.error.injEq] at h
      subst h
      exact ⟨_, rfl, rfl, rfl, rfl, rfl, rfl, 1, w.tx, txStep_error hx, rfl⟩
    | ok u =>
      simp only at h
      obtain ⟨s, hs, hw1⟩ := txExecOrderItems_ok hx
      rcases hp : txQueryPrice w1 v.ProductID with ⟨res2, w2⟩
      rw [hp] at h
      cases res2 with
      | error e =>
        simp only [Except.error.injEq] at h
        subst h
        have hw2 := txStep_error hp
        refine ⟨_, rfl, rfl, rfl, rfl, rfl, rfl, 2, w1.tx, ?_, ?_⟩
        · simp [hw2, hw1]
        · simp [hw1, hs]
      | ok price =>
        simp only at h
        obtain ⟨s1, hs1, -, hw2⟩ := txQueryPrice_ok hp
        rcases hi : txQueryIngredients w2 v.ProductID with ⟨res3, w3⟩
        rw [hi] at h
        cases res3 with
        | error e =>
          simp only [Except.error.injEq] at h
          subst h
          have hw3 := txStep_error hi
          refine ⟨_, rfl, rfl, rfl, rfl, rfl, rfl, 3, w2.tx, ?_, ?_⟩
          · simp [hw3, hw2, hw1]
          · simp [hw2, hs]
        | ok rows =>
          simp only at h
          obtain ⟨s2, hs2, -, hw3⟩ := txQueryIngredients_ok hi
          have hw3a : w3 = w.after 3 (some s2) := by simp [hw3, hw2, hw1]
          cases hsc : scanIngredients
              { p with Total := float64Add p.Total (float64Mul (float64OfInt v.Quantity) price) } none rows w3 [] with
          | error r1 =>
            rw [hsc] at h
            simp only [Except.error.injEq] at h
            subst h
            exact ⟨none, rejectedFrom_line (scanIngredients_error hsc) rfl rfl rfl hw3a
              (by simp [hs])⟩
          | ok res4 =>
            obtain ⟨ings, w4⟩ := res4
            rw [hsc] at h
            simp only at h
            obtain ⟨-, hw4⟩ := scanIngredients_ok hsc
            have hw4a : w4 = w.after (3 + rows.length) (some s2) := by
              rw [hw4, hw3a]; simp
            cases hil : ingredientLoop v
                { p with Total := float64Add p.Total (float64Mul (float64OfInt v.Quantity) price) } none ings w4 inv with
            | error r1 =>
              rw [hil] at h
              simp only [Except.error.injEq] at h
              subst h
              exact ⟨none, rejectedFrom_line (ingredientLoop_error hil) rfl rfl rfl hw4a
                (by simp [hs])⟩
            | ok res5 =>
              obtain ⟨w5, inv1⟩ := res5
              rw [hil] at h
              simp only at h
              obtain ⟨n, rows1, -, hw5⟩ := ingredientLoop_ok hil (by rw [hw4a]; rfl)
              obtain ⟨oe, hr⟩ := ih h
              exact ⟨oe, rejectedFrom_line hr rfl rfl rfl
                (by rw [hw5, hw4a]; simp; rfl) (by simp [hs])⟩

theorem lineLoop_ok {ID : Int} {items : List OrderItem} {w w1 : World}
    {p p1 : BatchOrderInfo} {inv inv1 : List BatchOrderInventoryUpdate} {s : Store}
    (h : lineLoop ID items w p inv = .ok (w1, p1, inv1)) (hs : w.tx = some s) :
    ∃ n rows,
      deductAll s.inventory (codeDemands s.menu_item_ingredients items) = .done rows ∧
      w1 = w.after n (some { s with order_items := upsertAll ID items s.order_items,
                                    inventory := rows }) ∧
      (∀ v ∈ items, (priceOf s.menu_items v.ProductID).isSome) ∧
      p1 = { p with Total := floatTotal s.menu_items p.Total items } := by
  induction items generalizing w p inv s with
  | nil =>
    simp only [lineLoop, Except.ok.injEq, Prod.mk.injEq] at h
    refine ⟨0, s.inventory, by simp [codeDemands, deductAll], ?_, by simp, ?_⟩
    · rw [← h.1]
      have hz : w.after 0 (some s) = w := by rw [← hs]; exact after_zero w
      exact hz.symm
    · rw [← h.2.1]; simp [floatTotal]
  | cons v rest ih =>
    simp only [lineLoop] at h
    rcases hx : txExecOrderItems w v.ProductID v.Quantity ID with ⟨res, w2⟩
    rw [hx] at h
    cases res with
    | error e => simp at h
    | ok u =>
      simp only at h
      obtain ⟨s0, hs0, hw2⟩ := txExecOrderItems_ok hx
      rw [hs] at hs0
      cases hs0
      rcases hp : txQueryPrice w2 v.ProductID with ⟨res2, w3⟩
      rw [hp] at h
      cases res2 with
      | error e => simp at h
      | ok price =>
        simp only at h
        obtain ⟨s1, hs1, hprice, hw3⟩ := txQueryPrice_ok hp
        rw [hw2] at hs1
        simp only [after_tx, Option.some.injEq] at hs1
        subst hs1
        rcases hi : txQueryIngredients w3 v.ProductID with ⟨res3, w4⟩
        rw [hi] at h
        cases res3 with
        | error e => simp at h
        | ok rows0 =>
          simp only at h
          obtain ⟨s2, hs2, hrows0, hw4⟩ := txQueryIngredients_ok hi
          rw [hw3] at hs2
          simp only [after_tx, Option.some.injEq] at hs2
          subst hs2
          cases hsc : scanIngredients
              { p with Total := float64Add p.Total (float64Mul (float64OfInt v.Quantity) price) } none rows0 w4 [] with
          | error r1 => rw [hsc] at h; simp at h
          | ok res4 =>
            obtain ⟨ings, w5⟩ := res4
            rw [hsc] at h
            simp only at h
            obtain ⟨hings, hw5⟩ := scanIngredients_ok hsc
            cases hil : ingredientLoop v
                { p with Total := float64Add p.Total (float64Mul (float64OfInt v.Quantity) price) } none ings w5 inv with
            | error r1 => rw [hil] at h; simp at h
            | ok res5 =>
              obtain ⟨w6, inv2⟩ := res5
              rw [hil] at h
              simp only at h
              have hw5tx : w5.tx = some (queryOrderItems s v.ProductID v.Quantity ID) := by
                rw [hw5, hw4]; rfl
              obtain ⟨n1, rows1, hd1, hw6⟩ := ingredientLoop_ok hil hw5tx
              obtain ⟨n2, rows, hd2, hw1, hpr, hp1⟩ := ih h (by rw [hw6]; rfl)
              have hpv : priceOf s.menu_items v.ProductID = some price := hprice
              have hline : ings.map (fun i =>
                    (i.IngredientID, wrapInt64 (i.RequiredQuantity * v.Quantity))) =
                  lineDemands s.menu_item_ingredients v := by
                rw [hings, hrows0]
                simp [lineDemands, recipeOf, queryGetIngredients, queryOrderItems]
              rw [hline] at hd1
              refine ⟨1 + 1 + 1 + rows0.length + n1 + n2, rows, ?_, ?_, ?_, ?_⟩
              · rw [codeDemands_cons, deductAll_append]
                have hd1a : deductAll s.inventory (lineDemands s.menu_item_ingredients v) =
                    .done rows1 := hd1
                rw [hd1a]
                exact hd2
              · rw [hw1, hw6, hw5, hw4, hw3, hw2]
                simp only [after_after]
                rfl
              · intro x hx
                rcases List.mem_cons.mp hx with rfl | hx
                · simp [hpv]
                · exact hpr x hx
              · rw [hp1]
                simp only [floatTotal, hpv, Option.getD_some]
                rfl

theorem lineLoop_cons_of_noFaults {ID : Int} (v : OrderItem) (rest : List OrderItem)
    {w : World} (p : BatchOrderInfo) (inv : List BatchOrderInventoryUpdate) {s : Store}
    {price : ℚ} (hf : NoFaults w.faults) (hs : w.tx = some s)
    (hpv : priceOf s.menu_items v.ProductID = some price) :
    lineLoop ID (v :: rest) w p inv =
      match ingredientLoop v { p with Total := float64Add p.Total (float64Mul (float64OfInt v.Quantity) price) } none
          ((recipeOf s.menu_item_ingredients v.ProductID).map (fun row =>
            ({ IngredientID := row.IngredientID, RequiredQuantity := row.Quantity } : Ingredient)))
          (w.after (3 + (recipeOf s.menu_item_ingredients v.ProductID).length)
            (some (queryOrderItems s v.ProductID v.Quantity ID))) inv with
      | .error r => .error r
      | .ok (w5, inv1) =>
        lineLoop ID rest w5 { p with Total := float64Add p.Total (float64Mul (float64OfInt v.Quantity) price) } inv1 := by
  have hx : txExecOrderItems w v.ProductID v.Quantity ID =
      (.ok (), w.after 1 (some (queryOrderItems s v.ProductID v.Quantity ID))) := by
    unfold txExecOrderItems
    rw [txStep_of_noFaults _ hf hs]
  have hp : txQueryPrice (w.after 1 (some (queryOrderItems s v.ProductID v.Quantity ID)))
      v.ProductID =
      (.ok price, w.after 2 (some (queryOrderItems s v.ProductID v.Quantity ID))) := by
    unfold txQueryPrice
    rw [txStep_of_noFaults _ (noFaults_after hf 1 _) (after_tx _ _ _)]
    have : queryGetPrice (queryOrderItems s v.ProductID v.Quantity ID) v.ProductID =
        some price := hpv
    simp [this]
  have hi : txQueryIngredients (w.after 2 (some (queryOrderItems s v.ProductID v.Quantity ID)))
      v.ProductID =
      (.ok (recipeOf s.menu_item_ingredients v.ProductID),
        w.after 3 (some (queryOrderItems s v.ProductID v.Quantity ID))) := by
    unfold txQueryIngredients
    rw [txStep_of_noFaults _ (noFaults_after hf 2 _) (after_tx _ _ _)]
    simp only [after_after]
    rfl
  have hsc := scanIngredients_of_noFaults
    { p with Total := float64Add p.Total (float64Mul (float64OfInt v.Quantity) price) } none
    (recipeOf s.menu_item_ingredients v.ProductID)
    (w.after 3 (some (queryOrderItems s v.ProductID v.Quantity ID))) []
    (noFaults_after hf 3 _)
  simp only [List.nil_append, after_after, after_tx] at hsc
  simp only [lineLoop, hx, hp, hi, hsc]

theorem lineDemands_eq_map (recipes : List MenuItemIngredientRow) (v : OrderItem) :
    ((recipeOf recipes v.ProductID).map (fun row =>
        ({ IngredientID := row.IngredientID, RequiredQuantity := row.Quantity } : Ingredient))).map
      (fun i => (i.IngredientID, wrapInt64 (i.RequiredQuantity * v.Quantity))) =
    lineDemands recipes v := by
  simp [lineDemands]

theorem lineLoop_done (ID : Int) {items : List OrderItem} {w : World} (p : BatchOrderInfo)
    (inv : List BatchOrderInventoryUpdate) {s : Store} {rows : List InventoryRow}
    (hf : NoFaults w.faults) (hs : w.tx = some s)
    (hpr : ∀ v ∈ items, (priceOf s.menu_items v.ProductID).isSome)
    (hd : deductAll s.inventory (codeDemands s.menu_item_ingredients items) = .done rows) :
    ∃ w1 p1 inv1, lineLoop ID items w p inv = .ok (w1, p1, inv1) ∧ NoFaults w1.faults := by
  induction items generalizing w p inv s with
  | nil => exact ⟨w, p, inv, rfl, hf⟩
  | cons v rest ih =>
    obtain ⟨price, hpv⟩ := Option.isSome_iff_exists.mp (hpr v (List.mem_cons_self _ _))
    rw [lineLoop_cons_of_noFaults v rest p inv hf hs hpv]
    rw [codeDemands_cons, deductAll_append] at hd
    cases hd1 : deductAll s.inventory (lineDemands s.menu_item_ingredients v) with
    | short g q a => rw [hd1] at hd; simp at hd
    | missing g => rw [hd1] at hd; simp at hd
    | done rows1 =>
      rw [hd1] at hd
      simp only at hd
      rw [← lineDemands_eq_map] at hd1
      have htx : (w.after (3 + (recipeOf s.menu_item_ingredients v.ProductID).length)
          (some (queryOrderItems s v.ProductID v.Quantity ID))).tx =
          some (queryOrderItems s v.ProductID v.Quantity ID) := rfl
      obtain ⟨w5, inv1, hil, hf5⟩ := ingredientLoop_done
        { p with Total := float64Add p.Total (float64Mul (float64OfInt v.Quantity) price) } none inv
        (noFaults_after hf _ _) htx hd1
      obtain ⟨n, rows2, hd2, hw5⟩ := ingredientLoop_ok hil htx
      have hrows : rows2 = rows1 := by
        have := hd2.symm.trans hd1
        simpa using this
      subst hrows
      rw [hil]
      simp only
      have htx5 : w5.tx = some { queryOrderItems s v.ProductID v.Quantity ID with
          inventory := rows2 } := by rw [hw5]; rfl
      exact ih _ _ hf5 htx5 (fun x hx => hpr x (List.mem_cons_of_mem _ hx)) hd

theorem lineLoop_short (ID : Int) {items : List OrderItem} {w : World} (p : BatchOrderInfo)
    (inv : List BatchOrderInventoryUpdate) {s : Store} {g req a : Int}
    (hf : NoFaults w.faults) (hs : w.tx = some s)
    (hpr : ∀ v ∈ items, (priceOf s.menu_items v.ProductID).isSome)
    (hd : deductAll s.inventory (codeDemands s.menu_item_ingredients items) = .short g req a) :
    ∃ r, lineLoop ID items w p inv = .error r ∧
      r.info.Reason = insufficientReason g req a ∧ r.err = insufficientReason g req a ∧
      r.outerErr = none := by
  induction items generalizing w p inv s with
  | nil => simp [codeDemands, deductAll] at hd
  | cons v rest ih =>
    obtain ⟨price, hpv⟩ := Option.isSome_iff_exists.mp (hpr v (List.mem_cons_self _ _))
    rw [lineLoop_cons_of_noFaults v rest p inv hf hs hpv]
    rw [codeDemands_cons, deductAll_append] at hd
    have htx : (w.after (3 + (recipeOf s.menu_item_ingredients v.ProductID).length)
        (some (queryOrderItems s v.ProductID v.Quantity ID))).tx =
        some (queryOrderItems s v.ProductID v.Quantity ID) := rfl
    cases hd1 : deductAll s.inventory (lineDemands s.menu_item_ingredients v) with
    | missing g1 => rw [hd1] at hd; simp at hd
    | short g1 q1 a1 =>
      rw [hd1] at hd
      simp only [Deduction.short.injEq] at hd
      obtain ⟨e1, e2, e3⟩ := hd
      subst e1 e2 e3
      rw [← lineDemands_eq_map] at hd1
      obtain ⟨r, hil, hr1, hr2⟩ := ingredientLoop_short
        { p with Total := float64Add p.Total (float64Mul (float64OfInt v.Quantity) price) } none inv
        (noFaults_after hf _ _) htx hd1
      have hrej := ingredientLoop_error hil
      rw [hil]
      exact ⟨r, rfl, hr1, hr2, hrej.2.2.2.2.2.1⟩
    | done rows1 =>
      rw [hd1] at hd
      simp only at hd
      rw [← lineDemands_eq_map] at hd1
      obtain ⟨w5, inv1, hil, hf5⟩ := ingredientLoop_done
        { p with Total := float64Add p.Total (float64Mul (float64OfInt v.Quantity) price) } none inv
        (noFaults_after hf _ _) htx hd1
      obtain ⟨n, rows2, hd2, hw5⟩ := ingredientLoop_ok hil htx
      have hrows : rows2 = rows1 := by
        have := hd2.symm.trans hd1
        simpa using this
      subst hrows
      rw [hil]
      simp only
      have htx5 : w5.tx = some { queryOrderItems s v.ProductID v.Quantity ID with
          inventory := rows2 } := by rw [hw5]; rfl
      exact ih _ _ hf5 htx5 (fun x hx => hpr x (List.mem_cons_of_mem _ hx)) hd

/-! ## Begin, insert, commit and the whole of `Add` -/

theorem dbBegin_none {w w1 : World} (h : dbBegin w = (none, w1)) :
    w1 = w.after 1 (some w.db) := by
  unfold dbBegin at h
  have hn := nextFault_snd w
  rcases hnf : w.nextFault with ⟨fo, w0⟩
  rw [hnf] at h hn
  simp only at hn
  subst hn
  cases fo with
  | some e => simp at h
  | none =>
    simp only [Prod.mk.injEq, true_and] at h
    rw [← h]; simp [World.after]

theorem dbBegin_some {w w1 : World} {e : String} (h : dbBegin w = (some e, w1)) :
    w1 = w.after 1 w.tx := by
  unfold dbBegin at h
  have hn := nextFault_snd w
  rcases hnf : w.nextFault with ⟨fo, w0⟩
  rw [hnf] at h hn
  simp only at hn
  subst hn
  cases fo with
  | some e1 =>
    simp only [Prod.mk.injEq] at h
    rw [← h.2]; simp [World.after]
  | none => simp at h

theorem dbBegin_of_noFaults {w : World} (hf : NoFaults w.faults) :
    dbBegin w = (none, w.after 1 (some w.db)) := by
  unfold dbBegin
  have hn := nextFault_snd w
  have h1 := nextFault_fst_of_noFaults hf
  rcases hnf : w.nextFault with ⟨fo, w0⟩
  rw [hnf] at hn h1
  simp only at hn h1
  subst hn h1
  simp [World.after]

theorem txInsertOrder_ok {w w1 : World} {c notes : String} {ID : Int}
    (h : txInsertOrder w c notes = (.ok ID, w1)) :
    ∃ s, w.tx = some s ∧ ID = w.nextOrderID ∧
      w1 = { w.after 1 (some (queryOrder s w.nextOrderID w.now c notes)) with
             nextOrderID := w.nextOrderID + 1 } := by
  unfold txInsertOrder at h
  rcases hst : txStep w (fun s =>
      .ok (w.nextOrderID, queryOrder s w.nextOrderID w.now c notes)) with ⟨res, w0⟩
  rw [hst] at h
  cases res with
  | error e => simp at h
  | ok a =>
    simp only [Prod.mk.injEq, Except.ok.injEq] at h
    obtain ⟨s, s1, hs, hf, hw⟩ := txStep_ok hst
    simp only [Except.ok.injEq, Prod.mk.injEq] at hf
    refine ⟨s, hs, by rw [← h.1, ← hf.1], ?_⟩
    rw [← h.2, hw, ← hf.2]
    rfl

theorem txInsertOrder_error {w w1 : World} {c notes e : String}
    (h : txInsertOrder w c notes = (.error e, w1)) :
    w1 = w.after 1 w.tx := by
  unfold txInsertOrder at h
  rcases hst : txStep w (fun s =>
      .ok (w.nextOrderID, queryOrder s w.nextOrderID w.now c notes)) with ⟨res, w0⟩
  rw [hst] at h
  cases res with
  | error e1 =>
    simp only [Prod.mk.injEq] at h
    rw [← h.2]; exact txStep_error hst
  | ok a => simp at h

theorem txInsertOrder_of_noFaults {w : World} {s : Store} (c notes : String)
    (hf : NoFaults w.faults) (hs : w.tx = some s) :
    txInsertOrder w c notes =
      (.ok w.nextOrderID,
        { w.after 1 (some (queryOrder s w.nextOrderID w.now c notes)) with
          nextOrderID := w.nextOrderID + 1 }) := by
  unfold txInsertOrder
  rw [txStep_of_noFaults _ hf hs]
  rfl

theorem txCommit_none {w w1 : World} (h : txCommit w = (none, w1)) :
    ∃ s, w.tx = some s ∧ w1 = { w.after 1 none with db := s } := by
  unfold txCommit at h
  have hn := nextFault_snd w
  rcases hnf : w.nextFault with ⟨fo, w0⟩
  rw [hnf] at h hn
  simp only at hn
  subst hn
  cases fo with
  | some e => simp at h
  | none =>
    simp only at h
    cases ht : w.tx with
    | none => simp [ht] at h
    | some s =>
      simp only [ht, Prod.mk.injEq, true_and] at h
      exact ⟨s, rfl, by rw [← h]; simp [World.after]⟩

theorem txCommit_some {w w1 : World} {e : String} (h : txCommit w = (some e, w1)) :
    w1 = w.after 1 none := by
  unfold txCommit at h
  have hn := nextFault_snd w
  rcases hnf : w.nextFault with ⟨fo, w0⟩
  rw [hnf] at h hn
  simp only at hn
  subst hn
  cases fo with
  | some e1 =>
    simp only [Prod.mk.injEq] at h
    rw [← h.2]; simp [World.after]
  | none =>
    simp only at h
    cases ht : w.tx with
    | none =>
      simp only [ht, Prod.mk.injEq] at h
      rw [← h.2]; simp [World.after, ht]
    | some s => simp [ht] at h

theorem txCommit_of_noFaults {w : World} {s : Store} (hf : NoFaults w.faults)
    (hs : w.tx = some s) :
    txCommit w = (none, { w.after 1 none with db := s }) := by
  unfold txCommit
  have hn := nextFault_snd w
  have h1 := nextFault_fst_of_noFaults hf
  rcases hnf : w.nextFault with ⟨fo, w0⟩
  rw [hnf] at hn h1
  simp only at hn h1
  subst hn h1
  simp [World.after, hs]

theorem addBody_error {w : World} {order : Order} {p : BatchOrderInfo} {r : Returned}
    (h : addBody w order p = .error r) (hp0 : p.Total = 0) :
    r.info.Total = 0 ∧ r.info.Status = p.Status ∧ r.info.CustomerName = p.CustomerName ∧
      r.world.db = w.db := by
  unfold addBody at h
  cases hm : jsonMarshal order.Notes with
  | error e =>
    rw [hm] at h
    simp only [Except.error.injEq] at h
    subst h
    exact ⟨hp0, rfl, rfl, rfl⟩
  | ok notesJSON =>
    rw [hm] at h
    simp only at h
    rcases hio : txInsertOrder w order.CustomerName notesJSON with ⟨res, w1⟩
    rw [hio] at h
    cases res with
    | error e =>
      simp only [Except.error.injEq] at h
      subst h
      exact ⟨hp0, rfl, rfl, by rw [txInsertOrder_error hio]; rfl⟩
    | ok ID =>
      simp only at h
      obtain ⟨s, hs, -, hw1⟩ := txInsertOrder_ok hio
      cases hl : lineLoop ID order.Items w1 { p with OrderID := ID } [] with
      | error r1 =>
        rw [hl] at h
        simp only [Except.error.injEq] at h
        subst h
        obtain ⟨oe, h1, h2, h3, -, -, -, n, t, h7, -⟩ := lineLoop_error hl
        exact ⟨h1, h2, h3, by rw [h7, hw1]; rfl⟩
      | ok res2 =>
        obtain ⟨w2, p2, inv⟩ := res2
        rw [hl] at h
        simp only at h
        have htx1 : w1.tx =
            some (queryOrder s w.nextOrderID w.now order.CustomerName notesJSON) := by
          rw [hw1]; rfl
        obtain ⟨n, rows, -, hw2, -, hp2⟩ := lineLoop_ok hl htx1
        rcases hc : txCommit w2 with ⟨res3, w3⟩
        rw [hc] at h
        cases res3 with
        | none => simp at h
        | some e =>
          simp only [Except.error.injEq] at h
          subst h
          refine ⟨rfl, by rw [hp2], by rw [hp2], ?_⟩
          rw [txCommit_some hc, hw2, hw1]; rfl

theorem addBody_ok {w : World} {order : Order} {p : BatchOrderInfo} {res : AddResult}
    {s : Store} (h : addBody w order p = .ok res) (hs : w.tx = some s) :
    ∃ notesJSON rows,
      jsonMarshal order.Notes = .ok notesJSON ∧
      deductAll s.inventory (codeDemands s.menu_item_ingredients order.Items) = .done rows ∧
      (∀ v ∈ order.Items, (priceOf s.menu_items v.ProductID).isSome) ∧
      res.world.db =
        { orders := s.orders ++
            [{ ID := w.nextOrderID, CustomerName := order.CustomerName, Notes := notesJSON,
               Status := orderStatusDefault, CreatedAt := w.now }],
          order_items := upsertAll w.nextOrderID order.Items s.order_items,
          inventory := rows,
          menu_items := s.menu_items,
          menu_item_ingredients := s.menu_item_ingredients,
          order_status_history := s.order_status_history } ∧
      res.world.tx = none ∧ res.world.rollbackCalls = w.rollbackCalls ∧
      res.err = none ∧
      res.info = { p with OrderID := w.nextOrderID, Status := StatusOrderAccepted,
                          Reason := "OK",
                          Total := floatTotal s.menu_items p.Total order.Items } := by
  unfold addBody at h
  cases hm : jsonMarshal order.Notes with
  | error e => rw [hm] at h; simp at h
  | ok notesJSON =>
    rw [hm] at h
    simp only at h
    rcases hio : txInsertOrder w order.CustomerName notesJSON with ⟨r1, w1⟩
    rw [hio] at h
    cases r1 with
    | error e => simp at h
    | ok ID =>
      simp only at h
      obtain ⟨s0, hs0, hID, hw1⟩ := txInsertOrder_ok hio
      rw [hs] at hs0
      cases hs0
      subst hID
      cases hl : lineLoop w.nextOrderID order.Items w1 { p with OrderID := w.nextOrderID } [] with
      | error r1 => rw [hl] at h; simp at h
      | ok res2 =>
        obtain ⟨w2, p2, inv⟩ := res2
        rw [hl] at h
        simp only at h
        have htx1 : w1.tx =
            some (queryOrder s w.nextOrderID w.now order.CustomerName notesJSON) := by
          rw [hw1]; rfl
        obtain ⟨n, rows, hd, hw2, hpr, hp2⟩ := lineLoop_ok hl htx1
        rcases hc : txCommit w2 with ⟨res3, w3⟩
        rw [hc] at h
        cases res3 with
        | some e => simp at h
        | none =>
          simp only [Except.ok.injEq] at h
          obtain ⟨s2, hs2, hw3⟩ := txCommit_none hc
          rw [hw2] at hs2
          simp only [after_tx, Option.some.injEq] at hs2
          refine ⟨notesJSON, rows, rfl, hd, hpr, ?_, ?_, ?_, ?_, ?_⟩
          · rw [← h, hw3, ← hs2]; rfl
          · rw [← h, hw3]; rfl
          · rw [← h, hw3, hw2, hw1]; rfl
          · rw [← h]
          · rw [← h, hp2]; rfl

theorem addBody_done_of_noFaults {w : World} {order : Order} (p : BatchOrderInfo)
    {s : Store} {notesJSON : String} {rows : List InventoryRow}
    (hf : NoFaults w.faults) (hs : w.tx = some s)
    (hn : jsonMarshal order.Notes = .ok notesJSON)
    (hpr : ∀ v ∈ order.Items, (priceOf s.menu_items v.ProductID).isSome)
    (hd : deductAll s.inventory (codeDemands s.menu_item_ingredients order.Items)
      = .done rows) :
    ∃ res, addBody w order p = .ok res := by
  obtain ⟨w1, hio, hf1, htx1⟩ : ∃ w1,
      txInsertOrder w order.CustomerName notesJSON = (.ok w.nextOrderID, w1) ∧
      NoFaults w1.faults ∧
      w1.tx = some (queryOrder s w.nextOrderID w.now order.CustomerName notesJSON) :=
    ⟨_, txInsertOrder_of_noFaults _ _ hf hs, noFaults_drop hf 1, rfl⟩
  obtain ⟨w2, p2, inv, hl, hf2⟩ := lineLoop_done w.nextOrderID
    { p with OrderID := w.nextOrderID } [] hf1 htx1 hpr hd
  obtain ⟨n, rows1, -, hw2, -, -⟩ := lineLoop_ok hl htx1
  have hc := txCommit_of_noFaults hf2 (by rw [hw2]; rfl)
  unfold addBody
  rw [hn]
  simp only
  rw [hio]
  simp only
  rw [hl]
  simp only
  rw [hc]
  exact ⟨_, rfl⟩

theorem addBody_short_of_noFaults {w : World} {order : Order} (p : BatchOrderInfo)
    {s : Store} {notesJSON : String} {g req a : Int}
    (hf : NoFaults w.faults) (hs : w.tx = some s)
    (hn : jsonMarshal order.Notes = .ok notesJSON)
    (hpr : ∀ v ∈ order.Items, (priceOf s.menu_items v.ProductID).isSome)
    (hd : deductAll s.inventory (codeDemands s.menu_item_ingredients order.Items)
      = .short g req a) :
    ∃ r, addBody w order p = .error r ∧ r.err = insufficientReason g req a ∧
      r.info.Reason = insufficientReason g req a ∧ r.outerErr = none ∧
      r.world.rollbackCalls = w.rollbackCalls ∧ r.world.tx.isSome = true := by
  obtain ⟨w1, hio, hf1, htx1, hrc1⟩ : ∃ w1,
      txInsertOrder w order.CustomerName notesJSON = (.ok w.nextOrderID, w1) ∧
      NoFaults w1.faults ∧
      w1.tx = some (queryOrder s w.nextOrderID w.now order.CustomerName notesJSON) ∧
      w1.rollbackCalls = w.rollbackCalls :=
    ⟨_, txInsertOrder_of_noFaults _ _ hf hs, noFaults_drop hf 1, rfl, rfl⟩
  obtain ⟨r, hl, hr1, hr2, hr3⟩ := lineLoop_short w.nextOrderID
    { p with OrderID := w.nextOrderID } [] hf1 htx1 hpr hd
  obtain ⟨oe, -, -, -, -, -, -, n, t, hw, ht⟩ := lineLoop_error hl
  unfold addBody
  rw [hn]
  simp only
  rw [hio]
  simp only
  rw [hl]
  refine ⟨r, rfl, hr2, hr1, hr3, by rw [hw]; exact hrc1, ?_⟩
  rw [hw, after_tx, ht, htx1]
  rfl

theorem Add_cases (w : World) (order : Order) :
    (∃ e, dbBegin w = (some e, w.after 1 w.tx) ∧ Add w order =
        { info := { OrderID := 0, CustomerName := order.CustomerName,
                    Status := StatusOrderRejected,
                    Reason := "internal server error. Failed to start transaction.",
                    Total := 0 },
          updates := [], err := some e, world := w.after 1 w.tx }) ∨
    (∃ r, addBody (w.after 1 (some w.db)) order
          { OrderID := 0, CustomerName := order.CustomerName, Status := StatusOrderRejected,
            Reason := "", Total := 0 } = .error r ∧
        Add w order = runDeferred (.error r)) ∨
    (∃ res, addBody (w.after 1 (some w.db)) order
          { OrderID := 0, CustomerName := order.CustomerName, Status := StatusOrderRejected,
            Reason := "", Total := 0 } = .ok res ∧
        Add w order = res) := by
  unfold Add
  rcases hb : dbBegin w with ⟨fo, w0⟩
  cases fo with
  | some e =>
    left
    exact ⟨e, by rw [dbBegin_some hb], by rw [dbBegin_some hb]⟩
  | none =>
    right
    simp only
    rw [dbBegin_none hb]
    cases hbody : addBody (w.after 1 (some w.db)) order
        { OrderID := 0, CustomerName := order.CustomerName, Status := StatusOrderRejected,
          Reason := "", Total := 0 } with
    | error r => left; exact ⟨r, rfl, rfl⟩
    | ok res => right; exact ⟨res, rfl, rfl⟩

theorem runDeferred_error_db (r : Returned) :
    (runDeferred (.error r)).world.db = r.world.db := by
  unfold runDeferred
  simp only
  split <;> rfl

theorem Add_error_frame {w : World} {order : Order} (h : (Add w order).err ≠ none) :
    (Add w order).world.db = w.db ∧ (Add w order).info.Total = 0 ∧
      (Add w order).info.Status = StatusOrderRejected ∧
      (Add w order).info.CustomerName = order.CustomerName := by
  rcases Add_cases w order with ⟨e, -, he⟩ | ⟨r, hr, he⟩ | ⟨res, hres, he⟩
  · rw [he]; exact ⟨rfl, rfl, rfl, rfl⟩
  · obtain ⟨h1, h2, h3, h4⟩ := addBody_error hr rfl
    rw [he]
    exact ⟨by rw [runDeferred_error_db, h4]; rfl, h1, h2, h3⟩
  · obtain ⟨_, _, _, _, _, _, _, _, herr, _⟩ := addBody_ok hres (after_tx _ _ _)
    rw [he] at h
    exact absurd herr h

theorem Add_ok {w : World} {order : Order} (h : (Add w order).err = none) :
    ∃ notesJSON rows,
      jsonMarshal order.Notes = .ok notesJSON ∧
      deductAll w.db.inventory (codeDemands w.db.menu_item_ingredients order.Items)
        = .done rows ∧
      (∀ v ∈ order.Items, (priceOf w.db.menu_items v.ProductID).isSome) ∧
      (Add w order).world.db =
        { orders := w.db.orders ++
            [{ ID := w.nextOrderID, CustomerName := order.CustomerName, Notes := notesJSON,
               Status := orderStatusDefault, CreatedAt := w.now }],
          order_items := upsertAll w.nextOrderID order.Items w.db.order_items,
          inventory := rows,
          menu_items := w.db.menu_items,
          menu_item_ingredients := w.db.menu_item_ingredients,
          order_status_history := w.db.order_status_history } ∧
      (Add w order).world.tx = none ∧
      (Add w order).world.rollbackCalls = w.rollbackCalls ∧
      (Add w order).info =
        { OrderID := w.nextOrderID, CustomerName := order.CustomerName,
          Status := StatusOrderAccepted, Reason := "OK",
          Total := floatTotal w.db.menu_items 0 order.Items } := by
  rcases Add_cases w order with ⟨e, -, he⟩ | ⟨r, hr, he⟩ | ⟨res, hres, he⟩
  · rw [he] at h; simp at h
  · rw [he] at h; simp [runDeferred] at h
  · obtain ⟨notesJSON, rows, h1, h2, h3, h4, h5, h6, -, h8⟩ :=
      addBody_ok hres (after_tx _ _ _)
    rw [he]
    refine ⟨notesJSON, rows, h1, h2, h3, h4, h5, h6, ?_⟩
    rw [h8]
    simp

theorem Add_accepts_of_noFaults {w : World} {order : Order} {notesJSON : String}
    {rows : List InventoryRow} (hf : NoFaults w.faults)
    (hn : jsonMarshal order.Notes = .ok notesJSON)
    (hpr : ∀ v ∈ order.Items, (priceOf w.db.menu_items v.ProductID).isSome)
    (hd : deductAll w.db.inventory (codeDemands w.db.menu_item_ingredients order.Items)
      = .done rows) :
    (Add w order).err = none := by
  obtain ⟨res0, hres0⟩ := addBody_done_of_noFaults
    { OrderID := 0, CustomerName := order.CustomerName, Status := StatusOrderRejected,
      Reason := "", Total := 0 }
    (noFaults_after hf 1 (some w.db)) (after_tx _ _ _) hn hpr hd
  rcases Add_cases w order with ⟨e, hb, -⟩ | ⟨r, hr, -⟩ | ⟨res, hres, he⟩
  · rw [dbBegin_of_noFaults hf] at hb
    simp at hb
  · rw [hres0] at hr
    simp at hr
  · obtain ⟨_, _, _, _, _, _, _, _, herr, _⟩ := addBody_ok hres (after_tx _ _ _)
    rw [he]
    exact herr

theorem Add_short_of_noFaults {w : World} {order : Order} {notesJSON : String}
    {g req a : Int} (hf : NoFaults w.faults)
    (hn : jsonMarshal order.Notes = .ok notesJSON)
    (hpr : ∀ v ∈ order.Items, (priceOf w.db.menu_items v.ProductID).isSome)
    (hd : deductAll w.db.inventory (codeDemands w.db.menu_item_ingredients order.Items)
      = .short g req a) :
    (Add w order).err = some (insufficientReason g req a) ∧
      (Add w order).info.Reason = insufficientReason g req a ∧
      (Add w order).world.rollbackCalls = w.rollbackCalls ∧
      (Add w order).world.tx.isSome = true := by
  obtain ⟨r0, hr0, h1, h2, h3, h4, h5⟩ := addBody_short_of_noFaults
    { OrderID := 0, CustomerName := order.CustomerName, Status := StatusOrderRejected,
      Reason := "", Total := 0 }
    (noFaults_after hf 1 (some w.db)) (after_tx _ _ _) hn hpr hd
  rcases Add_cases w order with ⟨e, hb, -⟩ | ⟨r, hr, he⟩ | ⟨res, hres, -⟩
  · rw [dbBegin_of_noFaults hf] at hb
    simp at hb
  · rw [hr0] at hr
    simp only [Except.error.injEq] at hr
    subst hr
    rw [he]
    simp only [runDeferred, h3, Option.isSome_none, Bool.false_eq_true, if_false]
    exact ⟨by rw [h1], h2, h4, h5⟩
  · rw [hr0] at hres
    simp at hres

/-! ## Atomicity and rollback -/

/-- C1: whenever `Add` returns a non-nil error, whatever the request and
whichever storage call failed, the committed `orders`, `order_items` and
`inventory` tables are the ones from before the call. -/
theorem Add_error_keeps_committed_tables (w : World) (order : Order)
    (h : (Add w order).err ≠ none) :
    (Add w order).world.db.orders = w.db.orders ∧
      (Add w order).world.db.order_items = w.db.order_items ∧
      (Add w order).world.db.inventory = w.db.inventory := by
  have hdb := (Add_error_frame h).1
  rw [hdb]
  exact ⟨rfl, rfl, rfl⟩

/-- Scenario B of the spec (milk = 2, three Lattes ordered): the call fails and
the committed tables are untouched. -/
theorem Add_error_keeps_committed_tables_witness :
    (Add (latteWorld 2 10) (latteOrder [3])).err ≠ none ∧
      ((Add (latteWorld 2 10) (latteOrder [3])).world.db.orders = (latteWorld 2 10).db.orders ∧
       (Add (latteWorld 2 10) (latteOrder [3])).world.db.order_items
          = (latteWorld 2 10).db.order_items ∧
       (Add (latteWorld 2 10) (latteOrder [3])).world.db.inventory
          = (latteWorld 2 10).db.inventory) :=
  ⟨by decide, Add_error_keeps_committed_tables _ _ (by decide)⟩

/-- C2: in Scenario B of the spec (milk = 2, three Lattes ordered) the
transaction is begun, `Add` returns the insufficient-inventory error, and on
return `tx.Rollback()` has not been called and the transaction is still open:
the deferred closure tests the function-scope `err`, which is nil on that
path. -/
theorem Add_insufficient_inventory_no_rollback :
    (Add (latteWorld 2 10) (latteOrder [3])).err = some (insufficientReason 1 3 2) ∧
      (Add (latteWorld 2 10) (latteOrder [3])).world.rollbackCalls = 0 ∧
      (Add (latteWorld 2 10) (latteOrder [3])).world.tx.isSome = true := by
  decide

/-- On the sibling path of a missing menu item (the error of
`tx.QueryRow(queryGetPrice, ...)` is assigned to the function-scope `err`) the
deferred closure does call `Rollback` and the transaction is closed. -/
theorem Add_missing_menu_item_rolls_back :
    (Add (latteWorld 10 10)
        { CustomerName := "Ann", Notes := .encodable "", Items := [{ ProductID := 9, Quantity := 1 }] }).err
        = some ErrNoRows ∧
      (Add (latteWorld 10 10)
        { CustomerName := "Ann", Notes := .encodable "",
          Items := [{ ProductID := 9, Quantity := 1 }] }).world.rollbackCalls = 1 ∧
      (Add (latteWorld 10 10)
        { CustomerName := "Ann", Notes := .encodable "",
          Items := [{ ProductID := 9, Quantity := 1 }] }).world.tx = none := by
  decide

/-! ## Outcome record and total -/

/-- C5, as stated, fails: `Total` is computed in `float64`.  One line of three
units of a menu item priced 0.1 (the nearest `float64`) is accepted with
`Total` 0.30000000000000004, while the sum of unit price times quantity, the
price taken as the exact number it is, is 3 x 0.1000000000000000055...; the
two differ. -/
theorem Add_total_rounded :
    (Add kioskWorld (kioskOrder [(1, 3)])).err = none ∧
    (Add kioskWorld (kioskOrder [(1, 3)])).info.Total
      = 1351079888211149 / 4503599627370496 ∧
    ((kioskOrder [(1, 3)]).Items.map (fun v =>
        (v.Quantity : ℚ) * (priceOf kioskWorld.db.menu_items v.ProductID).getD 0)).sum
      = 10808639105689191 / 36028797018963968 ∧
    (Add kioskWorld (kioskOrder [(1, 3)])).info.Total ≠
      ((kioskOrder [(1, 3)]).Items.map (fun v =>
        (v.Quantity : ℚ) * (priceOf kioskWorld.db.menu_items v.ProductID).getD 0)).sum := by
  have hacc : (Add kioskWorld (kioskOrder [(1, 3)])).err = none := by decide
  obtain ⟨_, _, _, _, _, _, _, _, hinfo⟩ := Add_ok hacc
  have hprice : priceOf kioskWorld.db.menu_items 1 = some float64Tenth := by
    simp [priceOf, kioskWorld, kioskStore]
  have htotal : (Add kioskWorld (kioskOrder [(1, 3)])).info.Total
      = 1351079888211149 / 4503599627370496 := by
    rw [hinfo]
    simp only [kioskOrder, List.map_cons, List.map_nil, floatTotal, hprice, Option.getD_some]
    rw [float64OfInt_small.2.2.1, float64Mul_three_tenth, float64Add_zero_three_tenths]
  have hsum : ((kioskOrder [(1, 3)]).Items.map (fun v =>
        (v.Quantity : ℚ) * (priceOf kioskWorld.db.menu_items v.ProductID).getD 0)).sum
      = 10808639105689191 / 36028797018963968 := by
    simp only [kioskOrder, List.map_cons, List.map_nil, hprice, Option.getD_some,
      List.sum_cons, List.sum_nil, float64Tenth]
    norm_num
  refine ⟨hacc, htotal, hsum, ?_⟩
  rw [htotal, hsum]
  norm_num


/-- C5, amended: whenever `Add` returns a nil error, every line's menu item has
a price in `menu_items` and the outcome's `Total` is the `float64` running sum
over the request's lines in order (`Total + float64(quantity) * price`, the
conversion, the product and the sum each rounded); whenever no operation of it
rounds, it is the sum over the lines of unit price times line quantity. -/
theorem Add_total_is_price_sum (w : World) (order : Order)
    (h : (Add w order).err = none) :
    (∀ v ∈ order.Items, ∃ price, queryGetPrice w.db v.ProductID = some price) ∧
    (Add w order).info.Total = floatTotal w.db.menu_items 0 order.Items ∧
    (NoRounding w.db.menu_items 0 order.Items →
      (Add w order).info.Total =
        (order.Items.map (fun v =>
          (v.Quantity : ℚ) * (priceOf w.db.menu_items v.ProductID).getD 0)).sum) := by
  obtain ⟨_, _, _, _, hpr, _, _, _, hinfo⟩ := Add_ok h
  refine ⟨fun v hv => Option.isSome_iff_exists.mp (hpr v hv), by rw [hinfo], fun hx => ?_⟩
  rw [hinfo]
  simp only
  rw [floatTotal_of_noRounding _ _ _ hx, zero_add]
  rfl

/-- Scenario A of the spec: three Lattes at 3.50 are accepted, nothing rounds,
and the total is the running sum of the request, its price sum. -/
theorem Add_total_is_price_sum_witness :
    (Add (latteWorld 10 10) (latteOrder [3])).err = none ∧
      NoRounding (latteWorld 10 10).db.menu_items 0 (latteOrder [3]).Items ∧
      ((∀ v ∈ (latteOrder [3]).Items,
          ∃ price, queryGetPrice (latteWorld 10 10).db v.ProductID = some price) ∧
       (Add (latteWorld 10 10) (latteOrder [3])).info.Total =
          floatTotal (latteWorld 10 10).db.menu_items 0 (latteOrder [3]).Items ∧
       (NoRounding (latteWorld 10 10).db.menu_items 0 (latteOrder [3]).Items →
        (Add (latteWorld 10 10) (latteOrder [3])).info.Total =
        ((latteOrder [3]).Items.map (fun v =>
          (v.Quantity : ℚ) * (priceOf (latteWorld 10 10).db.menu_items v.ProductID).getD 0)).sum)) :=
  ⟨by decide, latte_noRounding, Add_total_is_price_sum _ _ (by decide)⟩

/-- In Scenario A nothing rounds, and the total is 10.50. -/
theorem latte_total : (Add (latteWorld 10 10) (latteOrder [3])).info.Total = 21 / 2 := by
  have hacc : (Add (latteWorld 10 10) (latteOrder [3])).err = none := by decide
  obtain ⟨_, _, _, _, _, _, _, _, hinfo⟩ := Add_ok hacc
  rw [hinfo]
  simp only
  rw [floatTotal_of_noRounding _ _ _ latte_noRounding]
  simp [orderTotal, latteOrder, latteWorld, latteStore, priceOf]
  norm_num

/-- The price sum of Scenario A is 10.50. -/
theorem latte_price_sum :
    ((latteOrder [3]).Items.map (fun v =>
      (v.Quantity : ℚ) * (priceOf (latteWorld 10 10).db.menu_items v.ProductID).getD 0)).sum
      = 21 / 2 := by
  simp [latteOrder, latteWorld, latteStore, priceOf]
  norm_num

/-- C10: for every call of `Add`, the status is accepted exactly when the
returned error is nil; an accepted outcome has reason "OK" and carries the ID
of the header row the call inserted; a non-nil error comes with status
rejected and total 0; the customer name is always the request's. -/
theorem Add_outcome_shape (w : World) (order : Order) :
    ((Add w order).info.Status = StatusOrderAccepted ↔ (Add w order).err = none) ∧
    ((Add w order).err = none →
      (Add w order).info.Reason = "OK" ∧
      ∃ header, (Add w order).world.db.orders = w.db.orders ++ [header] ∧
        header.ID = (Add w order).info.OrderID ∧
        header.CustomerName = order.CustomerName) ∧
    ((Add w order).err ≠ none →
      (Add w order).info.Status = StatusOrderRejected ∧ (Add w order).info.Total = 0) ∧
    (Add w order).info.CustomerName = order.CustomerName := by
  by_cases h : (Add w order).err = none
  · obtain ⟨notesJSON, rows, _, _, _, hdb, _, _, hinfo⟩ := Add_ok h
    refine ⟨⟨fun _ => h, fun _ => by rw [hinfo]⟩, fun _ => ⟨by rw [hinfo], ?_⟩,
      fun hne => absurd h hne, by rw [hinfo]⟩
    exact ⟨_, by rw [hdb], by rw [hinfo], rfl⟩
  · obtain ⟨_, htot, hst, hcn⟩ := Add_error_frame h
    refine ⟨⟨fun hacc => ?_, fun hnone => absurd hnone h⟩, fun hnone => absurd hnone h,
      fun _ => ⟨hst, htot⟩, hcn⟩
    rw [hst] at hacc
    exact absurd hacc (by decide)

/-- The price sum does not change under permuting and merging lines. -/
theorem orderTotal_rearranged (menu : List MenuItemRow) {l1 l2 : List OrderItem}
    (h : Rearranged l1 l2) : orderTotal menu l1 = orderTotal menu l2 := by
  induction h with
  | perm hp =>
    unfold orderTotal
    exact (hp.map _).sum_eq
  | merge m a b l =>
    simp only [orderTotal_cons]
    push_cast
    ring
  | cons v _ ih => rw [orderTotal_cons, orderTotal_cons, ih]
  | symm _ ih => exact ih.symm
  | trans _ _ ih1 ih2 => exact ih1.trans ih2

/-- C6, as stated, fails: three lines of one unit each, priced 0.1, 0.2 and 0.3
(the nearest `float64` values), are accepted in either order, with `Total`
0.6000000000000001 in the order 0.1, 0.2, 0.3 and 0.6 in the reverse order. -/
theorem Add_total_depends_on_order :
    ((kioskOrder [(3, 1), (2, 1), (1, 1)]).Items.Perm (kioskOrder [(1, 1), (2, 1), (3, 1)]).Items) ∧
    (Add kioskWorld (kioskOrder [(1, 1), (2, 1), (3, 1)])).err = none ∧
    (Add kioskWorld (kioskOrder [(3, 1), (2, 1), (1, 1)])).err = none ∧
    (Add kioskWorld (kioskOrder [(1, 1), (2, 1), (3, 1)])).info.Total
      = 1351079888211149 / 2251799813685248 ∧
    (Add kioskWorld (kioskOrder [(3, 1), (2, 1), (1, 1)])).info.Total
      = 5404319552844595 / 9007199254740992 ∧
    (Add kioskWorld (kioskOrder [(1, 1), (2, 1), (3, 1)])).info.Total ≠
      (Add kioskWorld (kioskOrder [(3, 1), (2, 1), (1, 1)])).info.Total := by
  have hacc1 : (Add kioskWorld (kioskOrder [(1, 1), (2, 1), (3, 1)])).err = none := by decide
  have hacc2 : (Add kioskWorld (kioskOrder [(3, 1), (2, 1), (1, 1)])).err = none := by decide
  obtain ⟨_, _, _, _, _, _, _, _, hinfo1⟩ := Add_ok hacc1
  obtain ⟨_, _, _, _, _, _, _, _, hinfo2⟩ := Add_ok hacc2
  obtain ⟨hp1, hp2, hp3, -⟩ := kiosk_prices
  have hzero : float64Add 0 float64Tenth = float64Tenth := by
    unfold float64Add
    rw [zero_add, roundFloat64_tenth]
  have hzero3 : float64Add 0 float64ThreeTenths = float64ThreeTenths := by
    unfold float64Add
    rw [zero_add, roundFloat64_threeTenths]
  have hm1 : float64Mul 1 float64Tenth = float64Tenth := by
    unfold float64Mul
    rw [one_mul, roundFloat64_tenth]
  have hm2 : float64Mul 1 float64Fifth = float64Fifth := by
    unfold float64Mul
    rw [one_mul, roundFloat64_fifth]
  have hm3 : float64Mul 1 float64ThreeTenths = float64ThreeTenths := by
    unfold float64Mul
    rw [one_mul, roundFloat64_threeTenths]
  have ht1 : (Add kioskWorld (kioskOrder [(1, 1), (2, 1), (3, 1)])).info.Total
      = 1351079888211149 / 2251799813685248 := by
    rw [hinfo1]
    simp only [kioskOrder, List.map_cons, List.map_nil, floatTotal, hp1, hp2, hp3,
      Option.getD_some]
    rw [float64OfInt_small.1, hm1, hm2, hm3, hzero, float64Add_tenth_fifth,
      float64Add_sum_threeTenths]
  have ht2 : (Add kioskWorld (kioskOrder [(3, 1), (2, 1), (1, 1)])).info.Total
      = 5404319552844595 / 9007199254740992 := by
    rw [hinfo2]
    simp only [kioskOrder, List.map_cons, List.map_nil, floatTotal, hp1, hp2, hp3,
      Option.getD_some]
    rw [float64OfInt_small.1, hm1, hm2, hm3, hzero3, float64Add_threeTenths_fifth,
      float64Add_half_tenth]
  refine ⟨by decide, hacc1, hacc2, ht1, ht2, ?_⟩
  rw [ht1, ht2]
  norm_num

/-- C6, amended: if a request is accepted and a request whose lines are a
rearrangement of its lines (lines permuted, lines of the same menu item merged
into one with the summed quantity) is accepted against the same menu, and no
`float64` operation of either running sum rounds, both outcomes carry the same
`Total`. -/
theorem Add_total_rearranged (w w' : World) (order order' : Order)
    (hmenu : w'.db.menu_items = w.db.menu_items)
    (hr : Rearranged order.Items order'.Items)
    (h : (Add w order).err = none) (h' : (Add w' order').err = none)
    (hx : NoRounding w.db.menu_items 0 order.Items)
    (hx' : NoRounding w'.db.menu_items 0 order'.Items) :
    (Add w order).info.Total = (Add w' order').info.Total := by
  obtain ⟨_, _, _, _, _, _, _, _, hinfo⟩ := Add_ok h
  obtain ⟨_, _, _, _, _, _, _, _, hinfo'⟩ := Add_ok h'
  rw [hinfo, hinfo']
  simp only
  rw [floatTotal_of_noRounding _ _ _ hx, floatTotal_of_noRounding _ _ _ hx', hmenu]
  rw [orderTotal_rearranged _ hr]

/-- The lines (Latte, 2), (Latte, 1) at 3.50: no operation of the running sum
rounds. -/
theorem latte_two_lines_noRounding :
    NoRounding (latteWorld 10 10).db.menu_items 0 (latteOrder [2, 1]).Items := by
  have hprice : priceOf (latteWorld 10 10).db.menu_items 1 = some (7 / 2) := by
    simp [priceOf, latteWorld, latteStore]
  simp only [latteOrder, List.map_cons, List.map_nil, NoRounding, hprice, Option.getD_some,
    and_true]
  norm_num
  refine ⟨isFloat64_of_small 1 4503599627370496 (by norm_num) (by norm_num) (by norm_num)
      (by norm_num) (by norm_num),
    isFloat64_of_small 2 7881299347898368 (by norm_num) (by norm_num) (by norm_num)
      (by norm_num) (by norm_num),
    isFloat64_of_small 0 4503599627370496 (by norm_num) (by norm_num) (by norm_num)
      (by norm_num) (by norm_num),
    isFloat64_of_small 1 7881299347898368 (by norm_num) (by norm_num) (by norm_num)
      (by norm_num) (by norm_num),
    isFloat64_ten_and_a_half⟩

/-- Scenario C of the spec against its merged form: lines (Latte, 2), (Latte, 1)
and the single line (Latte, 3) are both accepted, nothing rounds, and the
totals are the same. -/
theorem Add_total_rearranged_witness :
    ((latteWorld 10 10).db.menu_items = (latteWorld 10 10).db.menu_items ∧
      Rearranged (latteOrder [2, 1]).Items (latteOrder [3]).Items ∧
      (Add (latteWorld 10 10) (latteOrder [2, 1])).err = none ∧
      (Add (latteWorld 10 10) (latteOrder [3])).err = none ∧
      NoRounding (latteWorld 10 10).db.menu_items 0 (latteOrder [2, 1]).Items ∧
      NoRounding (latteWorld 10 10).db.menu_items 0 (latteOrder [3]).Items) ∧
    (Add (latteWorld 10 10) (latteOrder [2, 1])).info.Total
      = (Add (latteWorld 10 10) (latteOrder [3])).info.Total :=
  ⟨⟨rfl, Rearranged.merge 1 2 1 [], by decide, by decide, latte_two_lines_noRounding,
    latte_noRounding⟩,
   Add_total_rearranged _ _ _ _ rfl (Rearranged.merge 1 2 1 []) (by decide) (by decide)
    latte_two_lines_noRounding latte_noRounding⟩

/-! ## Stored order lines -/

theorem upsertOrderItem_keys (pid q oid : Int) (rows : List OrderItemRow) :
    (upsertOrderItem pid q oid rows).map OrderItemRow.key =
      if (oid, pid) ∈ rows.map OrderItemRow.key then rows.map OrderItemRow.key
      else rows.map OrderItemRow.key ++ [(oid, pid)] := by
  induction rows with
  | nil => simp [upsertOrderItem, OrderItemRow.key]
  | cons r rs ih =>
    by_cases hr : r.OrderID = oid ∧ r.ProductID = pid
    · have hk : r.key = (oid, pid) := by simp [OrderItemRow.key, hr.1, hr.2]
      simp [upsertOrderItem, hr, OrderItemRow.key]
    · have hk : ¬ ((oid, pid) = r.key) := by
        intro hk
        apply hr
        simp only [OrderItemRow.key, Prod.mk.injEq] at hk
        exact ⟨hk.1.symm, hk.2.symm⟩
      simp only [upsertOrderItem, hr, if_false, List.map_cons, ih, List.mem_cons, hk, false_or]
      split <;> simp

theorem upsertOrderItem_nodup {pid q oid : Int} {rows : List OrderItemRow}
    (h : (rows.map OrderItemRow.key).Nodup) :
    ((upsertOrderItem pid q oid rows).map OrderItemRow.key).Nodup := by
  rw [upsertOrderItem_keys]
  split
  · exact h
  · rename_i hn
    exact List.Nodup.append h (List.nodup_singleton _) (by simpa using hn)

theorem upsertOrderItem_storedQuantity (pid q oid : Int) (rows : List OrderItemRow)
    (k : Int × Int) :
    storedQuantity (upsertOrderItem pid q oid rows) k =
      storedQuantity rows k + if k = (oid, pid) then q else 0 := by
  induction rows with
  | nil =>
    by_cases hk : k = (oid, pid)
    · simp [upsertOrderItem, storedQuantity, OrderItemRow.key, hk]
    · have hk2 : ¬ ((oid, pid) = k) := fun h => hk h.symm
      simp [upsertOrderItem, storedQuantity, OrderItemRow.key, hk, hk2]
  | cons r rs ih =>
    by_cases hr : r.OrderID = oid ∧ r.ProductID = pid
    · have hkey : r.key = (oid, pid) := by simp [OrderItemRow.key, hr.1, hr.2]
      by_cases hk : k = (oid, pid)
      · subst hk
        simp only [upsertOrderItem, hr, and_self, if_true, storedQuantity]
        simp [List.filter_cons, OrderItemRow.key, hr.1, hr.2]
        ring
      · have hk2 : ¬ (r.key = k) := fun h => hk (h.symm.trans hkey)
        have hk3 : ¬ ((oid, pid) = k) := fun h => hk h.symm
        simp only [upsertOrderItem, hr, and_self, if_true, storedQuantity, hk, if_false,
          add_zero]
        simp [List.filter_cons, OrderItemRow.key, hk3, hr.1, hr.2]
    · simp only [upsertOrderItem, hr, if_false]
      have hcons : ∀ l : List OrderItemRow, storedQuantity (r :: l) k =
          (if r.key = k then r.Quantity else 0) + storedQuantity l k := by
        intro l
        unfold storedQuantity
        by_cases h1 : r.key = k <;> simp [List.filter_cons, h1]
      rw [hcons, hcons, ih]
      ring

theorem storedQuantity_of_mem {rows : List OrderItemRow}
    (h : (rows.map OrderItemRow.key).Nodup) {r : OrderItemRow} (hr : r ∈ rows) :
    r.Quantity = storedQuantity rows r.key := by
  induction rows with
  | nil => simp at hr
  | cons r0 rs ih =>
    simp only [List.map_cons, List.nodup_cons] at h
    have hcons : storedQuantity (r0 :: rs) r.key =
        (if r0.key = r.key then r0.Quantity else 0) + storedQuantity rs r.key := by
      unfold storedQuantity
      by_cases h1 : r0.key = r.key <;> simp [List.filter_cons, h1]
    rw [hcons]
    rcases List.mem_cons.mp hr with rfl | hmem
    · have hz : storedQuantity rs r.key = 0 := by
        unfold storedQuantity
        have : rs.filter (fun x => decide (x.key = r.key)) = [] := by
          rw [List.filter_eq_nil_iff]
          intro x hx hxk
          simp only [decide_eq_true_eq] at hxk
          exact h.1 (List.mem_map.mpr ⟨x, hx, hxk⟩)
        rw [this]; rfl
      simp [hz]
    · have hne : ¬ (r0.key = r.key) := by
        intro hk
        exact h.1 (hk ▸ List.mem_map.mpr ⟨r, hmem, rfl⟩)
      simp only [hne, if_false, zero_add]
      exact ih h.2 hmem

theorem upsertAll_cons (ID : Int) (v : OrderItem) (rest : List OrderItem)
    (rows : List OrderItemRow) :
    upsertAll ID (v :: rest) rows =
      upsertAll ID rest (upsertOrderItem v.ProductID v.Quantity ID rows) := rfl

theorem upsertAll_nodup (ID : Int) (items : List OrderItem) {rows : List OrderItemRow}
    (h : (rows.map OrderItemRow.key).Nodup) :
    ((upsertAll ID items rows).map OrderItemRow.key).Nodup := by
  induction items generalizing rows with
  | nil => exact h
  | cons v rest ih =>
    rw [upsertAll_cons]
    exact ih (upsertOrderItem_nodup h)

theorem upsertAll_keys (ID : Int) (items : List OrderItem) (rows : List OrderItemRow)
    (k : Int × Int) :
    k ∈ (upsertAll ID items rows).map OrderItemRow.key ↔
      k ∈ rows.map OrderItemRow.key ∨ ∃ v ∈ items, k = (ID, v.ProductID) := by
  induction items generalizing rows with
  | nil => simp [upsertAll]
  | cons v rest ih =>
    rw [upsertAll_cons, ih, upsertOrderItem_keys]
    constructor
    · rintro (hk | ⟨x, hx, hk⟩)
      · split at hk
        · exact Or.inl hk
        · rcases List.mem_append.mp hk with hk | hk
          · exact Or.inl hk
          · right
            exact ⟨v, List.mem_cons_self _ _, by simpa using hk⟩
      · exact Or.inr ⟨x, List.mem_cons_of_mem _ hx, hk⟩
    · rintro (hk | ⟨x, hx, hk⟩)
      · left
        split
        · exact hk
        · exact List.mem_append_left _ hk
      · rcases List.mem_cons.mp hx with rfl | hx
        · left
          split
          · rename_i hin
            rw [hk]; exact hin
          · rw [hk]; simp
        · exact Or.inr ⟨x, hx, hk⟩

theorem requestedQuantity_cons (v : OrderItem) (rest : List OrderItem) (m : Int) :
    requestedQuantity (v :: rest) m =
      (if v.ProductID = m then v.Quantity else 0) + requestedQuantity rest m := by
  unfold requestedQuantity
  by_cases h : v.ProductID = m <;> simp [List.filter_cons, h]

theorem upsertAll_storedQuantity (ID : Int) (items : List OrderItem)
    (rows : List OrderItemRow) (m : Int) :
    storedQuantity (upsertAll ID items rows) (ID, m) =
      storedQuantity rows (ID, m) + requestedQuantity items m := by
  induction items generalizing rows with
  | nil => simp [upsertAll, requestedQuantity]
  | cons v rest ih =>
    rw [upsertAll_cons, ih, upsertOrderItem_storedQuantity, requestedQuantity_cons]
    by_cases h : v.ProductID = m
    · simp [h]; ring
    · have h2 : ¬ (m = v.ProductID) := fun e => h e.symm
      simp [h, h2]

theorem storedQuantity_fresh {rows : List OrderItemRow} {ID : Int}
    (h : ∀ r ∈ rows, r.OrderID ≠ ID) (m : Int) : storedQuantity rows (ID, m) = 0 := by
  unfold storedQuantity
  have : rows.filter (fun r => decide (r.key = (ID, m))) = [] := by
    rw [List.filter_eq_nil_iff]
    intro x hx hxk
    simp only [decide_eq_true_eq, OrderItemRow.key, Prod.mk.injEq] at hxk
    exact h x hx hxk.1
  rw [this]; rfl

/-- C9: after an accepted `Add`, given that before the call `order_items` had
at most one row per `(OrderID, ProductID)` and no row for the ID about to be
assigned, the table still has at most one row per pair, the new order has a row
for a menu item exactly when the item appears in the request, and each such
row's quantity is the sum of the quantities of the request lines for that
item. -/
theorem Add_order_lines_unique (w : World) (order : Order)
    (h : (Add w order).err = none)
    (hkeys : (w.db.order_items.map OrderItemRow.key).Nodup)
    (hfresh : ∀ r ∈ w.db.order_items, r.OrderID ≠ w.nextOrderID) :
    ((Add w order).world.db.order_items.map OrderItemRow.key).Nodup ∧
    (∀ m, (∃ r ∈ (Add w order).world.db.order_items,
            r.OrderID = (Add w order).info.OrderID ∧ r.ProductID = m) ↔
          m ∈ order.Items.map (fun v => v.ProductID)) ∧
    (∀ r ∈ (Add w order).world.db.order_items,
        r.OrderID = (Add w order).info.OrderID →
        r.Quantity = requestedQuantity order.Items r.ProductID) := by
  obtain ⟨_, _, _, _, _, hdb, _, _, hinfo⟩ := Add_ok h
  have hitems : (Add w order).world.db.order_items =
      upsertAll w.nextOrderID order.Items w.db.order_items := by rw [hdb]
  have hid : (Add w order).info.OrderID = w.nextOrderID := by rw [hinfo]
  rw [hitems, hid]
  have hnd := upsertAll_nodup w.nextOrderID order.Items hkeys
  refine ⟨hnd, fun m => ?_, fun r hr hrid => ?_⟩
  · constructor
    · rintro ⟨r, hr, hrid, hrm⟩
      have hk : (w.nextOrderID, m) ∈
          (upsertAll w.nextOrderID order.Items w.db.order_items).map OrderItemRow.key :=
        List.mem_map.mpr ⟨r, hr, by simp [OrderItemRow.key, hrid, hrm]⟩
      rcases (upsertAll_keys _ _ _ _).mp hk with hk | ⟨v, hv, hk⟩
      · obtain ⟨x, hx, hxk⟩ := List.mem_map.mp hk
        simp only [OrderItemRow.key, Prod.mk.injEq] at hxk
        exact absurd hxk.1 (hfresh x hx)
      · simp only [Prod.mk.injEq, true_and] at hk
        exact List.mem_map.mpr ⟨v, hv, hk.symm⟩
    · intro hm
      obtain ⟨v, hv, hvm⟩ := List.mem_map.mp hm
      have hk : (w.nextOrderID, m) ∈
          (upsertAll w.nextOrderID order.Items w.db.order_items).map OrderItemRow.key :=
        (upsertAll_keys _ _ _ _).mpr (Or.inr ⟨v, hv, by rw [hvm]⟩)
      obtain ⟨r, hr, hrk⟩ := List.mem_map.mp hk
      simp only [OrderItemRow.key, Prod.mk.injEq] at hrk
      exact ⟨r, hr, hrk.1, hrk.2⟩
  · have hq := storedQuantity_of_mem hnd hr
    have hkey : r.key = (w.nextOrderID, r.ProductID) := by
      simp [OrderItemRow.key, hrid]
    rw [hq, hkey, upsertAll_storedQuantity, storedQuantity_fresh hfresh, zero_add]

/-- Scenario C of the spec: lines (Latte, 2) and (Latte, 1) on an empty
`order_items` table. -/
theorem Add_order_lines_unique_witness :
    ((Add (latteWorld 10 10) (latteOrder [2, 1])).err = none ∧
      ((latteWorld 10 10).db.order_items.map OrderItemRow.key).Nodup ∧
      (∀ r ∈ (latteWorld 10 10).db.order_items, r.OrderID ≠ (latteWorld 10 10).nextOrderID)) ∧
    (((Add (latteWorld 10 10) (latteOrder [2, 1])).world.db.order_items.map
        OrderItemRow.key).Nodup ∧
      (∀ m, (∃ r ∈ (Add (latteWorld 10 10) (latteOrder [2, 1])).world.db.order_items,
              r.OrderID = (Add (latteWorld 10 10) (latteOrder [2, 1])).info.OrderID ∧
              r.ProductID = m) ↔
            m ∈ (latteOrder [2, 1]).Items.map (fun v => v.ProductID)) ∧
      (∀ r ∈ (Add (latteWorld 10 10) (latteOrder [2, 1])).world.db.order_items,
          r.OrderID = (Add (latteWorld 10 10) (latteOrder [2, 1])).info.OrderID →
          r.Quantity = requestedQuantity (latteOrder [2, 1]).Items r.ProductID)) :=
  ⟨⟨by decide, by decide, by decide⟩,
   Add_order_lines_unique _ _ (by decide) (by decide) (by decide)⟩

/-- The stored lines of Scenario C: one row, quantity 3. -/
theorem latte_two_lines_stored :
    (Add (latteWorld 10 10) (latteOrder [2, 1])).world.db.order_items
      = [{ OrderID := 1, ProductID := 1, Quantity := 3 }] := by
  decide

/-! ## Inventory -/

theorem updateInventoryRows_nonneg {amount g : Int} {rows : List InventoryRow}
    (h : ∀ r ∈ rows, 0 ≤ r.Quantity) :
    ∀ r ∈ updateInventoryRows amount g rows, 0 ≤ r.Quantity := by
  intro r hr
  unfold updateInventoryRows at hr
  obtain ⟨x, hx, hxr⟩ := List.mem_map.mp hr
  have hx0 := h x hx
  split at hxr
  · rename_i hg
    rw [← hxr]
    simp only
    omega
  · rw [← hxr]; exact hx0

theorem deductAll_nonneg {rows rows1 : List InventoryRow} {ds : List (Int × Int)}
    (hd : deductAll rows ds = .done rows1) (h : ∀ r ∈ rows, 0 ≤ r.Quantity) :
    ∀ r ∈ rows1, 0 ≤ r.Quantity := by
  induction ds generalizing rows with
  | nil =>
    simp only [deductAll, Deduction.done.injEq] at hd
    rw [← hd]; exact h
  | cons d ds ih =>
    obtain ⟨g, req⟩ := d
    simp only [deductAll] at hd
    split at hd
    · simp at hd
    · split at hd
      · simp at hd
      · exact ih hd (updateInventoryRows_nonneg h)

/-- C7: if every inventory entry is non-negative before a call of `Add`, every
inventory entry of the committed state after the call is non-negative, whether
the request was accepted or rejected. -/
theorem Add_inventory_nonneg (w : World) (order : Order)
    (h : ∀ r ∈ w.db.inventory, 0 ≤ r.Quantity) :
    ∀ r ∈ (Add w order).world.db.inventory, 0 ≤ r.Quantity := by
  by_cases herr : (Add w order).err = none
  · obtain ⟨_, rows, _, hd, _, hdb, _, _, _⟩ := Add_ok herr
    rw [hdb]
    exact deductAll_nonneg hd h
  · rw [(Add_error_frame herr).1]
    exact h

/-- Scenario A of the spec: inventory 10, 10 before and non-negative after. -/
theorem Add_inventory_nonneg_witness :
    (∀ r ∈ (latteWorld 10 10).db.inventory, 0 ≤ r.Quantity) ∧
      (∀ r ∈ (Add (latteWorld 10 10) (latteOrder [3])).world.db.inventory, 0 ≤ r.Quantity) :=
  ⟨by decide, Add_inventory_nonneg _ _ (by decide)⟩

theorem wrapInt64_of_fits {x : Int} (h : fitsInt64 x) : wrapInt64 x = x := by
  unfold fitsInt64 at h
  unfold wrapInt64
  omega

theorem codeDemands_eq_orderDemands {recipes : List MenuItemIngredientRow}
    {items : List OrderItem} (h : NoOverflow recipes items) :
    codeDemands recipes items = orderDemands recipes items := by
  induction items with
  | nil => rfl
  | cons v rest ih =>
    have hrest : NoOverflow recipes rest := fun x hx r hr hm =>
      h x (List.mem_cons_of_mem _ hx) r hr hm
    have hv : lineDemands recipes v =
        (recipeOf recipes v.ProductID).map (fun r => (r.IngredientID, r.Quantity * v.Quantity)) := by
      unfold lineDemands
      apply List.map_congr_left
      intro r hr
      have hr2 := List.mem_filter.mp hr
      have hm : r.MenuID = v.ProductID := by simpa using hr2.2
      rw [wrapInt64_of_fits (h v (List.mem_cons_self _ _) r hr2.1 hm)]
    have ih1 := ih hrest
    simp only [codeDemands, orderDemands, List.flatMap_cons] at ih1 ⊢
    rw [ih1, hv]

theorem onHand_cons (r : InventoryRow) (rs : List InventoryRow) (g : Int) :
    onHand (r :: rs) g = if r.IngredientID = g then some r.Quantity else onHand rs g := by
  unfold onHand
  by_cases h : r.IngredientID = g <;> simp [List.find?_cons, h]

theorem onHand_updateInventoryRows (amount g : Int) (rows : List InventoryRow) (g1 : Int) :
    onHand (updateInventoryRows amount g rows) g1 =
      if g1 = g then (onHand rows g).map (fun a => if a ≥ amount then a - amount else a)
      else onHand rows g1 := by
  induction rows with
  | nil => simp [onHand, updateInventoryRows]
  | cons r rs ih =>
    have hcons : updateInventoryRows amount g (r :: rs) =
        (if r.IngredientID = g ∧ r.Quantity ≥ amount then
          { r with Quantity := r.Quantity - amount } else r) ::
          updateInventoryRows amount g rs := rfl
    rw [hcons]
    simp only [onHand_cons, ih]
    by_cases h1 : r.IngredientID = g1
    · by_cases h2 : g1 = g
      · subst h2
        by_cases h3 : r.Quantity ≥ amount
        · simp [h1, h3]
        · simp [h1, h3]
      · have h4 : ¬ (r.IngredientID = g) := fun e => h2 (h1.symm.trans e)
        simp [h1, h2, h4]
    · by_cases h2 : g1 = g
      · subst h2
        simp [h1]
      · by_cases h3 : r.IngredientID = g ∧ r.Quantity ≥ amount
        · have h4 : ¬ (g = g1) := fun e => h2 e.symm
          simp [h1, h2, h3, h4]
        · simp [h1, h2, h3]

theorem onHand_of_find {rows : List InventoryRow} {g : Int} {r : InventoryRow}
    (h : rows.find? (fun r => decide (r.IngredientID = g)) = some r) :
    onHand rows g = some r.Quantity := by
  unfold onHand
  rw [h]; rfl

theorem find_of_onHand {rows : List InventoryRow} {g a : Int}
    (h : onHand rows g = some a) :
    ∃ r, rows.find? (fun r => decide (r.IngredientID = g)) = some r ∧ r.Quantity = a := by
  unfold onHand at h
  cases hf : rows.find? (fun r => decide (r.IngredientID = g)) with
  | none => simp [hf] at h
  | some r => exact ⟨r, rfl, by simpa [hf] using h⟩

theorem demandFor_cons (d : Int × Int) (ds : List (Int × Int)) (g : Int) :
    demandFor (d :: ds) g = (if d.1 = g then d.2 else 0) + demandFor ds g := by
  unfold demandFor
  by_cases h : d.1 = g <;> simp [List.filter_cons, h]

theorem deductAll_onHand {rows rows1 : List InventoryRow} {ds : List (Int × Int)}
    (hd : deductAll rows ds = .done rows1) (g : Int) :
    onHand rows1 g = (onHand rows g).map (fun a => a - demandFor ds g) := by
  induction ds generalizing rows with
  | nil =>
    simp only [deductAll, Deduction.done.injEq] at hd
    rw [← hd]
    simp [demandFor]
  | cons d ds ih =>
    obtain ⟨g0, req⟩ := d
    simp only [deductAll] at hd
    split at hd
    · simp at hd
    · rename_i r hfind
      split at hd
      · simp at hd
      · rename_i hlt
        rw [ih hd, onHand_updateInventoryRows, demandFor_cons]
        have h0 := onHand_of_find hfind
        by_cases hg : g = g0
        · subst hg
          have hge : r.Quantity ≥ req := by omega
          simp only [h0, Option.map_some', hge, if_true, Option.some.injEq]
          ring
        · have hg2 : ¬ (g0 = g) := fun e => hg e.symm
          simp [hg, hg2]

theorem demandFor_eq_zero {ds : List (Int × Int)} {g : Int}
    (h : ∀ d ∈ ds, d.1 ≠ g) : demandFor ds g = 0 := by
  unfold demandFor
  have : ds.filter (fun d => decide (d.1 = g)) = [] := by
    rw [List.filter_eq_nil_iff]
    intro d hd hdg
    exact h d hd (by simpa using hdg)
  rw [this]; rfl

/-- C4: whenever `Add` returns a nil error (and the products
`recipeQty x lineQuantity` are representable as Go ints), for every ingredient
`g` the committed on-hand quantity after the call is the quantity before the
call minus the sum, over all request lines and all recipe entries of the
line's menu item that reference `g`, of recipe quantity times line quantity;
an ingredient no line references keeps its quantity. -/
theorem Add_deducts_recipe_demand (w : World) (order : Order)
    (h : (Add w order).err = none)
    (hno : NoOverflow w.db.menu_item_ingredients order.Items) (g : Int) :
    onHand (Add w order).world.db.inventory g =
        (onHand w.db.inventory g).map
          (fun a => a - demandFor (orderDemands w.db.menu_item_ingredients order.Items) g) ∧
      ((∀ d ∈ orderDemands w.db.menu_item_ingredients order.Items, d.1 ≠ g) →
        onHand (Add w order).world.db.inventory g = onHand w.db.inventory g) := by
  obtain ⟨_, rows, _, hd, _, hdb, _, _, _⟩ := Add_ok h
  rw [codeDemands_eq_orderDemands hno] at hd
  have key := deductAll_onHand hd g
  have hinv : (Add w order).world.db.inventory = rows := by rw [hdb]
  rw [hinv]
  refine ⟨key, fun hnone => ?_⟩
  rw [key, demandFor_eq_zero hnone]
  simp

/-- Scenario A of the spec: three Lattes against milk = 10, espresso = 10. -/
theorem Add_deducts_recipe_demand_witness :
    ((Add (latteWorld 10 10) (latteOrder [3])).err = none ∧
      NoOverflow (latteWorld 10 10).db.menu_item_ingredients (latteOrder [3]).Items) ∧
    (onHand (Add (latteWorld 10 10) (latteOrder [3])).world.db.inventory 1 =
        (onHand (latteWorld 10 10).db.inventory 1).map
          (fun a => a - demandFor
            (orderDemands (latteWorld 10 10).db.menu_item_ingredients (latteOrder [3]).Items) 1) ∧
      ((∀ d ∈ orderDemands (latteWorld 10 10).db.menu_item_ingredients (latteOrder [3]).Items,
          d.1 ≠ 1) →
        onHand (Add (latteWorld 10 10) (latteOrder [3])).world.db.inventory 1
          = onHand (latteWorld 10 10).db.inventory 1)) :=
  ⟨⟨by decide, by decide⟩, Add_deducts_recipe_demand _ _ (by decide) (by decide) 1⟩

/-- The committed inventory of Scenario A: milk = 7, espresso = 7. -/
theorem latte_inventory_after :
    (Add (latteWorld 10 10) (latteOrder [3])).world.db.inventory
      = [{ IngredientID := 1, Name := "milk", Quantity := 7 },
         { IngredientID := 2, Name := "espresso", Quantity := 7 }] := by
  decide

/-! ## Rejection for insufficient inventory -/

theorem firstShortfall_deductAll {rows : List InventoryRow} {ds : List (Int × Int)}
    {sf : Shortfall} (h : firstShortfall (onHand rows) ds = some sf) :
    deductAll rows ds = .short sf.IngredientID sf.required sf.available := by
  induction ds generalizing rows with
  | nil => simp [firstShortfall] at h
  | cons d ds ih =>
    obtain ⟨g, req⟩ := d
    simp only [firstShortfall] at h
    cases ho : onHand rows g with
    | none => simp [ho] at h
    | some a =>
      simp only [ho] at h
      obtain ⟨r, hfind, hqty⟩ := find_of_onHand ho
      simp only [deductAll, hfind, hqty]
      split at h
      · rename_i hlt
        simp only [Option.some.injEq] at h
        subst h
        simp [hlt]
      · rename_i hlt
        simp only [hlt, if_false]
        apply ih
        have hfun : onHand (updateInventoryRows req g rows) =
            Function.update (onHand rows) g (some (a - req)) := by
          funext g1
          rw [onHand_updateInventoryRows]
          by_cases hg : g1 = g
          · subst hg
            have hge : a ≥ req := by omega
            simp [ho, hge]
          · simp [hg, Function.update_noteq hg]
        rw [hfun]
        exact h

theorem scan_plain_idle (l rest : List Char) (h : ∀ c ∈ l, Plain c) :
    scanIntegers .idle (l ++ rest) = scanIntegers .idle rest := by
  induction l with
  | nil => rfl
  | cons c cs ih =>
    have hc := h c (List.mem_cons_self _ _)
    simp only [List.cons_append, scanIntegers, hc.1, Bool.false_eq_true, if_false, hc.2,
      List.append_eq]
    exact ih (fun x hx => h x (List.mem_cons_of_mem _ hx))

theorem scan_plain_number (negative : Bool) (value : Nat) (c : Char) (l rest : List Char)
    (hc : Plain c) (h : ∀ x ∈ l, Plain x) :
    scanIntegers (.number negative value) (c :: l ++ rest) =
      ScanState.emit negative value :: scanIntegers .idle rest := by
  simp only [List.cons_append, scanIntegers, hc.1, Bool.false_eq_true, if_false, hc.2,
    List.append_eq]
  rw [scan_plain_idle l rest h]

theorem scan_digits (negative : Bool) (value : Nat) (ds rest : List Char)
    (h : ∀ c ∈ ds, c.isDigit = true) :
    scanIntegers (.number negative value) (ds ++ rest) =
      scanIntegers (.number negative (readDigits value ds)) rest := by
  induction ds generalizing value with
  | nil => rfl
  | cons c cs ih =>
    have hc := h c (List.mem_cons_self _ _)
    simp only [List.cons_append, scanIntegers, hc, if_true, List.append_eq]
    rw [ih _ (fun x hx => h x (List.mem_cons_of_mem _ hx))]
    rfl

theorem digitChar_isDigit {k : Nat} (hk : k < 10) : (Nat.digitChar k).isDigit = true := by
  interval_cases k <;> rfl

theorem digitChar_value {k : Nat} (hk : k < 10) : (Nat.digitChar k).toNat - 48 = k := by
  interval_cases k <;> rfl

theorem toDigitsCore_spec (fuel n : Nat) (acc : List Char) (h : n < fuel) :
    ∃ pre, Nat.toDigitsCore 10 fuel n acc = pre ++ acc ∧ pre ≠ [] ∧
      (∀ c ∈ pre, c.isDigit = true) ∧ readDigits 0 pre = n := by
  induction fuel generalizing n acc with
  | zero => omega
  | succ fuel ih =>
    unfold Nat.toDigitsCore
    simp only
    by_cases h0 : n / 10 = 0
    · rw [if_pos h0]
      have hn : n < 10 := by omega
      refine ⟨[Nat.digitChar (n % 10)], rfl, by simp, ?_, ?_⟩
      · intro c hc
        rw [List.mem_singleton] at hc
        rw [hc]
        exact digitChar_isDigit (Nat.mod_lt _ (by norm_num))
      · simp only [readDigits, List.foldl_cons, List.foldl_nil, zero_mul, zero_add]
        rw [digitChar_value (Nat.mod_lt _ (by norm_num))]
        omega
    · rw [if_neg h0]
      obtain ⟨pre, hpre, hne, hdig, hval⟩ := ih (n / 10) (Nat.digitChar (n % 10) :: acc)
        (by omega)
      refine ⟨pre ++ [Nat.digitChar (n % 10)], by rw [hpre]; simp, by simp, ?_, ?_⟩
      · intro c hc
        rcases List.mem_append.mp hc with hc | hc
        · exact hdig c hc
        · rw [List.mem_singleton] at hc
          rw [hc]
          exact digitChar_isDigit (Nat.mod_lt _ (by norm_num))
      · unfold readDigits at hval ⊢
        rw [List.foldl_append, hval]
        simp only [List.foldl_cons, List.foldl_nil]
        rw [digitChar_value (Nat.mod_lt _ (by norm_num))]
        omega

theorem toString_nat_toList (n : Nat) :
    ∃ d ds, (toString n).toList = d :: ds ∧ (∀ c ∈ d :: ds, c.isDigit = true) ∧
      readDigits 0 (d :: ds) = n := by
  obtain ⟨pre, hpre, hne, hdig, hval⟩ := toDigitsCore_spec (n + 1) n [] (by omega)
  rw [List.append_nil] at hpre
  have hs : (toString n).toList = pre := by
    show (Nat.repr n).toList = pre
    unfold Nat.repr Nat.toDigits
    rw [hpre]
    rfl
  cases pre with
  | nil => exact absurd rfl hne
  | cons d ds => exact ⟨d, ds, hs, hdig, hval⟩

theorem readDigits_cons (d : Char) (ds : List Char) :
    readDigits 0 (d :: ds) = readDigits (d.toNat - 48) ds := by
  simp [readDigits]

/-- Reading the decimal numeral of `z` from the idle state leaves the scanner
in a run of digits that stands for `z`. -/
theorem scan_toString_int (z : Int) (rest : List Char) :
    ∃ negative value, ScanState.emit negative value = z ∧
      scanIntegers .idle ((toString z).toList ++ rest) =
        scanIntegers (.number negative value) rest := by
  cases z with
  | ofNat m =>
    obtain ⟨d, ds, hs, hdig, hval⟩ := toString_nat_toList m
    refine ⟨false, m, rfl, ?_⟩
    have hz : (toString (Int.ofNat m)).toList = d :: ds := hs
    rw [hz]
    have hd := hdig d (List.mem_cons_self _ _)
    simp only [List.cons_append, scanIntegers, hd, if_true, List.append_eq]
    rw [scan_digits _ _ _ _ (fun c hc => hdig c (List.mem_cons_of_mem _ hc)),
      ← readDigits_cons, hval]
  | negSucc m =>
    obtain ⟨d, ds, hs, hdig, hval⟩ := toString_nat_toList (m + 1)
    refine ⟨true, m + 1, rfl, ?_⟩
    have hz : (toString (Int.negSucc m)).toList = '-' :: d :: ds := by
      show ("-" ++ toString (m + 1)).toList = _
      have hs1 : (toString (m + 1)).data = d :: ds := hs
      rw [String.toList, String.data_append, hs1]
      rfl
    rw [hz]
    have hd := hdig d (List.mem_cons_self _ _)
    have hminus : ('-' : Char).isDigit = false := by decide
    simp only [List.cons_append, scanIntegers, hminus, Bool.false_eq_true, if_false, if_true,
      hd, List.append_eq]
    rw [scan_digits _ _ _ _ (fun c hc => hdig c (List.mem_cons_of_mem _ hc)),
      ← readDigits_cons, hval]

theorem toList_append (a b : String) : (a ++ b).toList = a.toList ++ b.toList :=
  String.data_append a b

/-- The integers written in the rejection text are the ingredient ID, the
required amount and the available amount, in this order. -/
theorem integersIn_insufficientReason (g r a : Int) :
    integersIn (insufficientReason g r a) = [g, r, a] := by
  unfold integersIn insufficientReason
  simp only [toList_append]
  have hl1 : ∀ c ∈ ("insufficient_inventory. IngredientID: " : String).toList, Plain c := by
    decide
  have hl2 : ∀ c ∈ ("Required: " : String).toList, Plain c := by decide
  have hl3 : ∀ c ∈ ("Available: " : String).toList, Plain c := by decide
  have e2 : (". Required: " : String).toList = '.' :: ' ' :: ("Required: " : String).toList := rfl
  have e3 : (", Available: " : String).toList = ',' :: ' ' :: ("Available: " : String).toList :=
    rfl
  simp only [List.append_assoc]
  rw [scan_plain_idle _ _ hl1]
  obtain ⟨n1, v1, h1, hs1⟩ := scan_toString_int g
    ((". Required: " : String).toList ++ ((toString r).toList ++
      ((", Available: " : String).toList ++ (toString a).toList)))
  rw [hs1, e2]
  have step2 := scan_plain_number n1 v1 '.' (' ' :: ("Required: " : String).toList)
    ((toString r).toList ++ ((", Available: " : String).toList ++ (toString a).toList))
    (by decide) (by
      intro x hx
      rcases List.mem_cons.mp hx with rfl | hx
      · decide
      · exact hl2 x hx)
  simp only [List.cons_append] at step2 ⊢
  rw [step2, h1]
  obtain ⟨n2, v2, h2, hs2⟩ := scan_toString_int r
    ((", Available: " : String).toList ++ (toString a).toList)
  rw [hs2, e3]
  have step3 := scan_plain_number n2 v2 ',' (' ' :: ("Available: " : String).toList)
    ((toString a).toList)
    (by decide) (by
      intro x hx
      rcases List.mem_cons.mp hx with rfl | hx
      · decide
      · exact hl3 x hx)
  simp only [List.cons_append] at step3 ⊢
  rw [step3, h2]
  obtain ⟨n3, v3, h3, hs3⟩ := scan_toString_int a []
  rw [List.append_nil] at hs3
  rw [hs3]
  simp only [scanIntegers, h3]

theorem integersIn_examples :
    integersIn "insufficient_inventory. IngredientID: 1. Required: 3, Available: 2" = [1, 3, 2] ∧
    integersIn "a-12b 7--3" = [-12, 7, -3] ∧ integersIn "" = [] := by
  decide

/-- C3: with no storage failure, notes that encode, every line's menu item
present and the products representable as Go ints: if, taking the lines in
the caller's order and each line's recipe entries in order, with earlier
deductions applied, some ingredient has on-hand below
`recipeQty x lineQuantity`, then `Add` returns a non-nil error and a rejected
outcome whose reason is the text "insufficient_inventory. IngredientID: <id>.
Required: <required>, Available: <available>" for the first such ingredient, its
required amount and the amount available at that moment; the integers written
in the reason are exactly these three, in this order. -/
theorem Add_reports_first_shortfall (w : World) (order : Order) (sf : Shortfall)
    (hf : NoFaults w.faults)
    (hn : ∃ notesJSON, jsonMarshal order.Notes = .ok notesJSON)
    (hpr : ∀ v ∈ order.Items, ∃ price, queryGetPrice w.db v.ProductID = some price)
    (hno : NoOverflow w.db.menu_item_ingredients order.Items)
    (hsf : firstShortfall (onHand w.db.inventory)
      (orderDemands w.db.menu_item_ingredients order.Items) = some sf) :
    (Add w order).err ≠ none ∧
      (Add w order).info.Status = StatusOrderRejected ∧
      (Add w order).info.Reason =
        "insufficient_inventory. IngredientID: " ++ toString sf.IngredientID ++
          ". Required: " ++ toString sf.required ++
          ", Available: " ++ toString sf.available ∧
      integersIn (Add w order).info.Reason = [sf.IngredientID, sf.required, sf.available] := by
  obtain ⟨notesJSON, hn⟩ := hn
  have hd := firstShortfall_deductAll hsf
  rw [← codeDemands_eq_orderDemands hno] at hd
  have hpr1 : ∀ v ∈ order.Items, (priceOf w.db.menu_items v.ProductID).isSome :=
    fun v hv => Option.isSome_iff_exists.mpr (hpr v hv)
  obtain ⟨herr, hreason, -, -⟩ := Add_short_of_noFaults hf hn hpr1 hd
  have hne : (Add w order).err ≠ none := by rw [herr]; simp
  refine ⟨hne, (Add_error_frame hne).2.2.1, ?_, ?_⟩
  · rw [hreason]
    rfl
  · rw [hreason]
    exact integersIn_insufficientReason _ _ _

/-- Scenario B of the spec: milk = 2, three Lattes; the first shortfall is
milk, required 3, available 2, and the reason reads
"insufficient_inventory. IngredientID: 1. Required: 3, Available: 2". -/
theorem Add_reports_first_shortfall_witness :
    (NoFaults (latteWorld 2 10).faults ∧
      (∃ notesJSON, jsonMarshal (latteOrder [3]).Notes = .ok notesJSON) ∧
      (∀ v ∈ (latteOrder [3]).Items,
        ∃ price, queryGetPrice (latteWorld 2 10).db v.ProductID = some price) ∧
      NoOverflow (latteWorld 2 10).db.menu_item_ingredients (latteOrder [3]).Items ∧
      firstShortfall (onHand (latteWorld 2 10).db.inventory)
        (orderDemands (latteWorld 2 10).db.menu_item_ingredients (latteOrder [3]).Items)
        = some { IngredientID := 1, required := 3, available := 2 }) ∧
    ((Add (latteWorld 2 10) (latteOrder [3])).err ≠ none ∧
      (Add (latteWorld 2 10) (latteOrder [3])).info.Status = StatusOrderRejected ∧
      (Add (latteWorld 2 10) (latteOrder [3])).info.Reason =
        "insufficient_inventory. IngredientID: 1. Required: 3, Available: 2" ∧
      integersIn (Add (latteWorld 2 10) (latteOrder [3])).info.Reason = [1, 3, 2]) :=
  ⟨⟨by decide, ⟨_, rfl⟩,
    fun v hv => ⟨7 / 2, by
      simp only [latteOrder, List.map_cons, List.map_nil, List.mem_singleton] at hv
      subst hv
      rfl⟩,
    by decide, by decide⟩,
   Add_reports_first_shortfall _ _ { IngredientID := 1, required := 3, available := 2 }
    (by decide) ⟨_, rfl⟩
    (fun v hv => ⟨7 / 2, by
      simp only [latteOrder, List.mem_singleton, List.map_cons, List.map_nil] at hv
      subst hv
      rfl⟩)
    (by decide) (by decide)⟩


/-! ## Sequential check-and-deduct against total demand -/

theorem sufficient_of_deductAll {rows rows1 : List InventoryRow} {ds : List (Int × Int)}
    (hd : deductAll rows ds = .done rows1) : Sufficient rows ds := by
  induction ds generalizing rows with
  | nil => intro g hg; simp at hg
  | cons d ds ih =>
    obtain ⟨g0, req⟩ := d
    simp only [deductAll] at hd
    split at hd
    · simp at hd
    · rename_i r hfind
      split at hd
      · simp at hd
      · rename_i hlt
        have h0 := onHand_of_find hfind
        have ih1 := ih hd
        intro g hg
        simp only [List.map_cons, List.mem_cons] at hg
        rw [demandFor_cons]
        by_cases hgg : g = g0
        · subst hgg
          refine ⟨r.Quantity, h0, ?_⟩
          simp only [if_true]
          by_cases hmem : g ∈ ds.map Prod.fst
          · obtain ⟨a1, ha1, hle⟩ := ih1 g hmem
            rw [onHand_updateInventoryRows] at ha1
            have hge : r.Quantity ≥ req := by omega
            simp only [if_true, h0, Option.map_some', hge, Option.some.injEq] at ha1
            omega
          · have hz : demandFor ds g = 0 :=
              demandFor_eq_zero (fun d hd e => hmem (List.mem_map.mpr ⟨d, hd, e⟩))
            omega
        · have hmem : g ∈ ds.map Prod.fst := by
            rcases hg with h | h
            · exact absurd h hgg
            · exact h
          obtain ⟨a1, ha1, hle⟩ := ih1 g hmem
          rw [onHand_updateInventoryRows] at ha1
          simp only [hgg, if_false] at ha1
          have hgg2 : ¬ (g0 = g) := fun e => hgg e.symm
          exact ⟨a1, ha1, by simpa [hgg2] using hle⟩

theorem demandFor_nonneg {ds : List (Int × Int)} (h : ∀ d ∈ ds, 0 ≤ d.2) (g : Int) :
    0 ≤ demandFor ds g := by
  unfold demandFor
  apply List.sum_nonneg
  intro x hx
  obtain ⟨d, hd, hdx⟩ := List.mem_map.mp hx
  rw [← hdx]
  exact h d (List.mem_filter.mp hd).1

theorem deductAll_of_sufficient {rows : List InventoryRow} {ds : List (Int × Int)}
    (hnn : ∀ d ∈ ds, 0 ≤ d.2) (hs : Sufficient rows ds) :
    ∃ rows1, deductAll rows ds = .done rows1 := by
  induction ds generalizing rows with
  | nil => exact ⟨rows, rfl⟩
  | cons d ds ih =>
    obtain ⟨g0, req⟩ := d
    have hnn1 : ∀ d ∈ ds, 0 ≤ d.2 := fun d hd => hnn d (List.mem_cons_of_mem _ hd)
    obtain ⟨a, ha, hle⟩ := hs g0 (by simp)
    rw [demandFor_cons] at hle
    simp only [if_true] at hle
    have hd0 := demandFor_nonneg hnn1 g0
    obtain ⟨r, hfind, hqty⟩ := find_of_onHand ha
    have hlt : ¬ (r.Quantity < req) := by omega
    simp only [deductAll, hfind, hlt, if_false]
    apply ih hnn1
    intro g hg
    obtain ⟨a1, ha1, hle1⟩ := hs g (by
      simp only [List.map_cons, List.mem_cons]
      exact Or.inr hg)
    rw [demandFor_cons] at hle1
    rw [onHand_updateInventoryRows]
    by_cases hgg : g = g0
    · subst hgg
      rw [ha] at ha1
      simp only [Option.some.injEq] at ha1
      subst ha1
      have hge : a ≥ req := by omega
      simp only [if_true] at hle1
      exact ⟨a - req, by simp [ha, hge], by omega⟩
    · have hgg2 : ¬ (g0 = g) := fun e => hgg e.symm
      simp only [hgg2, if_false, zero_add] at hle1
      exact ⟨a1, by simp [hgg, ha1], hle1⟩

theorem Add_accepted_iff {w : World} {order : Order} (hf : NoFaults w.faults)
    (hno : NoOverflow w.db.menu_item_ingredients order.Items)
    (hnn : ∀ d ∈ orderDemands w.db.menu_item_ingredients order.Items, 0 ≤ d.2) :
    (Add w order).err = none ↔
      (∃ notesJSON, jsonMarshal order.Notes = .ok notesJSON) ∧
      (∀ v ∈ order.Items, (priceOf w.db.menu_items v.ProductID).isSome) ∧
      Sufficient w.db.inventory (orderDemands w.db.menu_item_ingredients order.Items) := by
  constructor
  · intro h
    obtain ⟨j, rows, hn, hd, hpr, _⟩ := Add_ok h
    rw [codeDemands_eq_orderDemands hno] at hd
    exact ⟨⟨j, hn⟩, hpr, sufficient_of_deductAll hd⟩
  · rintro ⟨⟨j, hn⟩, hpr, hs⟩
    obtain ⟨rows, hd⟩ := deductAll_of_sufficient hnn hs
    rw [← codeDemands_eq_orderDemands hno] at hd
    exact Add_accepts_of_noFaults hf hn hpr hd

/-! ## Two lines for one menu item against the merged line -/

/-- Scenario C of the spec is accepted: the two-line request commits. -/
theorem latte_two_lines_accepted :
    (Add (latteWorld 10 10) (twoLineOrder "Ann" (.encodable "") 1 2 1)).err = none ∧
      (Add (latteWorld 10 10) (twoLineOrder "Ann" (.encodable "") 1 2 1)).world.db.inventory
        = [{ IngredientID := 1, Name := "milk", Quantity := 7 },
           { IngredientID := 2, Name := "espresso", Quantity := 7 }] := by
  decide

/-! ## Consumption entries of rejected calls -/

theorem addBody_error_updates {w : World} {order : Order} {p : BatchOrderInfo} {r : Returned}
    (h : addBody w order p = .error r) :
    r.updates = [] ∨
      r.info.Reason = "Internal server error. Error commiting transaction." := by
  unfold addBody at h
  cases hm : jsonMarshal order.Notes with
  | error e =>
    rw [hm] at h
    simp only [Except.error.injEq] at h
    subst h
    exact Or.inl rfl
  | ok notesJSON =>
    rw [hm] at h
    simp only at h
    rcases hio : txInsertOrder w order.CustomerName notesJSON with ⟨res, w1⟩
    rw [hio] at h
    cases res with
    | error e =>
      simp only [Except.error.injEq] at h
      subst h
      exact Or.inl rfl
    | ok ID =>
      simp only at h
      cases hl : lineLoop ID order.Items w1 { p with OrderID := ID } [] with
      | error r1 =>
        rw [hl] at h
        simp only [Except.error.injEq] at h
        subst h
        obtain ⟨oe, -, -, -, -, h5, -⟩ := lineLoop_error hl
        exact Or.inl h5
      | ok res2 =>
        obtain ⟨w2, p2, inv⟩ := res2
        rw [hl] at h
        simp only at h
        rcases hc : txCommit w2 with ⟨res3, w3⟩
        rw [hc] at h
        cases res3 with
        | none => simp at h
        | some e =>
          simp only [Except.error.injEq] at h
          subst h
          exact Or.inr rfl

/-- Every error return of `Add` other than the one after a failed `Commit`
hands back an empty list of consumption entries. -/
theorem Add_error_updates_empty_unless_commit (w : World) (order : Order)
    (h : (Add w order).err ≠ none)
    (hreason : (Add w order).info.Reason ≠
      "Internal server error. Error commiting transaction.") :
    (Add w order).updates = [] := by
  rcases Add_cases w order with ⟨e, -, he⟩ | ⟨r, hr, he⟩ | ⟨res, hres, he⟩
  · rw [he]
  · rw [he] at hreason ⊢
    rcases addBody_error_updates hr with h1 | h1
    · exact h1
    · exact absurd h1 hreason
  · obtain ⟨_, _, _, _, _, _, _, _, herr, _⟩ := addBody_ok hres (after_tx _ _ _)
    rw [he] at h
    exact absurd herr h

/-- C11: in Scenario A of the spec with the final `Commit` failing, `Add`
returns a non-nil error and a rejected outcome, and the returned list of
consumption entries is not empty: it holds the two entries recorded before the
commit. -/
theorem Add_commit_failure_returns_entries :
    (Add (latteWorldWithFaults 10 10 commitFails) (latteOrder [3])).err
        = some "commit failed" ∧
      (Add (latteWorldWithFaults 10 10 commitFails) (latteOrder [3])).info.Status
        = StatusOrderRejected ∧
      (Add (latteWorldWithFaults 10 10 commitFails) (latteOrder [3])).updates
        = [{ IngredientID := 1, Name := "milk", Quantity_used := 3, Remaining := 7 },
           { IngredientID := 2, Name := "espresso", Quantity_used := 3, Remaining := 7 }] ∧
      (Add (latteWorldWithFaults 10 10 commitFails) (latteOrder [3])).world.db.inventory
        = (latteStore 10 10).inventory := by
  decide

/-! ## Missing menu item -/

/-- C13: if some request line names a menu item that `menu_items` does not
have, then, whatever the storage does, `Add` returns a non-nil error with a
rejected outcome and the committed store is the one from before the call: no
order header, no order line and no inventory change is committed. -/
theorem Add_missing_menu_item_rejected (w : World) (order : Order)
    (h : ∃ v ∈ order.Items, queryGetPrice w.db v.ProductID = none) :
    (Add w order).err ≠ none ∧
      (Add w order).info.Status = StatusOrderRejected ∧
      (Add w order).world.db = w.db := by
  have hne : (Add w order).err ≠ none := by
    intro hnone
    obtain ⟨_, _, _, _, hpr, _⟩ := Add_ok hnone
    obtain ⟨v, hv, hnoprice⟩ := h
    have hsome := hpr v hv
    have hnone2 : priceOf w.db.menu_items v.ProductID = none := hnoprice
    rw [hnone2] at hsome
    simp at hsome
  obtain ⟨hdb, -, hst, -⟩ := Add_error_frame hne
  exact ⟨hne, hst, hdb⟩

/-- Two Lattes pass their inventory checks, then the second line names the
unknown menu item 9. -/
theorem Add_missing_menu_item_rejected_witness :
    (∃ v ∈ latteThenUnknownOrder.Items,
        queryGetPrice (latteWorld 10 10).db v.ProductID = none) ∧
      ((Add (latteWorld 10 10) latteThenUnknownOrder).err ≠ none ∧
        (Add (latteWorld 10 10) latteThenUnknownOrder).info.Status = StatusOrderRejected ∧
        (Add (latteWorld 10 10) latteThenUnknownOrder).world.db = (latteWorld 10 10).db) :=
  ⟨⟨{ ProductID := 9, Quantity := 1 }, by decide, rfl⟩,
   Add_missing_menu_item_rejected _ _ ⟨{ ProductID := 9, Quantity := 1 }, by decide, rfl⟩⟩

/-! ## Consumption entries of accepted calls -/

theorem lineLoop_cons_ok {ID : Int} {v : OrderItem} {rest : List OrderItem} {w : World}
    {p : BatchOrderInfo} {inv : List BatchOrderInventoryUpdate}
    {res : World × BatchOrderInfo × List BatchOrderInventoryUpdate} {s : Store}
    (h : lineLoop ID (v :: rest) w p inv = .ok res) (hs : w.tx = some s) :
    ∃ price w5 w6 inv2,
      priceOf s.menu_items v.ProductID = some price ∧
      w5.tx = some (queryOrderItems s v.ProductID v.Quantity ID) ∧
      ingredientLoop v { p with Total := float64Add p.Total (float64Mul (float64OfInt v.Quantity) price) } none
          ((recipeOf s.menu_item_ingredients v.ProductID).map (fun row =>
            ({ IngredientID := row.IngredientID, RequiredQuantity := row.Quantity } : Ingredient)))
          w5 inv = .ok (w6, inv2) ∧
      lineLoop ID rest w6 { p with Total := float64Add p.Total (float64Mul (float64OfInt v.Quantity) price) } inv2
        = .ok res := by
  simp only [lineLoop] at h
  rcases hx : txExecOrderItems w v.ProductID v.Quantity ID with ⟨r1, w2⟩
  rw [hx] at h
  cases r1 with
  | error e => simp at h
  | ok u =>
    simp only at h
    obtain ⟨s0, hs0, hw2⟩ := txExecOrderItems_ok hx
    rw [hs] at hs0
    cases hs0
    rcases hp : txQueryPrice w2 v.ProductID with ⟨r2, w3⟩
    rw [hp] at h
    cases r2 with
    | error e => simp at h
    | ok price =>
      simp only at h
      obtain ⟨s1, hs1, hprice, hw3⟩ := txQueryPrice_ok hp
      rw [hw2] at hs1
      simp only [after_tx, Option.some.injEq] at hs1
      subst hs1
      rcases hi : txQueryIngredients w3 v.ProductID with ⟨r3, w4⟩
      rw [hi] at h
      cases r3 with
      | error e => simp at h
      | ok rows0 =>
        simp only at h
        obtain ⟨s2, hs2, hrows0, hw4⟩ := txQueryIngredients_ok hi
        rw [hw3] at hs2
        simp only [after_tx, Option.some.injEq] at hs2
        subst hs2
        cases hsc : scanIngredients
            { p with Total := float64Add p.Total (float64Mul (float64OfInt v.Quantity) price) } none rows0 w4 [] with
        | error r4 => rw [hsc] at h; simp at h
        | ok r4 =>
          obtain ⟨ings, w5⟩ := r4
          rw [hsc] at h
          simp only at h
          obtain ⟨hings, hw5⟩ := scanIngredients_ok hsc
          cases hil : ingredientLoop v
              { p with Total := float64Add p.Total (float64Mul (float64OfInt v.Quantity) price) } none ings w5 inv with
          | error r5 => rw [hil] at h; simp at h
          | ok r5 =>
            obtain ⟨w6, inv2⟩ := r5
            rw [hil] at h
            simp only at h
            have hw5tx : w5.tx = some (queryOrderItems s v.ProductID v.Quantity ID) := by
              rw [hw5, hw4]; rfl
            have hings2 : ings = (recipeOf s.menu_item_ingredients v.ProductID).map (fun row =>
                ({ IngredientID := row.IngredientID,
                   RequiredQuantity := row.Quantity } : Ingredient)) := by
              rw [hings, hrows0]
              simp [recipeOf, queryGetIngredients, queryOrderItems]
            rw [hings2] at hil
            exact ⟨price, w5, w6, inv2, hprice, hw5tx, hil, h⟩

theorem ingredientLoop_ok_updates {v : OrderItem} {p : BatchOrderInfo}
    {oe : Option String} {ings : List Ingredient} {w w1 : World}
    {inv inv1 : List BatchOrderInventoryUpdate} {s : Store}
    (h : ingredientLoop v p oe ings w inv = .ok (w1, inv1)) (hs : w.tx = some s) :
    inv1 = inv ++ recordedEntries s.inventory
      (ings.map (fun i => (i.IngredientID, wrapInt64 (i.RequiredQuantity * v.Quantity)))) := by
  induction ings generalizing w inv s with
  | nil =>
    simp only [ingredientLoop, Except.ok.injEq, Prod.mk.injEq] at h
    simp [recordedEntries, h.2]
  | cons ing rest ih =>
    simp only [ingredientLoop] at h
    rcases hq : txQueryInventory w ing.IngredientID with ⟨res, w2⟩
    rw [hq] at h
    cases res with
    | error e => simp at h
    | ok an =>
      obtain ⟨a, name⟩ := an
      simp only at h
      obtain ⟨s0, hs0, hqi, hw2⟩ := txQueryInventory_ok hq
      rw [hs] at hs0
      cases hs0
      obtain ⟨row, hfind, hqty, hname⟩ := queryInventory_some hqi
      split at h
      · simp at h
      · rcases hu : txExecUpdateInventory w2 (wrapInt64 (ing.RequiredQuantity * v.Quantity))
            ing.IngredientID with ⟨res2, w3⟩
        rw [hu] at h
        cases res2 with
        | error e => simp at h
        | ok u =>
          simp only at h
          obtain ⟨s1, hs1, hw3⟩ := txExecUpdateInventory_ok hu
          rw [hw2] at hs1
          simp only [after_tx, Option.some.injEq] at hs1
          subst hs1
          have htx3 : w3.tx = some (queryUpdateInventory s
              (wrapInt64 (ing.RequiredQuantity * v.Quantity)) ing.IngredientID) := by
            rw [hw3]; rfl
          rw [ih h htx3]
          simp only [List.map_cons, recordedEntries, hfind, hqty, hname, List.append_assoc,
            List.singleton_append]
          rfl

theorem recordedEntries_append {rows rows1 : List InventoryRow} {ds1 : List (Int × Int)}
    (ds2 : List (Int × Int)) (hd : deductAll rows ds1 = .done rows1) :
    recordedEntries rows (ds1 ++ ds2) =
      recordedEntries rows ds1 ++ recordedEntries rows1 ds2 := by
  induction ds1 generalizing rows with
  | nil =>
    simp only [deductAll, Deduction.done.injEq] at hd
    simp [recordedEntries, hd]
  | cons d ds ih =>
    obtain ⟨g, req⟩ := d
    simp only [deductAll] at hd
    split at hd
    · simp at hd
    · rename_i r hfind
      split at hd
      · simp at hd
      · have hrec := ih hd
        simp only [List.cons_append, recordedEntries, hfind]
        exact congrArg _ hrec

theorem lineLoop_ok_updates {ID : Int} {items : List OrderItem} {w w1 : World}
    {p p1 : BatchOrderInfo} {inv inv1 : List BatchOrderInventoryUpdate} {s : Store}
    (h : lineLoop ID items w p inv = .ok (w1, p1, inv1)) (hs : w.tx = some s) :
    inv1 = inv ++ recordedEntries s.inventory (codeDemands s.menu_item_ingredients items) := by
  induction items generalizing w p inv s with
  | nil =>
    simp only [lineLoop, Except.ok.injEq, Prod.mk.injEq] at h
    simp [codeDemands, recordedEntries, h.2.2]
  | cons v rest ih =>
    obtain ⟨price, w5, w6, inv2, -, hw5, hil, hrest⟩ := lineLoop_cons_ok h hs
    obtain ⟨n, rows1, hd1, hw6⟩ := ingredientLoop_ok hil hw5
    have hinv2 := ingredientLoop_ok_updates hil hw5
    have htx6 : w6.tx = some { queryOrderItems s v.ProductID v.Quantity ID with
        inventory := rows1 } := by rw [hw6]; rfl
    have hinv1 := ih hrest htx6
    rw [lineDemands_eq_map] at hd1 hinv2
    have hd1a : deductAll s.inventory (lineDemands s.menu_item_ingredients v) =
        .done rows1 := hd1
    rw [codeDemands_cons, recordedEntries_append _ hd1a, hinv1, hinv2, List.append_assoc]
    rfl

theorem addBody_ok_updates {w : World} {order : Order} {p : BatchOrderInfo}
    {res : AddResult} {s : Store} (h : addBody w order p = .ok res) (hs : w.tx = some s) :
    res.updates =
      recordedEntries s.inventory (codeDemands s.menu_item_ingredients order.Items) := by
  unfold addBody at h
  cases hm : jsonMarshal order.Notes with
  | error e => rw [hm] at h; simp at h
  | ok notesJSON =>
    rw [hm] at h
    simp only at h
    rcases hio : txInsertOrder w order.CustomerName notesJSON with ⟨r1, w1⟩
    rw [hio] at h
    cases r1 with
    | error e => simp at h
    | ok ID =>
      simp only at h
      obtain ⟨s0, hs0, hID, hw1⟩ := txInsertOrder_ok hio
      rw [hs] at hs0
      cases hs0
      cases hl : lineLoop ID order.Items w1 { p with OrderID := ID } [] with
      | error r1 => rw [hl] at h; simp at h
      | ok res2 =>
        obtain ⟨w2, p2, inv⟩ := res2
        rw [hl] at h
        simp only at h
        have htx1 : w1.tx =
            some (queryOrder s w.nextOrderID w.now order.CustomerName notesJSON) := by
          rw [hw1]; rfl
        have hinv := lineLoop_ok_updates hl htx1
        rcases hc : txCommit w2 with ⟨res3, w3⟩
        rw [hc] at h
        cases res3 with
        | some e => simp at h
        | none =>
          simp only [Except.ok.injEq] at h
          rw [← h, hinv]
          rfl

theorem Add_ok_updates {w : World} {order : Order} (h : (Add w order).err = none) :
    (Add w order).updates =
      recordedEntries w.db.inventory
        (codeDemands w.db.menu_item_ingredients order.Items) := by
  rcases Add_cases w order with ⟨e, -, he⟩ | ⟨r, hr, he⟩ | ⟨res, hres, he⟩
  · rw [he] at h; simp at h
  · rw [he] at h; simp [runDeferred] at h
  · rw [he]
    exact addBody_ok_updates hres (after_tx _ _ _)

theorem nameOf_cons (r : InventoryRow) (rs : List InventoryRow) (g : Int) :
    nameOf (r :: rs) g = if r.IngredientID = g then some r.Name else nameOf rs g := by
  unfold nameOf
  by_cases h : r.IngredientID = g <;> simp [List.find?_cons, h]

theorem nameOf_updateInventoryRows (amount g : Int) (rows : List InventoryRow) :
    nameOf (updateInventoryRows amount g rows) = nameOf rows := by
  funext g1
  induction rows with
  | nil => rfl
  | cons r rs ih =>
    have hcons : updateInventoryRows amount g (r :: rs) =
        (if r.IngredientID = g ∧ r.Quantity ≥ amount then
          { r with Quantity := r.Quantity - amount } else r) ::
          updateInventoryRows amount g rs := rfl
    rw [hcons, nameOf_cons, nameOf_cons, ih]
    by_cases h3 : r.IngredientID = g ∧ r.Quantity ≥ amount
    · simp [h3]
    · simp [h3]

theorem nameOf_of_find {rows : List InventoryRow} {g : Int} {r : InventoryRow}
    (h : rows.find? (fun r => decide (r.IngredientID = g)) = some r) :
    nameOf rows g = some r.Name := by
  unfold nameOf
  rw [h]; rfl

theorem onHand_update_eq {rows : List InventoryRow} {g req a : Int}
    (ho : onHand rows g = some a) (hge : ¬ (a < req)) :
    onHand (updateInventoryRows req g rows) =
      Function.update (onHand rows) g (some (a - req)) := by
  funext g1
  rw [onHand_updateInventoryRows]
  by_cases hg : g1 = g
  · subst hg
    have hge2 : a ≥ req := by omega
    simp [ho, hge2]
  · simp [hg, Function.update_noteq hg]

theorem recordedEntries_eq_expected {rows rows1 : List InventoryRow}
    {ds : List (Int × Int)} (hd : deductAll rows ds = .done rows1)
    (hfit : ∀ e ∈ expectedEntries (nameOf rows) (onHand rows) ds, fitsInt64 e.Remaining) :
    recordedEntries rows ds = expectedEntries (nameOf rows) (onHand rows) ds := by
  induction ds generalizing rows with
  | nil => rfl
  | cons d ds ih =>
    obtain ⟨g, req⟩ := d
    simp only [deductAll] at hd
    split at hd
    · simp at hd
    · rename_i r hfind
      split at hd
      · simp at hd
      · rename_i hlt
        have h0 := onHand_of_find hfind
        have hname := nameOf_of_find hfind
        have hupd := onHand_update_eq h0 hlt
        simp only [expectedEntries, h0, hname, Option.getD_some, List.mem_cons,
          forall_eq_or_imp] at hfit
        simp only [recordedEntries, expectedEntries, hfind, h0, hname, Option.getD_some,
          wrapInt64_of_fits hfit.1]
        congr 1
        rw [← hupd, ← nameOf_updateInventoryRows req g rows]
        apply ih hd
        rw [hupd, nameOf_updateInventoryRows]
        exact hfit.2

theorem expectedEntries_map (name : Int → Option String) (h : Int → Option Int)
    (ds : List (Int × Int)) :
    (expectedEntries name h ds).map (fun e => (e.IngredientID, e.Quantity_used)) = ds := by
  induction ds generalizing h with
  | nil => rfl
  | cons d ds ih =>
    obtain ⟨g, req⟩ := d
    simp only [expectedEntries, List.map_cons, ih]

theorem mem_expectedEntries {name : Int → Option String} {h : Int → Option Int}
    {ds : List (Int × Int)} {e : BatchOrderInventoryUpdate}
    (he : e ∈ expectedEntries name h ds) :
    e.IngredientID ∈ ds.map Prod.fst ∧ e.Name = (name e.IngredientID).getD "" := by
  induction ds generalizing h with
  | nil => simp [expectedEntries] at he
  | cons d ds ih =>
    obtain ⟨g, req⟩ := d
    simp only [expectedEntries, List.mem_cons] at he
    rcases he with rfl | he
    · simp
    · obtain ⟨h1, h2⟩ := ih he
      exact ⟨by simp only [List.map_cons, List.mem_cons]; exact Or.inr h1, h2⟩

theorem expectedEntries_last (name : Int → Option String) (h : Int → Option Int)
    (ds : List (Int × Int)) (g : Int) (e : BatchOrderInventoryUpdate)
    (hl : (expectedEntries name h ds).reverse.find?
      (fun e => decide (e.IngredientID = g)) = some e) :
    e.Remaining = (h g).getD 0 - demandFor ds g := by
  induction ds generalizing h with
  | nil => simp [expectedEntries] at hl
  | cons d ds ih =>
    obtain ⟨g0, req⟩ := d
    simp only [expectedEntries, List.reverse_cons, List.find?_append] at hl
    rw [demandFor_cons]
    cases hrest : (expectedEntries name (Function.update h g0 (some ((h g0).getD 0 - req)))
        ds).reverse.find? (fun e => decide (e.IngredientID = g)) with
    | some e1 =>
      rw [hrest] at hl
      simp only [Option.or_some, Option.some.injEq] at hl
      subst hl
      rw [ih _ hrest]
      by_cases hg : g0 = g
      · subst hg
        simp
        ring
      · have hg2 : g ≠ g0 := fun e => hg e.symm
        simp [hg, Function.update_noteq hg2]
    | none =>
      rw [hrest] at hl
      simp only [Option.none_or, List.find?_cons, List.find?_nil] at hl
      split at hl
      · rename_i hdec
        simp only [Option.some.injEq] at hl
        have hg : g0 = g := by simpa using hdec
        subst hl
        have hz : demandFor ds g = 0 := by
          apply demandFor_eq_zero
          intro d hd hdg
          have hids := expectedEntries_map name
            (Function.update h g0 (some ((h g0).getD 0 - req))) ds
          have hmem : d ∈ (expectedEntries name
              (Function.update h g0 (some ((h g0).getD 0 - req))) ds).map
              (fun e => (e.IngredientID, e.Quantity_used)) := by rw [hids]; exact hd
          obtain ⟨x, hx, hxd⟩ := List.mem_map.mp hmem
          have hnone := List.find?_eq_none.mp hrest x (List.mem_reverse.mpr hx)
          apply hnone
          have : x.IngredientID = d.1 := by rw [← hxd]
          simp [this, hdg]
        simp [hg, hz]
      · simp at hl

/-- C12: whenever `Add` returns a nil error (the products and the remaining
balances being representable as Go ints), the returned list is the list of
consumption entries of the request's demands: one entry per request line and
recipe entry of that line's menu item, in line order then recipe order, with
the ingredient's ID, the name of its inventory row, amount used
`recipeQty x lineQuantity`, and as `Remaining` the on-hand quantity right after
that deduction; the last entry for an ingredient shows its committed
quantity. -/
theorem Add_consumption_entries (w : World) (order : Order)
    (h : (Add w order).err = none)
    (hno : NoOverflow w.db.menu_item_ingredients order.Items)
    (hfit : ∀ e ∈ expectedEntries (nameOf w.db.inventory) (onHand w.db.inventory)
      (orderDemands w.db.menu_item_ingredients order.Items), fitsInt64 e.Remaining) :
    (Add w order).updates =
        expectedEntries (nameOf w.db.inventory) (onHand w.db.inventory)
          (orderDemands w.db.menu_item_ingredients order.Items) ∧
      (Add w order).updates.map (fun e => (e.IngredientID, e.Quantity_used)) =
        orderDemands w.db.menu_item_ingredients order.Items ∧
      (∀ e ∈ (Add w order).updates, nameOf w.db.inventory e.IngredientID = some e.Name) ∧
      (∀ g e, (Add w order).updates.reverse.find?
          (fun e => decide (e.IngredientID = g)) = some e →
        onHand (Add w order).world.db.inventory g = some e.Remaining) := by
  obtain ⟨_, rows, _, hd, _, hdb, _, _, _⟩ := Add_ok h
  have hupd := Add_ok_updates h
  rw [codeDemands_eq_orderDemands hno] at hd hupd
  have heq := recordedEntries_eq_expected hd hfit
  rw [heq] at hupd
  have hsuff := sufficient_of_deductAll hd
  have hinv : (Add w order).world.db.inventory = rows := by rw [hdb]
  rw [hupd, hinv]
  refine ⟨rfl, expectedEntries_map _ _ _, fun e he => ?_, fun g e hl => ?_⟩
  · obtain ⟨hid, hname⟩ := mem_expectedEntries he
    obtain ⟨a, ha, -⟩ := hsuff _ hid
    obtain ⟨r, hfind, -⟩ := find_of_onHand ha
    rw [hname, nameOf_of_find hfind]
    rfl
  · have hrem := expectedEntries_last _ _ _ g e hl
    have hmem : e ∈ expectedEntries (nameOf w.db.inventory) (onHand w.db.inventory)
        (orderDemands w.db.menu_item_ingredients order.Items) := by
      have := List.mem_of_find?_eq_some hl
      exact List.mem_reverse.mp this
    have hge : e.IngredientID = g := by
      have := List.find?_some hl
      simpa using this
    obtain ⟨hid, -⟩ := mem_expectedEntries hmem
    rw [hge] at hid
    obtain ⟨a, ha, -⟩ := hsuff _ hid
    rw [deductAll_onHand hd g, ha, hrem, ha]
    rfl

/-- Scenario A of the spec: three Lattes against milk = 10, espresso = 10. -/
theorem Add_consumption_entries_witness :
    ((Add (latteWorld 10 10) (latteOrder [3])).err = none ∧
      NoOverflow (latteWorld 10 10).db.menu_item_ingredients (latteOrder [3]).Items ∧
      (∀ e ∈ expectedEntries (nameOf (latteWorld 10 10).db.inventory)
          (onHand (latteWorld 10 10).db.inventory)
          (orderDemands (latteWorld 10 10).db.menu_item_ingredients (latteOrder [3]).Items),
        fitsInt64 e.Remaining)) ∧
    ((Add (latteWorld 10 10) (latteOrder [3])).updates =
        expectedEntries (nameOf (latteWorld 10 10).db.inventory)
          (onHand (latteWorld 10 10).db.inventory)
          (orderDemands (latteWorld 10 10).db.menu_item_ingredients (latteOrder [3]).Items) ∧
      (Add (latteWorld 10 10) (latteOrder [3])).updates.map
          (fun e => (e.IngredientID, e.Quantity_used)) =
        orderDemands (latteWorld 10 10).db.menu_item_ingredients (latteOrder [3]).Items ∧
      (∀ e ∈ (Add (latteWorld 10 10) (latteOrder [3])).updates,
        nameOf (latteWorld 10 10).db.inventory e.IngredientID = some e.Name) ∧
      (∀ g e, (Add (latteWorld 10 10) (latteOrder [3])).updates.reverse.find?
          (fun e => decide (e.IngredientID = g)) = some e →
        onHand (Add (latteWorld 10 10) (latteOrder [3])).world.db.inventory g
          = some e.Remaining)) :=
  ⟨⟨by decide, by decide, by decide⟩,
   Add_consumption_entries _ _ (by decide) (by decide) (by decide)⟩

/-- The entries of Scenario A: milk used 3, remaining 7; espresso used 3,
remaining 7. -/
theorem latte_entries :
    (Add (latteWorld 10 10) (latteOrder [3])).updates
      = [{ IngredientID := 1, Name := "milk", Quantity_used := 3, Remaining := 7 },
         { IngredientID := 2, Name := "espresso", Quantity_used := 3, Remaining := 7 }] := by
  decide

/-! ## Statements outside a transaction -/

theorem dbStep_of_noFaults {α : Type} {w : World}
    (f : Store → Except GoError (α × Store)) (hf : NoFaults w.faults) :
    dbStep w f =
      match f w.db with
      | .error e => (.error e, w.after 1 w.tx)
      | .ok (a, s1) => (.ok a, { w.after 1 w.tx with db := s1 }) := by
  unfold dbStep
  have hn := nextFault_snd w
  have h1 := nextFault_fst_of_noFaults hf
  rcases hnf : w.nextFault with ⟨fo, w0⟩
  rw [hnf] at hn h1
  simp only at hn h1
  subst hn h1
  simp only
  cases f w.db with
  | error e => simp [World.after]
  | ok p => simp [World.after]

theorem dbStep_error {α : Type} {w w1 : World} {f : Store → Except GoError (α × Store)}
    {e : GoError} (h : dbStep w f = (.error e, w1)) : w1 = w.after 1 w.tx := by
  unfold dbStep at h
  have hn := nextFault_snd w
  rcases hnf : w.nextFault with ⟨fo, w0⟩
  rw [hnf] at h hn
  simp only at hn
  subst hn
  cases fo with
  | some e1 =>
    simp only [Prod.mk.injEq] at h
    rw [← h.2]; simp [World.after]
  | none =>
    simp only at h
    cases hfs : f w.db with
    | error e1 =>
      simp only [hfs, Prod.mk.injEq] at h
      rw [← h.2]; simp [World.after]
    | ok p => obtain ⟨a1, s1⟩ := p; simp [hfs] at h

theorem dbStep_ok {α : Type} {w w1 : World} {f : Store → Except GoError (α × Store)}
    {a : α} (h : dbStep w f = (.ok a, w1)) :
    ∃ s1, f w.db = .ok (a, s1) ∧ w1 = { w.after 1 w.tx with db := s1 } := by
  unfold dbStep at h
  have hn := nextFault_snd w
  rcases hnf : w.nextFault with ⟨fo, w0⟩
  rw [hnf] at h hn
  simp only at hn
  subst hn
  cases fo with
  | some e1 => simp at h
  | none =>
    simp only at h
    cases hfs : f w.db with
    | error e1 => simp [hfs] at h
    | ok p =>
      obtain ⟨a1, s1⟩ := p
      simp only [hfs, Prod.mk.injEq, Except.ok.injEq] at h
      exact ⟨s1, by rw [h.1], by rw [← h.2]; simp [World.after]⟩

/-! ## Closing an order -/

theorem CloseOrderRepo_of_closed {w : World} {id : Int}
    (hst : queryCheckStatus w.db id = some "closed") (hf : NoFaults w.faults) :
    CloseOrderRepo w id = (some .ErrOrderClosed, w.after 1 w.tx) := by
  unfold CloseOrderRepo
  rw [dbStep_of_noFaults _ hf]
  simp only [hst, if_true]
  rfl

theorem closeRepeatedly_of_closed {w : World} {id : Int}
    (hst : queryCheckStatus w.db id = some "closed") (hf : NoFaults w.faults) (n : Nat) :
    closeRepeatedly id n w = w.after n w.tx := by
  induction n with
  | zero => exact (after_zero w).symm
  | succ n ih =>
    simp only [closeRepeatedly, ih]
    rw [CloseOrderRepo_of_closed (by exact hst) (noFaults_after hf n _)]
    simp

/-- C14: with no storage failure, for every store state in which order `id`
has status closed and every number `n` of calls already made,
`CloseOrderRepo(id)` returns `ErrOrderClosed` and the store is the one from
before the first call. -/
theorem CloseOrderRepo_already_closed (w : World) (id : Int) (n : Nat)
    (hst : queryCheckStatus w.db id = some "closed") (hf : NoFaults w.faults) :
    (CloseOrderRepo (closeRepeatedly id n w) id).1 = some .ErrOrderClosed ∧
      (CloseOrderRepo (closeRepeatedly id n w) id).2.db = w.db := by
  rw [closeRepeatedly_of_closed hst hf n,
    CloseOrderRepo_of_closed (by exact hst) (noFaults_after hf n _)]
  exact ⟨rfl, rfl⟩

/-- Closing the closed order 1 for the fourth time. -/
theorem CloseOrderRepo_already_closed_witness :
    (queryCheckStatus (oneOrderWorld "closed").db 1 = some "closed" ∧
      NoFaults (oneOrderWorld "closed").faults) ∧
    ((CloseOrderRepo (closeRepeatedly 1 3 (oneOrderWorld "closed")) 1).1
        = some .ErrOrderClosed ∧
      (CloseOrderRepo (closeRepeatedly 1 3 (oneOrderWorld "closed")) 1).2.db
        = (oneOrderWorld "closed").db) :=
  ⟨⟨by decide, by decide⟩, CloseOrderRepo_already_closed _ 1 3 (by decide) (by decide)⟩

/-- Whatever the storage does, closing a closed order leaves the store as it
was. -/
theorem CloseOrderRepo_closed_keeps_store {w : World} {id : Int}
    (hst : queryCheckStatus w.db id = some "closed") :
    (CloseOrderRepo w id).2.db = w.db := by
  unfold CloseOrderRepo
  rcases hq : dbStep w (fun s =>
      match queryCheckStatus s id with
      | none => Except.error GoError.ErrNoRows
      | some status => Except.ok (status, s)) with ⟨res, w1⟩
  cases res with
  | error e =>
    have hw1 := dbStep_error hq
    simp only
    split <;> (rw [hw1]; rfl)
  | ok status =>
    obtain ⟨s1, hfs, hw1⟩ := dbStep_ok hq
    simp only [hst, Except.ok.injEq, Prod.mk.injEq] at hfs
    obtain ⟨h1, h2⟩ := hfs
    subst h1 h2
    simp only [if_true]
    rw [hw1]

theorem queryCheckStatus_queryToClose {s : Store} {id : Int} {status : String}
    (hst : queryCheckStatus s id = some status) :
    queryCheckStatus (queryToClose s id) id = some "closed" := by
  unfold queryCheckStatus queryToClose at *
  simp only [List.find?_map]
  cases hf : s.orders.find? (fun r => decide (r.ID = id)) with
  | none => simp [hf] at hst
  | some r =>
    have hid : r.ID = id := by
      have := List.find?_some hf
      simpa using this
    have hcomp : ((fun r : OrderRow => decide (r.ID = id)) ∘
        fun r => if r.ID = id then { r with Status := "closed" } else r) =
        fun r => decide (r.ID = id) := by
      funext x
      simp only [Function.comp]
      split <;> rfl
    rw [hcomp, hf]
    simp [hid]

theorem CloseOrderRepo_of_open {w : World} {id : Int} {status : String}
    (hst : queryCheckStatus w.db id = some status) (hopen : status ≠ "closed")
    (hf : NoFaults w.faults) :
    CloseOrderRepo w id =
      (none, { w.after 2 w.tx with db := queryToClose w.db id }) := by
  unfold CloseOrderRepo
  rw [dbStep_of_noFaults _ hf]
  simp only [hst, hopen, if_false]
  have hw : ({ w.after 1 w.tx with db := w.db } : World) = w.after 1 w.tx := rfl
  rw [hw, dbStep_of_noFaults _ (noFaults_after hf 1 _)]
  simp [World.after, List.drop_drop]

/-- C15: with no storage failure, for every existing order whose status is not
closed, `CloseOrderRepo(id)` returns nil; afterwards the rows of `orders` with
that ID have status closed and are otherwise as before, every other row of
`orders` and every other table is unchanged; a second `CloseOrderRepo(id)`
returns `ErrOrderClosed` and leaves that store as it is. -/
theorem CloseOrderRepo_closes (w : World) (id : Int) (status : String)
    (hst : queryCheckStatus w.db id = some status) (hopen : status ≠ "closed")
    (hf : NoFaults w.faults) :
    (CloseOrderRepo w id).1 = none ∧
      (CloseOrderRepo w id).2.db =
        { w.db with orders := w.db.orders.map (fun r =>
            if r.ID = id then { r with Status := "closed" } else r) } ∧
      queryCheckStatus (CloseOrderRepo w id).2.db id = some "closed" ∧
      (CloseOrderRepo (CloseOrderRepo w id).2 id).1 = some .ErrOrderClosed ∧
      (CloseOrderRepo (CloseOrderRepo w id).2 id).2.db = (CloseOrderRepo w id).2.db := by
  have hclosed := queryCheckStatus_queryToClose hst
  rw [CloseOrderRepo_of_open hst hopen hf]
  have hf2 : NoFaults ({ w.after 2 w.tx with db := queryToClose w.db id } : World).faults :=
    noFaults_drop hf 2
  refine ⟨rfl, rfl, hclosed, ?_, ?_⟩
  · rw [CloseOrderRepo_of_closed (by exact hclosed) hf2]
  · rw [CloseOrderRepo_of_closed (by exact hclosed) hf2]
    rfl

/-- Scenario D of the spec: order 1 with status new is closed, then closed
again. -/
theorem CloseOrderRepo_closes_witness :
    (queryCheckStatus (oneOrderWorld "new").db 1 = some "new" ∧ "new" ≠ "closed" ∧
      NoFaults (oneOrderWorld "new").faults) ∧
    ((CloseOrderRepo (oneOrderWorld "new") 1).1 = none ∧
      (CloseOrderRepo (oneOrderWorld "new") 1).2.db =
        { (oneOrderWorld "new").db with orders := (oneOrderWorld "new").db.orders.map (fun r =>
            if r.ID = 1 then { r with Status := "closed" } else r) } ∧
      queryCheckStatus (CloseOrderRepo (oneOrderWorld "new") 1).2.db 1 = some "closed" ∧
      (CloseOrderRepo (CloseOrderRepo (oneOrderWorld "new") 1).2 1).1
        = some .ErrOrderClosed ∧
      (CloseOrderRepo (CloseOrderRepo (oneOrderWorld "new") 1).2 1).2.db
        = (CloseOrderRepo (oneOrderWorld "new") 1).2.db) :=
  ⟨⟨by decide, by decide, by decide⟩,
   CloseOrderRepo_closes _ 1 "new" (by decide) (by decide) (by decide)⟩

/-! ## Updating an order -/

theorem SaveUpdatedOrder_of_closed {cast : String → Option Int} {w : World}
    (updatedOrder : Order) {OrderID : String} {id : Int}
    (hcast : cast OrderID = some id) (hst : queryCheckStatus w.db id = some "closed")
    (hf : NoFaults w.faults) :
    SaveUpdatedOrder cast w updatedOrder OrderID =
      (some .ErrOrderClosed, w.after 1 w.tx) := by
  unfold SaveUpdatedOrder
  rw [dbStep_of_noFaults _ hf]
  simp only [hcast, hst, if_true]
  rfl

/-- C16: with no storage failure, for every store state in which the order
the ID names has status closed and every replacement order,
`SaveUpdatedOrder` returns `ErrOrderClosed` and the store is unchanged: neither
the customer name nor any order line is touched. -/
theorem SaveUpdatedOrder_closed (cast : String → Option Int) (w : World)
    (updatedOrder : Order) (OrderID : String) (id : Int)
    (hcast : cast OrderID = some id) (hst : queryCheckStatus w.db id = some "closed")
    (hf : NoFaults w.faults) :
    (SaveUpdatedOrder cast w updatedOrder OrderID).1 = some .ErrOrderClosed ∧
      (SaveUpdatedOrder cast w updatedOrder OrderID).2.db = w.db := by
  rw [SaveUpdatedOrder_of_closed updatedOrder hcast hst hf]
  exact ⟨rfl, rfl⟩

/-- A two-line replacement for the closed order 1. -/
theorem SaveUpdatedOrder_closed_witness :
    (castDigit "1" = some 1 ∧
      queryCheckStatus (oneOrderWorld "closed").db 1 = some "closed" ∧
      NoFaults (oneOrderWorld "closed").faults) ∧
    ((SaveUpdatedOrder castDigit (oneOrderWorld "closed") twoItemUpdate "1").1
        = some .ErrOrderClosed ∧
      (SaveUpdatedOrder castDigit (oneOrderWorld "closed") twoItemUpdate "1").2.db
        = (oneOrderWorld "closed").db) :=
  ⟨⟨by decide, by decide, by decide⟩,
   SaveUpdatedOrder_closed castDigit _ twoItemUpdate "1" 1 (by decide) (by decide)
    (by decide)⟩

/-- C17: order 1 has status new and one stored line (menu item 1, quantity 2);
`SaveUpdatedOrder` with the two new lines (menu item 1, quantity 1) and
(menu item 2, quantity 2) returns nil, and the order's stored lines are then
the single line (menu item 2, quantity 2), not the two new lines: each
`update order_items ... where OrderID = $3` overwrites every row of the order
and none is inserted or deleted. -/
theorem SaveUpdatedOrder_overwrites_lines :
    (SaveUpdatedOrder castDigit (oneOrderWorld "new") twoItemUpdate "1").1 = none ∧
      (SaveUpdatedOrder castDigit (oneOrderWorld "new") twoItemUpdate "1").2.db.order_items
        = [{ OrderID := 1, ProductID := 2, Quantity := 2 }] := by
  decide

/-- The update statement keeps the number of rows of `order_items`. -/
theorem updateOrderItemRows_length (pid q id : Int) (rows : List OrderItemRow) :
    (updateOrderItemRows pid q id rows).length = rows.length := by
  simp [updateOrderItemRows]

/-! ## Deleting an order -/

theorem DeleteOrder_spec (w : World) (id : Int) :
    ((DeleteOrder w id).1 ≠ none ∧ (DeleteOrder w id).2.db = w.db) ∨
    ((DeleteOrder w id).1 = none ∧ queryCheckOrder w.db id = true ∧
      (DeleteOrder w id).2.db =
        queryDeleteOrder (queryDeleteOrderItems (queryDeleteOrderStatusHistory w.db id) id) id ∧
      (DeleteOrder w id).2.tx = none) := by
  unfold DeleteOrder
  rcases hb : dbBegin w with ⟨fo, w1⟩
  cases fo with
  | some e =>
    left
    simp only [ne_eq, reduceCtorEq, not_false_eq_true, true_and]
    rw [dbBegin_some hb]; rfl
  | none =>
    have hw1 := dbBegin_none hb
    simp only
    rcases hc : txStep w1 (fun s => Except.ok (queryCheckOrder s id, s)) with ⟨r2, w2⟩
    cases r2 with
    | error e =>
      left
      simp only [ne_eq, reduceCtorEq, not_false_eq_true, true_and]
      rw [txStep_error hc, hw1]; rfl
    | ok ex =>
      obtain ⟨s, s1, hs, hfs, hw2⟩ := txStep_ok hc
      rw [hw1] at hs
      simp only [after_tx, Option.some.injEq] at hs
      subst hs
      simp only [Except.ok.injEq, Prod.mk.injEq] at hfs
      obtain ⟨hex, hs1⟩ := hfs
      subst hs1
      simp only
      cases hexv : ex with
      | false =>
        left
        simp only [Bool.not_false, if_true, ne_eq, reduceCtorEq, not_false_eq_true, true_and]
        rw [hw2, hw1]; rfl
      | true =>
        simp only [Bool.not_true, Bool.false_eq_true, if_false]
        rcases h3 : txStep w2 (fun s =>
            Except.ok ((), queryDeleteOrderStatusHistory s id)) with ⟨r3, w3⟩
        cases r3 with
        | error e =>
          left
          simp only [ne_eq, reduceCtorEq, not_false_eq_true, true_and]
          rw [txStep_error h3, hw2, hw1]; rfl
        | ok u3 =>
          obtain ⟨t2, t3, ht2, hf3, hw3⟩ := txStep_ok h3
          rw [hw2] at ht2
          simp only [after_tx, Option.some.injEq] at ht2
          subst ht2
          simp only [Except.ok.injEq, Prod.mk.injEq, true_and] at hf3
          subst hf3
          simp only
          rcases h4 : txStep w3 (fun s =>
              Except.ok ((), queryDeleteOrderItems s id)) with ⟨r4, w4⟩
          cases r4 with
          | error e =>
            left
            simp only [ne_eq, reduceCtorEq, not_false_eq_true, true_and]
            rw [txStep_error h4, hw3, hw2, hw1]; rfl
          | ok u4 =>
            obtain ⟨t3, t4, ht3, hf4, hw4⟩ := txStep_ok h4
            rw [hw3] at ht3
            simp only [after_tx, Option.some.injEq] at ht3
            subst ht3
            simp only [Except.ok.injEq, Prod.mk.injEq, true_and] at hf4
            subst hf4
            simp only
            rcases h5 : txStep w4 (fun s =>
                Except.ok ((), queryDeleteOrder s id)) with ⟨r5, w5⟩
            cases r5 with
            | error e =>
              left
              simp only [ne_eq, reduceCtorEq, not_false_eq_true, true_and]
              rw [txStep_error h5, hw4, hw3, hw2, hw1]; rfl
            | ok u5 =>
              obtain ⟨t4, t5, ht4, hf5, hw5⟩ := txStep_ok h5
              rw [hw4] at ht4
              simp only [after_tx, Option.some.injEq] at ht4
              subst ht4
              simp only [Except.ok.injEq, Prod.mk.injEq, true_and] at hf5
              subst hf5
              simp only
              rcases h6 : txCommit w5 with ⟨r6, w6⟩
              cases r6 with
              | some e =>
                left
                simp only [ne_eq, reduceCtorEq, not_false_eq_true, true_and]
                rw [txCommit_some h6, hw5, hw4, hw3, hw2, hw1]; rfl
              | none =>
                right
                obtain ⟨t6, ht6, hw6⟩ := txCommit_none h6
                rw [hw5] at ht6
                simp only [after_tx, Option.some.injEq] at ht6
                subst ht6
                refine ⟨rfl, ?_, ?_, ?_⟩
                · rw [hex, hexv]
                · simp only; rw [hw6]
                · simp only; rw [hw6]; rfl

theorem mem_filter_ne {α : Type} (key : α → Int) {id : Int} {rows : List α} {r : α}
    (h : r ∈ rows.filter (fun r => !decide (key r = id))) : key r ≠ id := by
  have := (List.mem_filter.mp h).2
  simpa using this

/-- C18: after `DeleteOrder(id)` returns nil, the committed store is the one
from before the call with every row of `orders`, `order_items` and
`order_status_history` that carries the ID removed and every other row and
table unchanged: no order header, order line or status-history row with that
ID is left. -/
theorem DeleteOrder_cascades (w : World) (id : Int) (h : (DeleteOrder w id).1 = none) :
    (DeleteOrder w id).2.db =
        { w.db with
          orders := w.db.orders.filter (fun r => !decide (r.ID = id)),
          order_items := w.db.order_items.filter (fun r => !decide (r.OrderID = id)),
          order_status_history :=
            w.db.order_status_history.filter (fun r => !decide (r.OrderID = id)) } ∧
      (∀ r ∈ (DeleteOrder w id).2.db.orders, r.ID ≠ id) ∧
      (∀ r ∈ (DeleteOrder w id).2.db.order_items, r.OrderID ≠ id) ∧
      (∀ r ∈ (DeleteOrder w id).2.db.order_status_history, r.OrderID ≠ id) ∧
      (DeleteOrder w id).2.db.inventory = w.db.inventory := by
  rcases DeleteOrder_spec w id with ⟨hne, -⟩ | ⟨-, -, hdb, -⟩
  · exact absurd h hne
  · rw [hdb]
    refine ⟨rfl, fun r hr => ?_, fun r hr => ?_, fun r hr => ?_, rfl⟩
    · exact mem_filter_ne (fun r : OrderRow => r.ID) hr
    · exact mem_filter_ne (fun r : OrderItemRow => r.OrderID) hr
    · exact mem_filter_ne (fun r : OrderStatusHistoryRow => r.OrderID) hr

/-- Deleting order 1 of `oneOrderStore`: its header, line and history row go. -/
theorem DeleteOrder_cascades_witness :
    (DeleteOrder (oneOrderWorld "new") 1).1 = none ∧
    ((DeleteOrder (oneOrderWorld "new") 1).2.db =
        { (oneOrderWorld "new").db with
          orders := (oneOrderWorld "new").db.orders.filter (fun r => !decide (r.ID = 1)),
          order_items :=
            (oneOrderWorld "new").db.order_items.filter (fun r => !decide (r.OrderID = 1)),
          order_status_history :=
            (oneOrderWorld "new").db.order_status_history.filter
              (fun r => !decide (r.OrderID = 1)) } ∧
      (∀ r ∈ (DeleteOrder (oneOrderWorld "new") 1).2.db.orders, r.ID ≠ 1) ∧
      (∀ r ∈ (DeleteOrder (oneOrderWorld "new") 1).2.db.order_items, r.OrderID ≠ 1) ∧
      (∀ r ∈ (DeleteOrder (oneOrderWorld "new") 1).2.db.order_status_history,
        r.OrderID ≠ 1) ∧
      (DeleteOrder (oneOrderWorld "new") 1).2.db.inventory
        = (oneOrderWorld "new").db.inventory) :=
  ⟨by decide, DeleteOrder_cascades _ 1 (by decide)⟩

/-! ## An order ID that is not in `orders` -/

theorem queryCheckStatus_of_missing {s : Store} {id : Int}
    (h : ∀ r ∈ s.orders, r.ID ≠ id) : queryCheckStatus s id = none := by
  unfold queryCheckStatus
  have : s.orders.find? (fun r => decide (r.ID = id)) = none := by
    rw [List.find?_eq_none]
    intro r hr hrid
    exact h r hr (by simpa using hrid)
  rw [this]; rfl

theorem queryCheckOrder_of_missing {s : Store} {id : Int}
    (h : ∀ r ∈ s.orders, r.ID ≠ id) : queryCheckOrder s id = false := by
  unfold queryCheckOrder
  rw [List.any_eq_false]
  intro r hr hrid
  exact h r hr (by simpa using hrid)

/-- C19: with no storage failure, for every order ID that is not in the `orders`
table (for `SaveUpdatedOrder`, the ID its string parameter denotes),
`CloseOrderRepo` and `SaveUpdatedOrder` return `ErrOrderNotFound`, `DeleteOrder`
returns a non-nil error, and each of the three leaves the store unchanged. -/
theorem missing_order_not_found (cast : String → Option Int) (w : World)
    (updatedOrder : Order) (OrderID : String) (id : Int)
    (hmissing : ∀ r ∈ w.db.orders, r.ID ≠ id) (hcast : cast OrderID = some id)
    (hf : NoFaults w.faults) :
    ((CloseOrderRepo w id).1 = some .ErrOrderNotFound ∧ (CloseOrderRepo w id).2.db = w.db) ∧
    ((SaveUpdatedOrder cast w updatedOrder OrderID).1 = some .ErrOrderNotFound ∧
      (SaveUpdatedOrder cast w updatedOrder OrderID).2.db = w.db) ∧
    ((DeleteOrder w id).1 ≠ none ∧ (DeleteOrder w id).2.db = w.db) := by
  have hst := queryCheckStatus_of_missing hmissing
  refine ⟨?_, ?_, ?_⟩
  · unfold CloseOrderRepo
    rw [dbStep_of_noFaults _ hf]
    simp only [hst, if_true]
    exact ⟨trivial, rfl⟩
  · unfold SaveUpdatedOrder
    rw [dbStep_of_noFaults _ hf]
    simp only [hcast, hst, if_true]
    exact ⟨trivial, rfl⟩
  · rcases DeleteOrder_spec w id with hbad | ⟨-, hex, -, -⟩
    · exact hbad
    · rw [queryCheckOrder_of_missing hmissing] at hex
      simp at hex

/-- Order 7 does not exist in `oneOrderStore`. -/
theorem missing_order_not_found_witness :
    ((∀ r ∈ (oneOrderWorld "new").db.orders, r.ID ≠ 7) ∧ castDigit "7" = some 7 ∧
      NoFaults (oneOrderWorld "new").faults) ∧
    (((CloseOrderRepo (oneOrderWorld "new") 7).1 = some .ErrOrderNotFound ∧
        (CloseOrderRepo (oneOrderWorld "new") 7).2.db = (oneOrderWorld "new").db) ∧
      ((SaveUpdatedOrder castDigit (oneOrderWorld "new") twoItemUpdate "7").1
          = some .ErrOrderNotFound ∧
        (SaveUpdatedOrder castDigit (oneOrderWorld "new") twoItemUpdate "7").2.db
          = (oneOrderWorld "new").db) ∧
      ((DeleteOrder (oneOrderWorld "new") 7).1 ≠ none ∧
        (DeleteOrder (oneOrderWorld "new") 7).2.db = (oneOrderWorld "new").db)) :=
  ⟨⟨by decide, by decide, by decide⟩,
   missing_order_not_found castDigit _ twoItemUpdate "7" 7 (by decide) (by decide)
    (by decide)⟩

/-! ## The guarded inventory update as `Add` sees it -/

/-- An `UPDATE` whose guard `Quantity >= $1` holds for no row changes nothing
and is not an error: `Add` drops the result of `tx.Exec`, so it cannot tell
such an update from one that deducted. -/
theorem txExecUpdateInventory_unmatched {w : World} {s : Store} {amount g : Int}
    (hf : NoFaults w.faults) (hs : w.tx = some s)
    (hguard : ∀ r ∈ s.inventory, ¬ (r.IngredientID = g ∧ r.Quantity ≥ amount)) :
    txExecUpdateInventory w amount g = (.ok (), w.after 1 (some s)) := by
  unfold txExecUpdateInventory
  rw [txStep_of_noFaults _ hf hs]
  have hsame : queryUpdateInventory s amount g = s := by
    unfold queryUpdateInventory updateInventoryRows
    have : s.inventory.map (fun r =>
        if r.IngredientID = g ∧ r.Quantity ≥ amount then
          { r with Quantity := r.Quantity - amount } else r) = s.inventory := by
      conv_rhs => rw [← List.map_id s.inventory]
      apply List.map_congr_left
      intro r hr
      simp [hguard r hr]
    rw [this]
  simp only [hsame]

/-! ## Notes that cannot be encoded -/

/-- C21, as stated, fails on its last part: `Add` calls `Begin` (line 38) before
`json.Marshal` (line 57).  With notes that cannot be encoded, a failing `Begin`
is what the call reports; and when `Begin` succeeds the call reports the
encoding failure after one storage call has been made and `tx.Rollback()` has
run once, so a transaction had been opened. -/
theorem Add_begins_before_marshal :
    (Add (latteWorldWithFaults 10 10 [some "begin failed"]) unencodableOrder).err
      = some "begin failed" ∧
    (Add (latteWorldWithFaults 10 10 [none, some "lost"]) unencodableOrder).err
      = some "failed to marshal notes: json: unsupported type" ∧
    (Add (latteWorldWithFaults 10 10 [none, some "lost"]) unencodableOrder).world.faults
      = [some "lost"] ∧
    (Add (latteWorldWithFaults 10 10 [none, some "lost"]) unencodableOrder).world.rollbackCalls
      = 1 := by
  decide

/-- C21, amended: whenever serialising the request's notes fails, for every
world, `Add` returns a non-nil error, a rejected outcome with order ID 0 and no
consumption entry; the committed store is unchanged and the order sequence has
not moved (the header insert is never issued, inside the transaction or
outside); `Begin` is the one storage call made.  When `Begin` succeeds the
transaction it opened is rolled back and the error is the encoding failure;
when `Begin` fails the error is that of `Begin`. -/
theorem Add_unencodable_notes_rejected (w : World) (order : Order) (msg : String)
    (hnotes : jsonMarshal order.Notes = .error msg) :
    (Add w order).err ≠ none ∧
    (Add w order).info.Status = StatusOrderRejected ∧
    (Add w order).info.OrderID = 0 ∧
    (Add w order).updates = [] ∧
    (Add w order).world.db = w.db ∧
    (Add w order).world.nextOrderID = w.nextOrderID ∧
    (Add w order).world.faults = w.faults.tail ∧
    (w.faults.head? = some none ∨ w.faults = [] →
      (Add w order).err = some ("failed to marshal notes: " ++ msg) ∧
      (Add w order).world.tx = none ∧
      (Add w order).world.rollbackCalls = w.rollbackCalls + 1) ∧
    (∀ e, w.faults.head? = some (some e) →
      (Add w order).err = some e ∧ (Add w order).world.tx = w.tx ∧
      (Add w order).world.rollbackCalls = w.rollbackCalls) := by
  obtain ⟨db, tx, rc, faults, nid, now⟩ := w
  rcases faults with _ | ⟨_ | e, fs⟩ <;>
    simp [Frappuccino.Add, dbBegin, World.nextFault, addBody, hnotes, runDeferred, txRollback]

/-- Three Lattes with notes that cannot be encoded, against the store of
Scenario A. -/
theorem Add_unencodable_notes_rejected_witness :
    jsonMarshal unencodableOrder.Notes = .error "json: unsupported type" ∧
    ((Add (latteWorld 10 10) unencodableOrder).err ≠ none ∧
      (Add (latteWorld 10 10) unencodableOrder).info.Status = StatusOrderRejected ∧
      (Add (latteWorld 10 10) unencodableOrder).info.OrderID = 0 ∧
      (Add (latteWorld 10 10) unencodableOrder).world.db = (latteWorld 10 10).db ∧
      (Add (latteWorld 10 10) unencodableOrder).world.nextOrderID = 1) :=
  ⟨rfl,
   (Add_unencodable_notes_rejected (latteWorld 10 10) unencodableOrder _ rfl).1,
   (Add_unencodable_notes_rejected (latteWorld 10 10) unencodableOrder _ rfl).2.1,
   (Add_unencodable_notes_rejected (latteWorld 10 10) unencodableOrder _ rfl).2.2.1,
   (Add_unencodable_notes_rejected (latteWorld 10 10) unencodableOrder _ rfl).2.2.2.2.1,
   (Add_unencodable_notes_rejected (latteWorld 10 10) unencodableOrder _ rfl).2.2.2.2.2.1⟩

/-! ## What an update writes and what it leaves alone -/

theorem dbStep_frame {α β : Type} (frame : Store → β) {w w1 : World}
    {f : Store → Except GoError (α × Store)} {res : Except GoError α}
    (h : dbStep w f = (res, w1))
    (hfr : ∀ s a s1, f s = .ok (a, s1) → frame s1 = frame s) :
    frame w1.db = frame w.db := by
  cases res with
  | error e => rw [dbStep_error h]; rfl
  | ok a =>
    obtain ⟨s1, hf, hw⟩ := dbStep_ok h
    rw [hw]
    exact hfr _ _ _ hf

theorem dbStep_error_kind {α : Type} {w w1 : World} {f : Store → Except GoError (α × Store)}
    {e : GoError} (h : dbStep w f = (.error e, w1)) :
    (∃ m, e = .message m) ∨ f w.db = .error e := by
  unfold dbStep at h
  have hn := nextFault_snd w
  rcases hnf : w.nextFault with ⟨fo, w0⟩
  rw [hnf] at h hn
  simp only at hn
  subst hn
  cases fo with
  | some e1 =>
    simp only [Prod.mk.injEq, Except.error.injEq] at h
    exact Or.inl ⟨e1, h.1.symm⟩
  | none =>
    simp only at h
    cases hfs : f w.db with
    | error e1 =>
      simp only [hfs, Prod.mk.injEq, Except.error.injEq] at h
      rw [← h.1]
      exact Or.inr rfl
    | ok p => obtain ⟨a1, s1⟩ := p; simp [hfs] at h

theorem updateItemsLoop_error_kind (id : Int) (items : List OrderItem) (w : World)
    {e : GoError} (h : (updateItemsLoop id items w).1 = some e) : ∃ m, e = .message m := by
  induction items generalizing w with
  | nil => simp [updateItemsLoop] at h
  | cons v rest ih =>
    unfold updateItemsLoop at h
    split at h
    · rename_i err w1 heq
      simp only [Option.some.injEq] at h
      subst h
      rcases dbStep_error_kind heq with hm | hq
      · exact hm
      · unfold queryUpdateOrderItems at hq
        split at hq
        · rename_i e1 hif
          simp only [Except.error.injEq] at hq
          subst hq
          split at hif
          · simp at hif
          · simp only [Except.error.injEq] at hif
            exact ⟨_, hif.symm⟩
        · simp at hq
    · exact ih _ h

theorem updateItemsLoop_frame {β : Type} (frame : Store → β)
    (hfr : ∀ s pid q id s1, queryUpdateOrderItems s pid q id = .ok s1 → frame s1 = frame s)
    (id : Int) (items : List OrderItem) (w : World) :
    frame (updateItemsLoop id items w).2.db = frame w.db := by
  induction items generalizing w with
  | nil => rfl
  | cons v rest ih =>
    have hcond : ∀ s (a : Unit) s1,
        (match queryUpdateOrderItems s v.ProductID v.Quantity id with
          | .error e => (.error e : Except GoError (Unit × Store))
          | .ok s1 => .ok ((), s1)) = .ok (a, s1) → frame s1 = frame s := by
      intro s a s1 h
      split at h
      · simp at h
      · rename_i s2 hq
        simp only [Except.ok.injEq, Prod.mk.injEq, true_and] at h
        subst h
        exact hfr _ _ _ _ _ hq
    unfold updateItemsLoop
    split
    · rename_i err w1 heq
      exact dbStep_frame frame heq hcond
    · rename_i u w1 heq
      rw [ih w1]
      exact dbStep_frame frame heq hcond

/-- Whatever each statement of `SaveUpdatedOrder` leaves alone, the call leaves
alone. -/
theorem SaveUpdatedOrder_frame {β : Type} (frame : Store → β)
    (hname : ∀ s name id, frame (queryUpdateOrder s name id) = frame s)
    (hitems : ∀ s pid q id s1, queryUpdateOrderItems s pid q id = .ok s1 → frame s1 = frame s)
    (cast : String → Option Int) (w : World) (updatedOrder : Order) (OrderID : String) :
    frame (SaveUpdatedOrder cast w updatedOrder OrderID).2.db = frame w.db := by
  have hcheck : ∀ s (a : String × Int) s1,
      (match cast OrderID with
        | none => (.error (.message invalidInteger) : Except GoError ((String × Int) × Store))
        | some id =>
          match queryCheckStatus s id with
          | none => .error .ErrNoRows
          | some Status => .ok ((Status, id), s)) = .ok (a, s1) → frame s1 = frame s := by
    intro s a s1 h
    split at h
    · simp at h
    · split at h
      · simp at h
      · simp only [Except.ok.injEq, Prod.mk.injEq] at h
        rw [h.2]
  unfold SaveUpdatedOrder
  split
  · rename_i err w1 heq
    have h1 := dbStep_frame frame heq hcheck
    split <;> exact h1
  · rename_i Status id w1 heq
    have h1 := dbStep_frame frame heq hcheck
    split
    · exact h1
    · split
      · rename_i err w2 heq2
        rw [← h1]
        refine dbStep_frame frame heq2 ?_
        intro s a s1 h
        simp only [Except.ok.injEq, Prod.mk.injEq, true_and] at h
        subst h
        exact hname _ _ _
      · rename_i u w2 heq2
        rw [updateItemsLoop_frame frame hitems, ← h1]
        refine dbStep_frame frame heq2 ?_
        intro s a s1 h
        simp only [Except.ok.injEq, Prod.mk.injEq, true_and] at h
        subst h
        exact hname _ _ _

/-- The two typed errors come from the status check, before any write: for
every sequence of storage faults the store is then as before the call. -/
theorem SaveUpdatedOrder_typed_error_keeps_store (cast : String → Option Int) (w : World)
    (updatedOrder : Order) (OrderID : String)
    (h : (SaveUpdatedOrder cast w updatedOrder OrderID).1 = some .ErrOrderNotFound ∨
      (SaveUpdatedOrder cast w updatedOrder OrderID).1 = some .ErrOrderClosed) :
    (SaveUpdatedOrder cast w updatedOrder OrderID).2.db = w.db := by
  have hcheck : ∀ s (a : String × Int) s1,
      (match cast OrderID with
        | none => (.error (.message invalidInteger) : Except GoError ((String × Int) × Store))
        | some id =>
          match queryCheckStatus s id with
          | none => .error .ErrNoRows
          | some Status => .ok ((Status, id), s)) = .ok (a, s1) → s1 = s := by
    intro s a s1 h
    split at h
    · simp at h
    · split at h
      · simp at h
      · simp only [Except.ok.injEq, Prod.mk.injEq] at h
        rw [h.2]
  generalize hr : SaveUpdatedOrder cast w updatedOrder OrderID = r at h ⊢
  unfold SaveUpdatedOrder at hr
  split at hr
  · rename_i err w1 heq
    have h1 := dbStep_frame (fun s => s) heq hcheck
    split at hr <;> (subst hr; exact h1)
  · rename_i Status id w1 heq
    have h1 := dbStep_frame (fun s => s) heq hcheck
    split at hr
    · subst hr
      exact h1
    · exfalso
      split at hr
      · rename_i err w2 heq2
        subst hr
        rcases dbStep_error_kind heq2 with ⟨m, hm⟩ | hq
        · subst hm
          simp at h
        · simp at hq
      · rename_i u w2 heq2
        subst hr
        rcases h with h | h
        · obtain ⟨m, hm⟩ := updateItemsLoop_error_kind _ _ _ h
          simp at hm
        · obtain ⟨m, hm⟩ := updateItemsLoop_error_kind _ _ _ h
          simp at hm

/-- C22: `SaveUpdatedOrder` issues its statements on `repo.db` one by one, with
no transaction around them.  Order 1 belongs to Ann; the replacement renames
the customer to Bob and carries one line; the status read and the update of
`orders` succeed and the update of `order_items` fails.  The call returns that
error, and the customer name in `orders` is Bob: the tables are not as before
the call. -/
theorem SaveUpdatedOrder_partial_update :
    (SaveUpdatedOrder castDigit itemUpdateFails renameUpdate "1").1
      = some (.message "connection lost") ∧
    itemUpdateFails.db.orders.map (fun r => r.CustomerName) = ["Ann"] ∧
    (SaveUpdatedOrder castDigit itemUpdateFails renameUpdate "1").2.db.orders.map
      (fun r => r.CustomerName) = ["Bob"] := by
  decide

/-- The same without any storage failure: order 1 holds two lines, so the
update of `order_items` would leave two rows with one `(OrderID, ProductID)`
pair and the store refuses it; the customer name has already been changed. -/
theorem SaveUpdatedOrder_duplicate_key_partial :
    (SaveUpdatedOrder castDigit twoLineWorld renameUpdate "1").1
      = some (.message duplicateKey) ∧
    (SaveUpdatedOrder castDigit twoLineWorld renameUpdate "1").2.db.orders.map
      (fun r => r.CustomerName) = ["Bob"] ∧
    (SaveUpdatedOrder castDigit twoLineWorld renameUpdate "1").2.db.order_items
      = twoLineStore.order_items := by
  decide

/-- C23: for every world (any store state, any sequence of storage failures),
every replacement order and every ID text, `SaveUpdatedOrder` leaves the
`inventory` table as it was, and leaves the ID, status, notes and creation time
of every row of `orders` as they were; the menu tables and the status history
are untouched as well. -/
theorem SaveUpdatedOrder_keeps_stock (cast : String → Option Int) (w : World)
    (updatedOrder : Order) (OrderID : String) :
    (SaveUpdatedOrder cast w updatedOrder OrderID).2.db.inventory = w.db.inventory ∧
    (SaveUpdatedOrder cast w updatedOrder OrderID).2.db.orders.map
        (fun r => (r.ID, r.Status, r.Notes, r.CreatedAt)) =
      w.db.orders.map (fun r => (r.ID, r.Status, r.Notes, r.CreatedAt)) ∧
    (SaveUpdatedOrder cast w updatedOrder OrderID).2.db.menu_items = w.db.menu_items ∧
    (SaveUpdatedOrder cast w updatedOrder OrderID).2.db.menu_item_ingredients
      = w.db.menu_item_ingredients ∧
    (SaveUpdatedOrder cast w updatedOrder OrderID).2.db.order_status_history
      = w.db.order_status_history := by
  have hitems : ∀ {β : Type} (frame : Store → β),
      (∀ s rows, frame { s with order_items := rows } = frame s) →
      ∀ s pid q id s1, queryUpdateOrderItems s pid q id = .ok s1 → frame s1 = frame s := by
    intro β frame hfr s pid q id s1 h
    unfold queryUpdateOrderItems at h
    split at h
    · simp only [Except.ok.injEq] at h
      subst h
      exact hfr _ _
    · simp at h
  refine ⟨?_, ?_, ?_, ?_, ?_⟩
  · exact SaveUpdatedOrder_frame (fun s => s.inventory) (fun _ _ _ => rfl)
      (hitems _ (fun _ _ => rfl)) cast w updatedOrder OrderID
  · refine SaveUpdatedOrder_frame
      (fun s : Store => s.orders.map (fun r : OrderRow => (r.ID, r.Status, r.Notes, r.CreatedAt))) ?_
      (hitems (fun s : Store => s.orders.map (fun r : OrderRow => (r.ID, r.Status, r.Notes, r.CreatedAt)))
        (fun _ _ => rfl)) cast w updatedOrder OrderID
    intro s name id
    simp only [queryUpdateOrder, List.map_map]
    apply List.map_congr_left
    intro r _
    simp only [Function.comp]
    split <;> rfl
  · exact SaveUpdatedOrder_frame (fun s => s.menu_items) (fun _ _ _ => rfl)
      (hitems _ (fun _ _ => rfl)) cast w updatedOrder OrderID
  · exact SaveUpdatedOrder_frame (fun s => s.menu_item_ingredients) (fun _ _ _ => rfl)
      (hitems _ (fun _ _ => rfl)) cast w updatedOrder OrderID
  · exact SaveUpdatedOrder_frame (fun s => s.order_status_history) (fun _ _ _ => rfl)
      (hitems _ (fun _ _ => rfl)) cast w updatedOrder OrderID

/-! ## The per-line check against the aggregate check -/

theorem demandFor_perm {ds1 ds2 : List (Int × Int)} (h : ds1.Perm ds2) (g : Int) :
    demandFor ds1 g = demandFor ds2 g := by
  unfold demandFor
  exact ((h.filter _).map _).sum_eq

theorem orderDemands_perm (recipes : List MenuItemIngredientRow) {l1 l2 : List OrderItem}
    (h : l1.Perm l2) : (orderDemands recipes l1).Perm (orderDemands recipes l2) := by
  unfold orderDemands
  exact h.flatMap_right _

theorem sufficient_perm {rows : List InventoryRow} {ds1 ds2 : List (Int × Int)}
    (h : ds1.Perm ds2) : Sufficient rows ds1 ↔ Sufficient rows ds2 := by
  unfold Sufficient
  constructor
  · intro hs g hg
    obtain ⟨a, ha, hle⟩ := hs g ((h.map Prod.fst).mem_iff.mpr hg)
    exact ⟨a, ha, by rw [← demandFor_perm h]; exact hle⟩
  · intro hs g hg
    obtain ⟨a, ha, hle⟩ := hs g ((h.map Prod.fst).mem_iff.mp hg)
    exact ⟨a, ha, by rw [demandFor_perm h]; exact hle⟩

theorem mem_orderDemands {recipes : List MenuItemIngredientRow} {items : List OrderItem}
    {d : Int × Int} (hd : d ∈ orderDemands recipes items) :
    ∃ v ∈ items, ∃ r ∈ recipeOf recipes v.ProductID,
      d = (r.IngredientID, r.Quantity * v.Quantity) := by
  unfold orderDemands at hd
  rw [List.mem_flatMap] at hd
  obtain ⟨v, hv, hd⟩ := hd
  rw [List.mem_map] at hd
  obtain ⟨r, hr, hd⟩ := hd
  exact ⟨v, hv, r, hr, hd.symm⟩

theorem demandFor_of_not_mem {ds : List (Int × Int)} {g : Int}
    (h : g ∉ ds.map Prod.fst) : demandFor ds g = 0 := by
  unfold demandFor
  have : ds.filter (fun d => decide (d.1 = g)) = [] := by
    rw [List.filter_eq_nil_iff]
    intro d hd hdg
    exact h (List.mem_map.mpr ⟨d, hd, by simpa using hdg⟩)
  rw [this]
  rfl

/-- C24: with no storage failure, notes that encode, every line's menu item on
the menu, every recipe ingredient of a line in the inventory, non-negative line
and recipe quantities, and products that fit a Go `int`: `Add` accepts the
request if and only if, for every ingredient a recipe of the request uses, the
total demand (the sum of recipeQty x lineQuantity over all lines and recipe
entries) is at most the on-hand quantity before the call.  When no inventory
row is negative the same holds with every ingredient of the inventory.
Acceptance is the same for every permutation of the lines. -/
theorem Add_accepts_iff_total_demand_covered (w : World) (order : Order)
    (hf : NoFaults w.faults)
    (hnotes : ∃ notesJSON, jsonMarshal order.Notes = .ok notesJSON)
    (hmenu : ∀ v ∈ order.Items, (priceOf w.db.menu_items v.ProductID).isSome)
    (hinv : ∀ v ∈ order.Items, ∀ r ∈ recipeOf w.db.menu_item_ingredients v.ProductID,
      (onHand w.db.inventory r.IngredientID).isSome)
    (hq : ∀ v ∈ order.Items, 0 ≤ v.Quantity)
    (hr : ∀ v ∈ order.Items, ∀ r ∈ recipeOf w.db.menu_item_ingredients v.ProductID,
      0 ≤ r.Quantity)
    (hno : NoOverflow w.db.menu_item_ingredients order.Items) :
    ((Add w order).err = none ↔
      ∀ g ∈ (orderDemands w.db.menu_item_ingredients order.Items).map Prod.fst,
        ∀ a, onHand w.db.inventory g = some a →
          demandFor (orderDemands w.db.menu_item_ingredients order.Items) g ≤ a) ∧
    ((∀ r ∈ w.db.inventory, 0 ≤ r.Quantity) →
      ((Add w order).err = none ↔
        ∀ g a, onHand w.db.inventory g = some a →
          demandFor (orderDemands w.db.menu_item_ingredients order.Items) g ≤ a)) ∧
    (∀ items : List OrderItem, items.Perm order.Items →
      ((Add w { order with Items := items }).err = none ↔ (Add w order).err = none)) := by
  have hnn : ∀ (its : List OrderItem), (∀ v ∈ its, v ∈ order.Items) →
      ∀ d ∈ orderDemands w.db.menu_item_ingredients its, 0 ≤ d.2 := by
    intro its hsub d hd
    obtain ⟨v, hv, r, hrm, rfl⟩ := mem_orderDemands hd
    exact mul_nonneg (hr v (hsub v hv) r hrm) (hq v (hsub v hv))
  have hacc := Add_accepted_iff hf hno (hnn order.Items (fun _ h => h))
  have hsuff : Sufficient w.db.inventory (orderDemands w.db.menu_item_ingredients order.Items) ↔
      ∀ g ∈ (orderDemands w.db.menu_item_ingredients order.Items).map Prod.fst,
        ∀ a, onHand w.db.inventory g = some a →
          demandFor (orderDemands w.db.menu_item_ingredients order.Items) g ≤ a := by
    constructor
    · intro hs g hg a ha
      obtain ⟨a1, ha1, hle⟩ := hs g hg
      rw [ha] at ha1
      simp only [Option.some.injEq] at ha1
      subst ha1
      exact hle
    · intro h g hg
      obtain ⟨d, hd, hdg⟩ := List.mem_map.mp hg
      obtain ⟨v, hv, r, hrm, rfl⟩ := mem_orderDemands hd
      have hsome := hinv v hv r hrm
      simp only at hdg
      rw [hdg] at hsome
      obtain ⟨a, ha⟩ := Option.isSome_iff_exists.mp hsome
      exact ⟨a, ha, h g hg a ha⟩
  have h1 : (Add w order).err = none ↔
      ∀ g ∈ (orderDemands w.db.menu_item_ingredients order.Items).map Prod.fst,
        ∀ a, onHand w.db.inventory g = some a →
          demandFor (orderDemands w.db.menu_item_ingredients order.Items) g ≤ a := by
    rw [hacc, ← hsuff]
    exact ⟨fun h => h.2.2, fun h => ⟨hnotes, hmenu, h⟩⟩
  refine ⟨h1, ?_, ?_⟩
  · intro hstock
    rw [h1]
    constructor
    · intro h g a ha
      by_cases hg : g ∈ (orderDemands w.db.menu_item_ingredients order.Items).map Prod.fst
      · exact h g hg a ha
      · rw [demandFor_of_not_mem hg]
        obtain ⟨r, hfind, hqty⟩ := find_of_onHand ha
        rw [← hqty]
        exact hstock r (List.mem_of_find?_eq_some hfind)
    · intro h g _ a ha
      exact h g a ha
  · intro items hp
    have hsub : ∀ v ∈ items, v ∈ order.Items := fun v hv => hp.mem_iff.mp hv
    have hno2 : NoOverflow w.db.menu_item_ingredients items := fun v hv r hrm hm =>
      hno v (hsub v hv) r hrm hm
    have hacc2 := @Add_accepted_iff w { order with Items := items } hf hno2 (hnn items hsub)
    rw [hacc2, hacc]
    simp only
    rw [sufficient_perm (orderDemands_perm w.db.menu_item_ingredients hp)]
    constructor
    · rintro ⟨ha, _, hc⟩
      exact ⟨ha, hmenu, hc⟩
    · rintro ⟨ha, _, hc⟩
      exact ⟨ha, fun v hv => hmenu v (hsub v hv), hc⟩

/-- Scenario C of the spec: two Latte lines (2 and 1) against milk = 10,
espresso = 10. -/
theorem Add_accepts_iff_total_demand_covered_witness :
    (NoFaults (latteWorld 10 10).faults ∧
      (∃ notesJSON, jsonMarshal (latteOrder [2, 1]).Notes = .ok notesJSON) ∧
      (∀ v ∈ (latteOrder [2, 1]).Items,
        (priceOf (latteWorld 10 10).db.menu_items v.ProductID).isSome) ∧
      (∀ v ∈ (latteOrder [2, 1]).Items,
        ∀ r ∈ recipeOf (latteWorld 10 10).db.menu_item_ingredients v.ProductID,
          (onHand (latteWorld 10 10).db.inventory r.IngredientID).isSome) ∧
      (∀ v ∈ (latteOrder [2, 1]).Items, 0 ≤ v.Quantity) ∧
      (∀ v ∈ (latteOrder [2, 1]).Items,
        ∀ r ∈ recipeOf (latteWorld 10 10).db.menu_item_ingredients v.ProductID,
          0 ≤ r.Quantity) ∧
      NoOverflow (latteWorld 10 10).db.menu_item_ingredients (latteOrder [2, 1]).Items) ∧
    ((Add (latteWorld 10 10) (latteOrder [2, 1])).err = none ↔
      ∀ g ∈ (orderDemands (latteWorld 10 10).db.menu_item_ingredients
          (latteOrder [2, 1]).Items).map Prod.fst,
        ∀ a, onHand (latteWorld 10 10).db.inventory g = some a →
          demandFor (orderDemands (latteWorld 10 10).db.menu_item_ingredients
            (latteOrder [2, 1]).Items) g ≤ a) :=
  ⟨⟨by decide, ⟨_, rfl⟩, by decide, by decide, by decide, by decide, by decide⟩,
   (Add_accepts_iff_total_demand_covered (latteWorld 10 10) (latteOrder [2, 1])
    (by decide) ⟨_, rfl⟩ (by decide) (by decide) (by decide) (by decide) (by decide)).1⟩

/-! ## `validateSearchFilters` -/

/-- The loop over the tokens: a refused token gives the error with both flags
false; otherwise each flag is its starting value or the presence of a token
that sets it. -/
theorem filterLoop_spec (args : List String) (isOrders isMenu : Bool) :
    ((∃ v ∈ args, v ≠ "orders" ∧ v ≠ "menu" ∧ v ≠ "all") →
      filterLoop args isOrders isMenu = (false, false, some ErrWrongFilterOptions)) ∧
    ((¬ ∃ v ∈ args, v ≠ "orders" ∧ v ≠ "menu" ∧ v ≠ "all") →
      filterLoop args isOrders isMenu =
        (isOrders || decide ("orders" ∈ args ∨ "all" ∈ args),
         isMenu || decide ("menu" ∈ args ∨ "all" ∈ args), none)) := by
  induction args generalizing isOrders isMenu with
  | nil => simp [filterLoop]
  | cons v rest ih =>
    by_cases hbad : v ≠ "orders" ∧ v ≠ "menu" ∧ v ≠ "all"
    · constructor
      · intro _
        unfold filterLoop
        rw [if_pos hbad]
      · intro h
        exact absurd ⟨v, List.mem_cons_self _ _, hbad⟩ h
    · have hrest : (∃ x ∈ v :: rest, x ≠ "orders" ∧ x ≠ "menu" ∧ x ≠ "all") ↔
          ∃ x ∈ rest, x ≠ "orders" ∧ x ≠ "menu" ∧ x ≠ "all" := by
        constructor
        · rintro ⟨x, hx, hxb⟩
          rcases List.mem_cons.mp hx with rfl | hx
          · exact absurd hxb hbad
          · exact ⟨x, hx, hxb⟩
        · rintro ⟨x, hx, hxb⟩
          exact ⟨x, List.mem_cons_of_mem _ hx, hxb⟩
      rw [hrest]
      unfold filterLoop
      rw [if_neg hbad]
      by_cases h1 : v = "orders"
      · subst h1
        rw [if_pos rfl]
        refine ⟨(ih true isMenu).1, fun h => ?_⟩
        rw [(ih true isMenu).2 h]
        simp
      · rw [if_neg h1]
        by_cases h2 : v = "menu"
        · subst h2
          rw [if_pos rfl]
          refine ⟨(ih isOrders true).1, fun h => ?_⟩
          rw [(ih isOrders true).2 h]
          simp
        · rw [if_neg h2]
          by_cases h3 : v = "all"
          · subst h3
            rw [if_pos rfl]
            refine ⟨(ih true true).1, fun h => ?_⟩
            rw [(ih true true).2 h]
            simp
          · exact absurd ⟨h1, h2, h3⟩ hbad

theorem stringsSplit_ne_nil (s : String) (sep : Char) : stringsSplit s sep ≠ [] := by
  unfold stringsSplit
  intro h
  rw [List.map_eq_nil_iff] at h
  exact List.splitOnP_ne_nil _ _ h

/-- The pieces joined by the separator give back the string. -/
theorem stringsSplit_join (s : String) (sep : Char) :
    String.mk ([sep].intercalate ((stringsSplit s sep).map String.toList)) = s := by
  unfold stringsSplit
  rw [List.map_map]
  have : (String.toList ∘ String.mk) = id := by
    funext l
    rfl
  rw [this, List.map_id, List.intercalate_splitOn]
  rfl

/-- The pieces of some filter strings. -/
theorem stringsSplit_examples :
    stringsSplit "orders,menu" ',' = ["orders", "menu"] ∧
    stringsSplit "all" ',' = ["all"] ∧
    stringsSplit "orders, menu" ',' = ["orders", " menu"] ∧
    stringsSplit "menu," ',' = ["menu", ""] := by
  decide

theorem intercalate_go_toList (acc s : String) (l : List String) :
    (String.intercalate.go acc s l).toList =
      acc.toList ++ (l.map (fun a => s.toList ++ a.toList)).flatten := by
  induction l generalizing acc with
  | nil => simp [String.intercalate.go]
  | cons a as ih =>
    rw [String.intercalate.go, ih]
    simp [String.toList, String.data_append, List.append_assoc]

theorem list_intercalate_cons {α : Type} (sep a : List α) (l : List (List α)) :
    List.intercalate sep (a :: l) = a ++ (l.map (fun b => sep ++ b)).flatten := by
  induction l generalizing a with
  | nil => simp [List.intercalate]
  | cons b bs ih =>
    have := ih b
    simp only [List.intercalate] at this ⊢
    simp only [List.intersperse_cons_cons, List.flatten_cons, this, List.map_cons,
      List.append_assoc]

theorem intercalate_toList (s : String) (l : List String) :
    (String.intercalate s l).toList = List.intercalate s.toList (l.map String.toList) := by
  cases l with
  | nil => rfl
  | cons a as =>
    rw [String.intercalate, intercalate_go_toList, List.map_cons, list_intercalate_cons,
      List.map_map]
    rfl

theorem not_mem_of_mem_splitOnP {α : Type} (p : α → Bool) (xs : List α) :
    ∀ l ∈ xs.splitOnP p, ∀ x ∈ l, p x = false := by
  induction xs with
  | nil =>
    intro l hl x hx
    rw [List.splitOnP_nil, List.mem_singleton] at hl
    rw [hl] at hx
    cases hx
  | cons a as ih =>
    intro l hl x hx
    rw [List.splitOnP_cons] at hl
    by_cases hp : p a = true
    · rw [if_pos hp] at hl
      rcases List.mem_cons.mp hl with rfl | hl
      · cases hx
      · exact ih l hl x hx
    · rw [if_neg hp] at hl
      cases hs : as.splitOnP p with
      | nil => exact absurd hs (List.splitOnP_ne_nil _ _)
      | cons h t =>
        rw [hs] at hl ih
        simp only [List.modifyHead_cons, List.mem_cons] at hl
        rcases hl with rfl | hl
        · rcases List.mem_cons.mp hx with rfl | hx
          · simpa using hp
          · exact ih h (List.mem_cons_self _ _) x hx
        · exact ih l (List.mem_cons_of_mem _ hl) x hx

/-- The pieces `stringsSplit` gives are the comma-separated tokens of the text. -/
theorem commaSeparated_stringsSplit (text : String) :
    CommaSeparated text (stringsSplit text ',') := by
  refine ⟨stringsSplit_ne_nil text ',', ?_, ?_⟩
  · intro t ht hmem
    unfold stringsSplit at ht
    obtain ⟨l, hl, rfl⟩ := List.mem_map.mp ht
    have := not_mem_of_mem_splitOnP (· == ',') text.toList l hl ',' hmem
    simp at this
  · have h1 := intercalate_toList "," (stringsSplit text ',')
    have h2 := stringsSplit_join text ','
    have h3 : ([','] : List Char) = (",".toList) := rfl
    rw [h3, ← h1] at h2
    exact h2

/-- A text has only one list of comma-separated tokens. -/
theorem commaSeparated_unique (text : String) (tokens : List String)
    (h : CommaSeparated text tokens) : tokens = stringsSplit text ',' := by
  obtain ⟨hne, hcomma, hjoin⟩ := h
  unfold stringsSplit
  have h1 := intercalate_toList "," tokens
  rw [hjoin] at h1
  have h3 : (",".toList) = ([','] : List Char) := rfl
  rw [h1, h3, List.splitOn_intercalate _ ',' (by
      intro l hl
      obtain ⟨t, ht, rfl⟩ := List.mem_map.mp hl
      exact hcomma t ht) (by simpa using hne), List.map_map]
  have : (String.mk ∘ String.toList) = id := by
    funext t
    rfl
  rw [this, List.map_id]

/-- C25: every filter string has exactly one list of comma-separated tokens
(a non-empty list of strings without a comma which, joined by ",", give the
filter), and `validateSearchFilters` returns an error if and only if the filter
is non-empty and some token differs from "orders", "menu" and "all" (tokens are
compared as they stand, untrimmed); the error is then `ErrWrongFilterOptions`
with both flags false.  Otherwise `isOrders` is true iff the filter is empty or
has a token "orders" or "all", and `isMenu` is true iff the filter is empty or
has a token "menu" or "all". -/
theorem validateSearchFilters_spec (filter : String) :
    ∃ tokens : List String, CommaSeparated filter tokens ∧
      (∀ others, CommaSeparated filter others → others = tokens) ∧
      ((validateSearchFilters filter).2.2 ≠ none ↔
        filter ≠ "" ∧ ∃ v ∈ tokens, v ≠ "orders" ∧ v ≠ "menu" ∧ v ≠ "all") ∧
      ((validateSearchFilters filter).2.2 ≠ none →
        validateSearchFilters filter = (false, false, some ErrWrongFilterOptions)) ∧
      ((validateSearchFilters filter).2.2 = none →
        ((validateSearchFilters filter).1 = true ↔
          filter = "" ∨ "orders" ∈ tokens ∨ "all" ∈ tokens) ∧
        ((validateSearchFilters filter).2.1 = true ↔
          filter = "" ∨ "menu" ∈ tokens ∨ "all" ∈ tokens)) := by
  refine ⟨stringsSplit filter ',', commaSeparated_stringsSplit filter,
    commaSeparated_unique filter, ?_⟩
  by_cases he : filter = ""
  · subst he
    simp [validateSearchFilters]
  · have hv : validateSearchFilters filter = filterLoop (stringsSplit filter ',') false false := by
      unfold validateSearchFilters
      rw [if_neg he]
    rw [hv]
    by_cases hbad : ∃ v ∈ stringsSplit filter ',', v ≠ "orders" ∧ v ≠ "menu" ∧ v ≠ "all"
    · rw [(filterLoop_spec _ false false).1 hbad]
      simp [he, hbad]
    · rw [(filterLoop_spec _ false false).2 hbad]
      simp [he, hbad]

/-- The comma-separated tokens of some filter strings. -/
theorem commaSeparated_examples :
    CommaSeparated "orders,menu" ["orders", "menu"] ∧
    CommaSeparated "orders, menu" ["orders", " menu"] ∧
    CommaSeparated "menu," ["menu", ""] ∧
    CommaSeparated "" [""] ∧
    ¬ CommaSeparated "orders,menu" ["orders,menu"] := by
  decide


/-- Some filter strings; a blank after the comma or a trailing comma makes a
refused piece. -/
theorem validateSearchFilters_examples :
    validateSearchFilters "" = (true, true, none) ∧
    validateSearchFilters "orders" = (true, false, none) ∧
    validateSearchFilters "menu,orders" = (true, true, none) ∧
    validateSearchFilters "all" = (true, true, none) ∧
    validateSearchFilters "orders, menu" = (false, false, some ErrWrongFilterOptions) ∧
    validateSearchFilters "menu," = (false, false, some ErrWrongFilterOptions) := by
  decide

/-! ## `IngredientsCheckForNewItem` -/

theorem newItemInnerLoop_spec (i : InventoryItem) (ings : List MenuItemIngredient)
    (count : Int) :
    ((∃ e ∈ ings, e.IngredientID = i.IngredientID ∧ e.Quantity > i.Quantity) →
      newItemInnerLoop i ings count = .error notEnoughIngredients) ∧
    ((¬ ∃ e ∈ ings, e.IngredientID = i.IngredientID ∧ e.Quantity > i.Quantity) →
      newItemInnerLoop i ings count =
        .ok (count + (ings.countP (fun e => decide (e.IngredientID = i.IngredientID)) : Nat))) := by
  induction ings generalizing count with
  | nil => simp [newItemInnerLoop]
  | cons e rest ih =>
    by_cases hid : e.IngredientID = i.IngredientID
    · by_cases hq : e.Quantity > i.Quantity
      · constructor
        · intro _
          unfold newItemInnerLoop
          rw [if_pos hid, if_pos hq]
        · intro h
          exact absurd ⟨e, List.mem_cons_self _ _, hid, hq⟩ h
      · have hrest : (∃ x ∈ e :: rest, x.IngredientID = i.IngredientID ∧ x.Quantity > i.Quantity) ↔
            ∃ x ∈ rest, x.IngredientID = i.IngredientID ∧ x.Quantity > i.Quantity := by
          constructor
          · rintro ⟨x, hx, hxb⟩
            rcases List.mem_cons.mp hx with rfl | hx
            · exact absurd hxb.2 hq
            · exact ⟨x, hx, hxb⟩
          · rintro ⟨x, hx, hxb⟩
            exact ⟨x, List.mem_cons_of_mem _ hx, hxb⟩
        rw [hrest]
        unfold newItemInnerLoop
        rw [if_pos hid, if_neg hq]
        refine ⟨(ih (count + 1)).1, fun h => ?_⟩
        rw [(ih (count + 1)).2 h, List.countP_cons_of_pos _ _ (by simpa using hid)]
        congr 1
        push_cast
        ring
    · have hrest : (∃ x ∈ e :: rest, x.IngredientID = i.IngredientID ∧ x.Quantity > i.Quantity) ↔
          ∃ x ∈ rest, x.IngredientID = i.IngredientID ∧ x.Quantity > i.Quantity := by
        constructor
        · rintro ⟨x, hx, hxb⟩
          rcases List.mem_cons.mp hx with rfl | hx
          · exact absurd hxb.1 hid
          · exact ⟨x, hx, hxb⟩
        · rintro ⟨x, hx, hxb⟩
          exact ⟨x, List.mem_cons_of_mem _ hx, hxb⟩
      rw [hrest]
      unfold newItemInnerLoop
      rw [if_neg hid]
      refine ⟨(ih count).1, fun h => ?_⟩
      rw [(ih count).2 h, List.countP_cons_of_neg _ _ (by simpa using hid)]

theorem newItemOuterLoop_spec (ings : List MenuItemIngredient) (inv : List InventoryItem)
    (count : Int) :
    ((∃ i ∈ inv, ∃ e ∈ ings, e.IngredientID = i.IngredientID ∧ e.Quantity > i.Quantity) →
      newItemOuterLoop ings inv count = .error notEnoughIngredients) ∧
    ((¬ ∃ i ∈ inv, ∃ e ∈ ings, e.IngredientID = i.IngredientID ∧ e.Quantity > i.Quantity) →
      newItemOuterLoop ings inv count =
        .ok (count + ((inv.map (fun i =>
          ings.countP (fun e => decide (e.IngredientID = i.IngredientID)))).sum : Nat))) := by
  induction inv generalizing count with
  | nil => simp [newItemOuterLoop]
  | cons i rest ih =>
    by_cases hbad : ∃ e ∈ ings, e.IngredientID = i.IngredientID ∧ e.Quantity > i.Quantity
    · constructor
      · intro _
        unfold newItemOuterLoop
        rw [(newItemInnerLoop_spec i ings count).1 hbad]
      · intro h
        exact absurd ⟨i, List.mem_cons_self _ _, hbad⟩ h
    · have hrest : (∃ x ∈ i :: rest, ∃ e ∈ ings,
            e.IngredientID = x.IngredientID ∧ e.Quantity > x.Quantity) ↔
          ∃ x ∈ rest, ∃ e ∈ ings,
            e.IngredientID = x.IngredientID ∧ e.Quantity > x.Quantity := by
        constructor
        · rintro ⟨x, hx, hxb⟩
          rcases List.mem_cons.mp hx with rfl | hx
          · exact absurd hxb hbad
          · exact ⟨x, hx, hxb⟩
        · rintro ⟨x, hx, hxb⟩
          exact ⟨x, List.mem_cons_of_mem _ hx, hxb⟩
      rw [hrest]
      unfold newItemOuterLoop
      rw [(newItemInnerLoop_spec i ings count).2 hbad]
      simp only
      refine ⟨(ih _).1, fun h => ?_⟩
      rw [(ih _).2 h]
      congr 1
      simp only [List.map_cons, List.sum_cons]
      push_cast
      ring

/-- Counting the matching pairs by inventory item or by ingredient entry gives
the same number. -/
theorem matches_swap (ings : List MenuItemIngredient) (inv : List InventoryItem) :
    (inv.map (fun i => ings.countP (fun e => decide (e.IngredientID = i.IngredientID)))).sum =
      (ings.map (fun e => inv.countP (fun i => decide (i.IngredientID = e.IngredientID)))).sum := by
  induction inv with
  | nil => simp
  | cons i rest ih =>
    simp only [List.map_cons, List.sum_cons, ih]
    clear ih
    induction ings with
    | nil => simp
    | cons e ings ih2 =>
      simp only [List.map_cons, List.sum_cons, List.countP_cons] at ih2 ⊢
      have hsym : decide (e.IngredientID = i.IngredientID) = decide (i.IngredientID = e.IngredientID) := by
        by_cases h : e.IngredientID = i.IngredientID
        · simp [h]
        · have h2 : ¬ i.IngredientID = e.IngredientID := fun x => h x.symm
          simp [h, h2]
      rw [hsym]
      omega

theorem countP_le_one_of_nodup {inv : List InventoryItem}
    (hnd : (inv.map (fun i => i.IngredientID)).Nodup) (g : Int) :
    inv.countP (fun i => decide (i.IngredientID = g)) ≤ 1 := by
  induction inv with
  | nil => simp
  | cons i rest ih =>
    rw [List.map_cons, List.nodup_cons] at hnd
    rw [List.countP_cons]
    by_cases h : i.IngredientID = g
    · have : rest.countP (fun i => decide (i.IngredientID = g)) = 0 := by
        rw [List.countP_eq_zero]
        intro x hx hxg
        apply hnd.1
        rw [h]
        exact List.mem_map.mpr ⟨x, hx, by simpa using hxg⟩
      simp [h, this]
    · simp only [h, decide_False, Bool.false_eq_true, if_false, add_zero]
      exact ih hnd.2

theorem sum_eq_length_iff {α : Type} (f : α → Nat) (l : List α) (hle : ∀ x ∈ l, f x ≤ 1) :
    (l.map f).sum = l.length ↔ ∀ x ∈ l, 0 < f x := by
  have hsum : ∀ l : List α, (∀ x ∈ l, f x ≤ 1) → (l.map f).sum ≤ l.length := by
    intro l
    induction l with
    | nil => simp
    | cons x xs ih =>
      intro h
      simp only [List.map_cons, List.sum_cons, List.length_cons]
      have h1 := h x (List.mem_cons_self _ _)
      have h2 := ih (fun y hy => h y (List.mem_cons_of_mem _ hy))
      omega
  induction l with
  | nil => simp
  | cons x xs ih =>
    simp only [List.map_cons, List.sum_cons, List.length_cons, List.mem_cons, forall_eq_or_imp]
    have h1 := hle x (List.mem_cons_self _ _)
    have hxs : ∀ y ∈ xs, f y ≤ 1 := fun y hy => hle y (List.mem_cons_of_mem _ hy)
    have h2 := hsum xs hxs
    have ih1 : (xs.map f).sum = xs.length ↔ ∀ x ∈ xs, 0 < f x := ih hxs
    rw [← ih1]
    omega

/-- C26: when the inventory's ingredient IDs are pairwise distinct, for every
menu item `IngredientsCheckForNewItem` returns nil if and only if every entry
of the item's ingredient list has an inventory entry with the same ingredient
ID whose on-hand quantity is at least the entry's quantity; and an entry whose
ingredient is absent from the inventory makes the result an error. -/
theorem IngredientsCheckForNewItem_nil_iff (inventoryItems : List InventoryItem)
    (menuItem : MenuItem)
    (hnd : (inventoryItems.map (fun i => i.IngredientID)).Nodup) :
    (IngredientsCheckForNewItem inventoryItems menuItem = none ↔
      ∀ e ∈ menuItem.Ingredients, ∃ i ∈ inventoryItems,
        i.IngredientID = e.IngredientID ∧ e.Quantity ≤ i.Quantity) ∧
    (∀ e ∈ menuItem.Ingredients,
      (∀ i ∈ inventoryItems, i.IngredientID ≠ e.IngredientID) →
        IngredientsCheckForNewItem inventoryItems menuItem ≠ none) := by
  have hcount : ((inventoryItems.map (fun i => menuItem.Ingredients.countP
        (fun e => decide (e.IngredientID = i.IngredientID)))).sum
        = menuItem.Ingredients.length) ↔
      ∀ e ∈ menuItem.Ingredients, ∃ i ∈ inventoryItems, i.IngredientID = e.IngredientID := by
    rw [matches_swap, sum_eq_length_iff _ _ (fun e _ => countP_le_one_of_nodup hnd _)]
    constructor
    · intro h e he
      obtain ⟨i, hi, hie⟩ := List.countP_pos_iff.mp (h e he)
      exact ⟨i, hi, by simpa using hie⟩
    · intro h e he
      obtain ⟨i, hi, hie⟩ := h e he
      exact List.countP_pos_iff.mpr ⟨i, hi, by simpa using hie⟩
  have hmain : IngredientsCheckForNewItem inventoryItems menuItem = none ↔
      ∀ e ∈ menuItem.Ingredients, ∃ i ∈ inventoryItems,
        i.IngredientID = e.IngredientID ∧ e.Quantity ≤ i.Quantity := by
    unfold IngredientsCheckForNewItem
    by_cases hbad : ∃ i ∈ inventoryItems, ∃ e ∈ menuItem.Ingredients,
        e.IngredientID = i.IngredientID ∧ e.Quantity > i.Quantity
    · rw [(newItemOuterLoop_spec _ _ 0).1 hbad]
      refine ⟨fun h => (by cases h), fun h => ?_⟩
      exfalso
      obtain ⟨i, hi, e, he, hid, hq⟩ := hbad
      obtain ⟨i2, hi2, hid2, hq2⟩ := h e he
      have heq : i2 = i := List.inj_on_of_nodup_map hnd hi2 hi (by rw [hid2, hid])
      subst heq
      exact absurd hq (not_lt.mpr hq2)
    · rw [(newItemOuterLoop_spec _ _ 0).2 hbad]
      simp only [zero_add, ne_eq, Nat.cast_inj, ite_not]
      constructor
      · intro h
        split at h
        · rename_i hc
          intro e he
          obtain ⟨i, hi, hid⟩ := hcount.mp hc e he
          refine ⟨i, hi, hid, ?_⟩
          by_contra hlt
          exact hbad ⟨i, hi, e, he, hid.symm, not_le.mp hlt⟩
        · simp at h
      · intro h
        rw [if_pos]
        exact hcount.mpr (fun e he => by
          obtain ⟨i, hi, hid, _⟩ := h e he
          exact ⟨i, hi, hid⟩)
  refine ⟨hmain, ?_⟩
  intro e he habs hnil
  obtain ⟨i, hi, hid, _⟩ := hmain.mp hnil e he
  exact habs i hi hid

/-- The item of 2 of ingredient 1 and 5 of ingredient 2 against an inventory of
10 and 5. -/
theorem IngredientsCheckForNewItem_nil_iff_witness :
    (milkAndEspresso.map (fun i => i.IngredientID)).Nodup ∧
    ((IngredientsCheckForNewItem milkAndEspresso latteItem = none ↔
      ∀ e ∈ latteItem.Ingredients, ∃ i ∈ milkAndEspresso,
        i.IngredientID = e.IngredientID ∧ e.Quantity ≤ i.Quantity) ∧
    (∀ e ∈ latteItem.Ingredients,
      (∀ i ∈ milkAndEspresso, i.IngredientID ≠ e.IngredientID) →
        IngredientsCheckForNewItem milkAndEspresso latteItem ≠ none)) :=
  ⟨by decide, IngredientsCheckForNewItem_nil_iff milkAndEspresso latteItem (by decide)⟩

/-- Without distinct inventory IDs the count can be right by accident: two
inventory entries of ingredient 1 make up for the absent ingredient 2. -/
theorem IngredientsCheckForNewItem_duplicate_inventory :
    IngredientsCheckForNewItem
      [{ IngredientID := 1, Quantity := 10 }, { IngredientID := 1, Quantity := 10 }]
      { ID := 1, Ingredients := [{ IngredientID := 1, Quantity := 2 },
                                 { IngredientID := 2, Quantity := 5 }] } = none := by
  simp [IngredientsCheckForNewItem, newItemOuterLoop, newItemInnerLoop]
  norm_num

/-- The three outcomes on concrete lists. -/
theorem IngredientsCheckForNewItem_examples :
    IngredientsCheckForNewItem milkAndEspresso latteItem = none ∧
    IngredientsCheckForNewItem milkAndEspresso
      { ID := 2, Ingredients := [{ IngredientID := 1, Quantity := 11 }] }
        = some notEnoughIngredients ∧
    IngredientsCheckForNewItem milkAndEspresso
      { ID := 2, Ingredients := [{ IngredientID := 3, Quantity := 1 }] }
        = some noIngredientsInInventory := by
  refine ⟨?_, ?_, ?_⟩
  · simp [IngredientsCheckForNewItem, newItemOuterLoop, newItemInnerLoop, latteItem,
      milkAndEspresso]
    norm_num
  · simp [IngredientsCheckForNewItem, newItemOuterLoop, newItemInnerLoop, milkAndEspresso]
    norm_num
  · simp [IngredientsCheckForNewItem, newItemOuterLoop, newItemInnerLoop, milkAndEspresso]

/-! ## `IngredientsCheckByID` -/

theorem neededFrom_of_not_mem (quantity g : Int) (start : ℚ) (recipe : List MenuItemIngredient)
    (h : ¬ ∃ e ∈ recipe, e.IngredientID = g) : neededFrom quantity g start recipe = start := by
  induction recipe generalizing start with
  | nil => rfl
  | cons e rest ih =>
    have he : ¬ e.IngredientID = g := fun heg => h ⟨e, List.mem_cons_self _ _, heg⟩
    unfold neededFrom
    rw [if_neg he]
    exact ih start (fun ⟨x, hx, hxg⟩ => h ⟨x, List.mem_cons_of_mem _ hx, hxg⟩)

theorem neededFrom_append (quantity g : Int) (start : ℚ) (l1 l2 : List MenuItemIngredient) :
    neededFrom quantity g start (l1 ++ l2) =
      neededFrom quantity g (neededFrom quantity g start l1) l2 := by
  induction l1 generalizing start with
  | nil => rfl
  | cons e rest ih =>
    simp only [List.cons_append, neededFrom]
    split
    · exact ih _
    · exact ih _

theorem neededLoop_spec (quantity : Int) (ings : List MenuItemIngredient)
    (m : Int → Option ℚ) (g : Int) :
    neededLoop quantity ings m g =
      if ∃ e ∈ ings, e.IngredientID = g then some (neededFrom quantity g ((m g).getD 0) ings)
      else m g := by
  induction ings generalizing m with
  | nil => simp [neededLoop]
  | cons e rest ih =>
    unfold neededLoop
    rw [ih]
    by_cases hg : e.IngredientID = g
    · subst hg
      simp only [Function.update_same, Option.getD_some, neededFrom, if_true, List.mem_cons,
        exists_eq_or_imp, true_or]
      split
      · rfl
      · rename_i hno
        rw [neededFrom_of_not_mem _ _ _ _ hno]
    · have hne : g ≠ e.IngredientID := fun h => hg h.symm
      simp only [Function.update_noteq hne, neededFrom, hg, if_false, List.mem_cons,
        exists_eq_or_imp, false_or]

theorem mem_recipeFor {menuItems : List MenuItem} {menuItemID : Int} {e : MenuItemIngredient} :
    e ∈ recipeFor menuItems menuItemID ↔
      ∃ item ∈ menuItems, item.ID = menuItemID ∧ e ∈ item.Ingredients := by
  unfold recipeFor
  simp only [List.mem_flatMap, List.mem_filter, decide_eq_true_eq]
  constructor
  · rintro ⟨item, ⟨h1, h2⟩, h3⟩
    exact ⟨item, h1, h2, h3⟩
  · rintro ⟨item, h1, h2, h3⟩
    exact ⟨item, ⟨h1, h2⟩, h3⟩

theorem recipeFor_cons (item : MenuItem) (rest : List MenuItem) (menuItemID : Int) :
    recipeFor (item :: rest) menuItemID =
      (if item.ID = menuItemID then item.Ingredients else []) ++ recipeFor rest menuItemID := by
  unfold recipeFor
  by_cases h : item.ID = menuItemID
  · simp [h]
  · simp [h]

theorem menuItemsLoop_spec (menuItemID quantity : Int) (menuItems : List MenuItem)
    (m : Int → Option ℚ) (g : Int) :
    menuItemsLoop menuItemID quantity menuItems m g =
      if ∃ e ∈ recipeFor menuItems menuItemID, e.IngredientID = g then
        some (neededFrom quantity g ((m g).getD 0) (recipeFor menuItems menuItemID))
      else m g := by
  induction menuItems generalizing m with
  | nil => simp [menuItemsLoop, recipeFor]
  | cons item rest ih =>
    unfold menuItemsLoop
    rw [recipeFor_cons]
    by_cases hid : item.ID = menuItemID
    · simp only [hid, if_true]
      rw [ih, neededLoop_spec, neededFrom_append]
      by_cases h1 : ∃ e ∈ item.Ingredients, e.IngredientID = g
      · have h12 : ∃ e ∈ item.Ingredients ++ recipeFor rest menuItemID, e.IngredientID = g := by
          obtain ⟨e, he, heg⟩ := h1
          exact ⟨e, List.mem_append_left _ he, heg⟩
        simp only [h1, h12, if_true, Option.getD_some]
        split
        · rfl
        · rename_i hno
          rw [neededFrom_of_not_mem _ _ _ _ hno]
      · have hiff : (∃ e ∈ item.Ingredients ++ recipeFor rest menuItemID, e.IngredientID = g) ↔
            ∃ e ∈ recipeFor rest menuItemID, e.IngredientID = g := by
          constructor
          · rintro ⟨e, he, heg⟩
            rcases List.mem_append.mp he with he | he
            · exact absurd ⟨e, he, heg⟩ h1
            · exact ⟨e, he, heg⟩
          · rintro ⟨e, he, heg⟩
            exact ⟨e, List.mem_append_right _ he, heg⟩
        simp only [h1, if_false, hiff, neededFrom_of_not_mem _ _ _ _ h1]
    · simp only [hid, if_false, List.nil_append]
      exact ih m

theorem ingredientsNeeded_spec (menuItemID quantity : Int) (menuItems : List MenuItem)
    (i : InventoryItem) :
    menuItemsLoop menuItemID quantity menuItems (fun _ => none) i.IngredientID =
      if InRecipe (recipeFor menuItems menuItemID) i then
        some (neededFor (recipeFor menuItems menuItemID) quantity i.IngredientID)
      else none := by
  rw [menuItemsLoop_spec]
  unfold InRecipe neededFor
  simp

theorem inventoryLoop_spec (N : Int → Option ℚ) (inv : List InventoryItem) (flag : Bool) :
    ((∃ i ∈ inv, ∃ value, N i.IngredientID = some value ∧ value > i.Quantity) →
      inventoryLoop N inv flag = .error notEnoughIngredients) ∧
    ((¬ ∃ i ∈ inv, ∃ value, N i.IngredientID = some value ∧ value > i.Quantity) →
      inventoryLoop N inv flag =
        .ok (flag || decide (∃ i ∈ inv, (N i.IngredientID).isSome))) := by
  induction inv generalizing flag with
  | nil => simp [inventoryLoop]
  | cons i rest ih =>
    cases hN : N i.IngredientID with
    | none =>
      have hrest : (∃ x ∈ i :: rest, ∃ value, N x.IngredientID = some value ∧ value > x.Quantity) ↔
          ∃ x ∈ rest, ∃ value, N x.IngredientID = some value ∧ value > x.Quantity := by
        constructor
        · rintro ⟨x, hx, hxb⟩
          rcases List.mem_cons.mp hx with rfl | hx
          · obtain ⟨v, hv, _⟩ := hxb
            rw [hN] at hv
            cases hv
          · exact ⟨x, hx, hxb⟩
        · rintro ⟨x, hx, hxb⟩
          exact ⟨x, List.mem_cons_of_mem _ hx, hxb⟩
      rw [hrest]
      unfold inventoryLoop
      simp only [hN]
      refine ⟨(ih flag).1, fun h => ?_⟩
      rw [(ih flag).2 h]
      simp [hN]
    | some value =>
      by_cases hq : value > i.Quantity
      · constructor
        · intro _
          unfold inventoryLoop
          simp only [hN, hq, if_true]
        · intro h
          exact absurd ⟨i, List.mem_cons_self _ _, value, hN, hq⟩ h
      · have hrest : (∃ x ∈ i :: rest, ∃ value, N x.IngredientID = some value ∧
              value > x.Quantity) ↔
            ∃ x ∈ rest, ∃ value, N x.IngredientID = some value ∧ value > x.Quantity := by
          constructor
          · rintro ⟨x, hx, hxb⟩
            rcases List.mem_cons.mp hx with rfl | hx
            · obtain ⟨v, hv, hvq⟩ := hxb
              rw [hN] at hv
              simp only [Option.some.injEq] at hv
              subst hv
              exact absurd hvq hq
            · exact ⟨x, hx, hxb⟩
          · rintro ⟨x, hx, hxb⟩
            exact ⟨x, List.mem_cons_of_mem _ hx, hxb⟩
        rw [hrest]
        unfold inventoryLoop
        simp only [hN, hq, if_false]
        refine ⟨(ih true).1, fun h => ?_⟩
        rw [(ih true).2 h]
        simp [hN]

/-- With the ingredient listed once, the amount needed is the one product added
to 0. -/
theorem neededFor_of_nodup {recipe : List MenuItemIngredient}
    (hnd : (recipe.map (fun e => e.IngredientID)).Nodup) (quantity : Int)
    {e : MenuItemIngredient} (he : e ∈ recipe) :
    neededFor recipe quantity e.IngredientID =
      float64Add 0 (float64Mul e.Quantity (float64OfInt quantity)) := by
  unfold neededFor
  generalize (0 : ℚ) = start
  induction recipe generalizing start with
  | nil => simp at he
  | cons x rest ih =>
    rw [List.map_cons, List.nodup_cons] at hnd
    unfold neededFrom
    rcases List.mem_cons.mp he with rfl | he
    · rw [if_pos rfl]
      apply neededFrom_of_not_mem
      rintro ⟨y, hy, hye⟩
      exact hnd.1 (List.mem_map.mpr ⟨y, hy, hye⟩)
    · have hne : x.IngredientID ≠ e.IngredientID := by
        intro h
        exact hnd.1 (List.mem_map.mpr ⟨e, he, h.symm⟩)
      rw [if_neg hne]
      exact ih hnd.2 he start

/-- The one product added to 0 is the exact product when neither the conversion
of the quantity nor the product rounds. -/
theorem float64_single_product (recipeQty : ℚ) (quantity : Int)
    (hq : IsFloat64 (quantity : ℚ)) (hp : IsFloat64 (recipeQty * (quantity : ℚ))) :
    float64Add 0 (float64Mul recipeQty (float64OfInt quantity)) = recipeQty * (quantity : ℚ) := by
  unfold float64Add float64Mul float64OfInt
  rw [hq.1, hp.1, zero_add, hp.1]

/-- Small whole numbers are `float64` values. -/
theorem roundFloat64_small :
    roundFloat64 1 = 1 ∧ roundFloat64 2 = 2 ∧ roundFloat64 4 = 4 ∧ roundFloat64 5 = 5 ∧
      roundFloat64 10 = 10 := by
  refine ⟨?_, ?_, ?_, ?_, ?_⟩
  · rw [roundFloat64_of_near 0 4503599627370496 (by norm_num) (by norm_num) (by norm_num)
      (by norm_num) (by norm_num)]
    norm_num
  · rw [roundFloat64_of_near 1 4503599627370496 (by norm_num) (by norm_num) (by norm_num)
      (by norm_num) (by norm_num)]
    norm_num
  · rw [roundFloat64_of_near 2 4503599627370496 (by norm_num) (by norm_num) (by norm_num)
      (by norm_num) (by norm_num)]
    norm_num
  · rw [roundFloat64_of_near 2 5629499534213120 (by norm_num) (by norm_num) (by norm_num)
      (by norm_num) (by norm_num)]
    norm_num
  · rw [roundFloat64_of_near 3 5629499534213120 (by norm_num) (by norm_num) (by norm_num)
      (by norm_num) (by norm_num)]
    norm_num

/-- 0.1 x 10 in `float64` is 1: the exact product, 1.000000000000000055..., is
nearer to 1 than to the next `float64`. -/
theorem float64Mul_tenth_ten : float64Mul float64Tenth 10 = 1 := by
  unfold float64Mul float64Tenth
  rw [roundFloat64_of_near 0 4503599627370496 (by norm_num) (by norm_num) (by norm_num)
    (by norm_num) (by norm_num)]
  norm_num

/-- The conversion `float64(9007199254740993)` gives 9007199254740992: 2^53 + 1
lies half-way between two neighbours and goes to the even one. -/
theorem float64OfInt_two_pow_53_succ : float64OfInt 9007199254740993 = 9007199254740992 := by
  unfold float64OfInt
  rw [roundFloat64_of_tie 53 4503599627370496 (by norm_num) (by norm_num) (by norm_num)
    (by norm_num)]
  norm_num

theorem roundFloat64_two_pow_53 : roundFloat64 9007199254740992 = 9007199254740992 := by
  rw [roundFloat64_of_near 53 4503599627370496 (by norm_num) (by norm_num) (by norm_num)
    (by norm_num) (by norm_num)]
  norm_num

/-- C27, as stated, fails: with a recipe of 0.1 (the nearest `float64`) of
ingredient 1 per unit, 1 unit on hand and quantity 10, the function returns nil
although recipeQty x quantity, 1.000000000000000055..., is above the on-hand 1;
the `float64` product is 1. -/
theorem IngredientsCheckByID_rounded_product :
    IngredientsCheckByID [syrupItem] syrupStock 1 10 = none ∧
    ((recipeFor [syrupItem] 1).map (fun e => e.IngredientID)).Nodup ∧
    (∃ e ∈ recipeFor [syrupItem] 1, ∃ i ∈ syrupStock,
      e.IngredientID = i.IngredientID ∧ i.Quantity < e.Quantity * ((10 : Int) : ℚ)) ∧
    float64Mul float64Tenth (float64OfInt 10) = 1 := by
  have h10 : float64OfInt 10 = 10 := by
    unfold float64OfInt
    exact_mod_cast roundFloat64_small.2.2.2.2
  have hm : float64Mul float64Tenth (float64OfInt 10) = 1 := by
    rw [h10, float64Mul_tenth_ten]
  have ha : float64Add 0 1 = 1 := by
    unfold float64Add
    rw [zero_add, roundFloat64_small.1]
  refine ⟨?_, by decide, ?_, hm⟩
  · simp [IngredientsCheckByID, menuItemsLoop, neededLoop, inventoryLoop, syrupItem,
      syrupStock, Function.update_apply, hm, ha]
  · refine ⟨{ IngredientID := 1, Quantity := float64Tenth }, by simp [recipeFor, syrupItem],
      { IngredientID := 1, Quantity := 1 }, by simp [syrupStock], rfl, ?_⟩
    simp only [float64Tenth]
    norm_num

/-- C27, amended: for every menu item ID and quantity (and whatever the two
`GetAll` calls hand back), `IngredientsCheckByID` returns nil if and only if at
least one inventory entry is an ingredient of the item's recipe and every such
entry has on-hand at least the amount needed, computed in `float64`; it returns
"not enough ingredients for item" iff some such entry is short, and "no
ingredients for item in inventory" iff no inventory entry is an ingredient of
the recipe, which includes the case that no menu item carries the ID.  When the
recipe lists the ingredient once, the amount needed is the `float64` product
recipeQty x float64(quantity) added to 0, and it is recipeQty x quantity
whenever neither the conversion of the quantity nor the product rounds. -/
theorem IngredientsCheckByID_spec (menuItems : List MenuItem)
    (inventoryItems : List InventoryItem) (menuItemID quantity : Int) :
    (IngredientsCheckByID menuItems inventoryItems menuItemID quantity = none ↔
      (∃ i ∈ inventoryItems, InRecipe (recipeFor menuItems menuItemID) i) ∧
      ∀ i ∈ inventoryItems, InRecipe (recipeFor menuItems menuItemID) i →
        neededFor (recipeFor menuItems menuItemID) quantity i.IngredientID ≤ i.Quantity) ∧
    (IngredientsCheckByID menuItems inventoryItems menuItemID quantity
        = some notEnoughIngredients ↔
      ∃ i ∈ inventoryItems, InRecipe (recipeFor menuItems menuItemID) i ∧
        i.Quantity < neededFor (recipeFor menuItems menuItemID) quantity i.IngredientID) ∧
    (IngredientsCheckByID menuItems inventoryItems menuItemID quantity
        = some noIngredientsInInventory ↔
      ∀ i ∈ inventoryItems, ¬ InRecipe (recipeFor menuItems menuItemID) i) ∧
    ((∀ item ∈ menuItems, item.ID ≠ menuItemID) →
      IngredientsCheckByID menuItems inventoryItems menuItemID quantity
        = some noIngredientsInInventory) ∧
    (((recipeFor menuItems menuItemID).map (fun e => e.IngredientID)).Nodup →
      ∀ e ∈ recipeFor menuItems menuItemID,
        neededFor (recipeFor menuItems menuItemID) quantity e.IngredientID
          = float64Add 0 (float64Mul e.Quantity (float64OfInt quantity)) ∧
        (IsFloat64 (quantity : ℚ) → IsFloat64 (e.Quantity * (quantity : ℚ)) →
          neededFor (recipeFor menuItems menuItemID) quantity e.IngredientID
            = e.Quantity * (quantity : ℚ))) := by
  have hshort : (∃ i ∈ inventoryItems, ∃ value,
        menuItemsLoop menuItemID quantity menuItems (fun _ => none) i.IngredientID = some value ∧
          value > i.Quantity) ↔
      ∃ i ∈ inventoryItems, InRecipe (recipeFor menuItems menuItemID) i ∧
        i.Quantity < neededFor (recipeFor menuItems menuItemID) quantity i.IngredientID := by
    constructor
    · rintro ⟨i, hi, value, hv, hq⟩
      rw [ingredientsNeeded_spec] at hv
      split at hv
      · rename_i hin
        simp only [Option.some.injEq] at hv
        subst hv
        exact ⟨i, hi, hin, hq⟩
      · cases hv
    · rintro ⟨i, hi, hin, hq⟩
      exact ⟨i, hi, _, by rw [ingredientsNeeded_spec, if_pos hin], hq⟩
  have hpresent : (∃ i ∈ inventoryItems,
        (menuItemsLoop menuItemID quantity menuItems (fun _ => none) i.IngredientID).isSome) ↔
      ∃ i ∈ inventoryItems, InRecipe (recipeFor menuItems menuItemID) i := by
    constructor
    · rintro ⟨i, hi, hs⟩
      rw [ingredientsNeeded_spec] at hs
      split at hs
      · rename_i hin
        exact ⟨i, hi, hin⟩
      · cases hs
    · rintro ⟨i, hi, hin⟩
      exact ⟨i, hi, by rw [ingredientsNeeded_spec, if_pos hin]; rfl⟩
  have hne : notEnoughIngredients ≠ noIngredientsInInventory := by decide
  have h3 : IngredientsCheckByID menuItems inventoryItems menuItemID quantity
        = some noIngredientsInInventory ↔
      ∀ i ∈ inventoryItems, ¬ InRecipe (recipeFor menuItems menuItemID) i := by
    unfold IngredientsCheckByID
    by_cases hs : ∃ i ∈ inventoryItems, InRecipe (recipeFor menuItems menuItemID) i ∧
        i.Quantity < neededFor (recipeFor menuItems menuItemID) quantity i.IngredientID
    · rw [(inventoryLoop_spec _ _ false).1 (hshort.mpr hs)]
      simp only [Option.some.injEq, hne, false_iff]
      intro h
      obtain ⟨i, hi, hin, _⟩ := hs
      exact h i hi hin
    · rw [(inventoryLoop_spec _ _ false).2 (fun h => hs (hshort.mp h))]
      simp only [Bool.false_or, decide_eq_true_eq, hpresent]
      by_cases hp : ∃ i ∈ inventoryItems, InRecipe (recipeFor menuItems menuItemID) i
      · rw [if_pos hp]
        refine ⟨fun h => (by cases h), fun h => ?_⟩
        obtain ⟨i, hi, hin⟩ := hp
        exact absurd hin (h i hi)
      · rw [if_neg hp]
        refine ⟨fun _ i hi hin => hp ⟨i, hi, hin⟩, fun _ => rfl⟩
  refine ⟨?_, ?_, h3, ?_, ?_⟩
  · unfold IngredientsCheckByID
    by_cases hs : ∃ i ∈ inventoryItems, InRecipe (recipeFor menuItems menuItemID) i ∧
        i.Quantity < neededFor (recipeFor menuItems menuItemID) quantity i.IngredientID
    · rw [(inventoryLoop_spec _ _ false).1 (hshort.mpr hs)]
      refine ⟨fun h => (by cases h), fun h => ?_⟩
      exfalso
      obtain ⟨i, hi, hin, hq⟩ := hs
      exact absurd (h.2 i hi hin) (not_le.mpr hq)
    · rw [(inventoryLoop_spec _ _ false).2 (fun h => hs (hshort.mp h))]
      simp only [Bool.false_or, decide_eq_true_eq, hpresent]
      by_cases hp : ∃ i ∈ inventoryItems, InRecipe (recipeFor menuItems menuItemID) i
      · rw [if_pos hp]
        refine ⟨fun _ => ⟨hp, fun i hi hin => ?_⟩, fun _ => rfl⟩
        by_contra hlt
        exact hs ⟨i, hi, hin, not_le.mp hlt⟩
      · rw [if_neg hp]
        refine ⟨fun h => (by cases h), fun h => absurd h.1 hp⟩
  · unfold IngredientsCheckByID
    by_cases hs : ∃ i ∈ inventoryItems, InRecipe (recipeFor menuItems menuItemID) i ∧
        i.Quantity < neededFor (recipeFor menuItems menuItemID) quantity i.IngredientID
    · rw [(inventoryLoop_spec _ _ false).1 (hshort.mpr hs)]
      exact ⟨fun _ => hs, fun _ => rfl⟩
    · rw [(inventoryLoop_spec _ _ false).2 (fun h => hs (hshort.mp h))]
      simp only [Bool.false_or, decide_eq_true_eq, hpresent]
      refine ⟨fun h => ?_, fun h => absurd h hs⟩
      exfalso
      split at h
      · cases h
      · simp only [Option.some.injEq] at h
        exact hne h.symm
  · intro hmissing
    rw [h3]
    rintro i _ ⟨e, he, _⟩
    obtain ⟨item, hitem, hid, _⟩ := mem_recipeFor.mp he
    exact hmissing item hitem hid
  · intro hnd e he
    refine ⟨neededFor_of_nodup hnd quantity he, fun hq hp => ?_⟩
    rw [neededFor_of_nodup hnd quantity he, float64_single_product _ _ hq hp]

theorem beanItem_check (quantity : Int) (hq : float64OfInt quantity = 9007199254740992) :
    IngredientsCheckByID [beanItem] beanStock 1 quantity = none := by
  have hm : float64Mul 1 (float64OfInt quantity) = 9007199254740992 := by
    rw [hq]
    unfold float64Mul
    rw [one_mul, roundFloat64_two_pow_53]
  have ha : float64Add 0 9007199254740992 = 9007199254740992 := by
    unfold float64Add
    rw [zero_add, roundFloat64_two_pow_53]
  simp [IngredientsCheckByID, menuItemsLoop, neededLoop, inventoryLoop, beanItem,
    beanStock, Function.update_apply, hm, ha]

/-- The conversion of the quantity rounds too: with a recipe of 1 of
ingredient 1 per unit, 2^53 units on hand and quantity 2^53 + 1, the function
returns nil. -/
theorem IngredientsCheckByID_rounded_quantity :
    IngredientsCheckByID [beanItem] beanStock 1 9007199254740993 = none :=
  beanItem_check _ float64OfInt_two_pow_53_succ

/-- The three outcomes on concrete lists. -/
theorem IngredientsCheckByID_examples :
    IngredientsCheckByID [latteItem] milkAndEspresso 1 1 = none ∧
    IngredientsCheckByID [latteItem] milkAndEspresso 1 2 = some notEnoughIngredients ∧
    IngredientsCheckByID [latteItem] milkAndEspresso 9 1 = some noIngredientsInInventory := by
  obtain ⟨r1, r2, r4, r5, r10⟩ := roundFloat64_small
  refine ⟨?_, ?_, ?_⟩
  · norm_num [IngredientsCheckByID, menuItemsLoop, neededLoop, inventoryLoop, latteItem,
      milkAndEspresso, Function.update_apply, float64Add, float64Mul, float64OfInt,
      r1, r2, r4, r5, r10]
  · norm_num [IngredientsCheckByID, menuItemsLoop, neededLoop, inventoryLoop, latteItem,
      milkAndEspresso, Function.update_apply, float64Add, float64Mul, float64OfInt,
      r1, r2, r4, r5, r10]
  · simp [IngredientsCheckByID, menuItemsLoop, neededLoop, inventoryLoop, latteItem,
      milkAndEspresso, Function.update_apply]

end Frappuccino
